import Mathlib

/-!
# Flappy bird: a shallow embedding of `src/game.js`

The simulation core of the game (state machine, kinematics, obstacle queue,
collision test, best-score loading) is embedded as pure functions over an
explicit `Game` record.  JavaScript numbers are idealised as exact rationals
(`ℚ`), the score counters as integers.  What the code reads from its
environment is passed in explicitly:

* `W`, `H` : `canvas.width` and `canvas.height` (`WORLD_WIDTH`, `WORLD_HEIGHT`);
* `rand : ℕ → ℚ` : the successive results of `Math.random()`;
* `sinY`, `sinR` : the two values of `Math.sin(performance.now() / …)` read by
  the idle animation;
* `stored : Option String` : the item of `localStorage` under `"flappy-best"`.
-/

namespace Flappy

/-! ## Constants -/

def GROUND_HEIGHT : ℚ := 120
def gravity : ℚ := 1500
def flapVelocity : ℚ := -430
def maxFallSpeed : ℚ := 700
def pipeWidth : ℚ := 88
def pipeGap : ℚ := 185
def pipeSpeed : ℚ := 190
def pipeSpacing : ℚ := 250
def pipeStartOffset : ℚ := 260
def minTopHeight : ℚ := 60
def minBottomHeight : ℚ := 60
def minGapY : ℚ := minTopHeight + pipeGap / 2
def maxGapY (H : ℚ) : ℚ := H - GROUND_HEIGHT - minBottomHeight - pipeGap / 2

/-- The field `bird.radius`: initialised to 20 and never assigned. -/
def birdRadius : ℚ := 20

/-! ## Data model -/

/-- The three values of the variable `state`. -/
inductive GameState where
  | ready
  | playing
  | gameOver
  deriving DecidableEq, Repr

/-- The object `bird` (its constant `radius` is `birdRadius`). -/
structure Bird where
  x : ℚ
  y : ℚ
  vy : ℚ
  rotation : ℚ
  wingTick : ℚ
  deriving DecidableEq, Repr

/-- The object `camera`. -/
structure Camera where
  groundOffset : ℚ
  cloudOffset : ℚ
  deriving DecidableEq, Repr

/-- One element of the array `pipes`. -/
structure Pipe where
  x : ℚ
  gapY : ℚ
  passed : Bool
  deriving DecidableEq, Repr

/-- The mutable variables of the closure, with the storage item `"flappy-best"`
as the field `stored`. -/
structure Game where
  state : GameState
  lastTime : ℚ
  score : ℤ
  best : ℤ
  stored : Option String
  bird : Bird
  camera : Camera
  pipes : List Pipe
  deriving DecidableEq, Repr

/-- What one `update` reads from outside: the two sines of the idle animation
and the stream of `Math.random()` results. -/
structure Env where
  sinY : ℚ
  sinR : ℚ
  rand : ℕ → ℚ

/-! ## Best score at start-up -/

/-- The characters `parseInt` skips at the start (ECMAScript `StrWhiteSpaceChar`). -/
def isStrWhiteSpaceChar (c : Char) : Bool :=
  c.toNat ∈ [0x9, 0xA, 0xB, 0xC, 0xD, 0x20, 0xA0, 0x1680, 0x2000, 0x2001, 0x2002,
    0x2003, 0x2004, 0x2005, 0x2006, 0x2007, 0x2008, 0x2009, 0x200A, 0x2028, 0x2029,
    0x202F, 0x205F, 0x3000, 0xFEFF]

/-- The value of a run of decimal digits, most significant first. -/
def digitsValue (ds : List Char) : ℤ :=
  ds.foldl (fun n c => 10 * n + ((c.toNat - 48 : ℕ) : ℤ)) 0

/-- The number that `Number.parseInt` returns: `NaN`, an integer of magnitude at most
`2^53` (every such integer is a double, so the value is exact), or a double of
larger magnitude (the digits rounded to a double, possibly `Infinity`), of which
only the sign is kept here. -/
inductive Parsed where
  | nan
  | int (n : ℤ)
  | big (negative : Bool)
  deriving DecidableEq, Repr

/-- The call `Number.parseInt(s, 10)`, step by step as ECMAScript defines it: skip
leading white space; a first character `-` sets the sign; a first character `+`
or `-` is removed; the longest run of decimal digits is read; without a digit the
result is `NaN`.  The digits give an exact integer up to `2^53 = 9007199254740992`;
beyond that the result is a rounded double, returned as `Parsed.big`. -/
def parseInt10 (s : String) : Parsed :=
  let cs := s.toList.dropWhile isStrWhiteSpaceChar
  let sign : ℤ := if cs.head? = some '-' then -1 else 1
  let body := if cs.head? = some '+' ∨ cs.head? = some '-' then cs.tail else cs
  let ds := body.takeWhile Char.isDigit
  if ds = [] then .nan
  else if digitsValue ds ≤ 9007199254740992 then .int (sign * digitsValue ds)
  else .big (decide (sign = -1))

/-- The initialiser of `best`:
`Number.parseInt(localStorage.getItem("flappy-best") || "0", 10)`.
An absent item (`null`) and the empty string are falsy, so `"0"` is parsed. -/
def loadBest (item : Option String) : Parsed :=
  match item with
  | none => parseInt10 "0"
  | some s => if s = "" then parseInt10 "0" else parseInt10 s

/-- The call `String(best)` on an integer. -/
def jsString (n : ℤ) : String := toString n

/-! ## Helpers -/

def clamp (value mn mx : ℚ) : ℚ := max mn (min mx value)

/-- The remainder operator `%` of JavaScript (truncated division, sign of the
dividend), for a non-zero divisor. -/
def jsRem (a b : ℚ) : ℚ :=
  a - b * (if 0 ≤ a / b then (⌊a / b⌋ : ℚ) else (⌈a / b⌉ : ℚ))

def randomGapY (H r : ℚ) : ℚ := minGapY + r * (maxGapY H - minGapY)

/-- The call `spawnPipe(x)`, with `r` the result of its `Math.random()`. -/
def spawnPipe (H x r : ℚ) (g : Game) : Game :=
  { g with pipes := g.pipes ++ [{ x := x, gapY := randomGapY H r, passed := false }] }

/-- The module-level initial values, before the first `resetRound()`. -/
def initGame (best : ℤ) (stored : Option String) : Game :=
  { state := .ready, lastTime := 0, score := 0, best := best, stored := stored,
    bird := { x := 140, y := 300, vy := 0, rotation := 0, wingTick := 0 },
    camera := { groundOffset := 0, cloudOffset := 0 },
    pipes := [] }

def resetRound (W H : ℚ) (rand : ℕ → ℚ) (g : Game) : Game :=
  let g : Game :=
    { g with
      state := .ready
      bird := { x := 140, y := 300, vy := 0, rotation := 0, wingTick := 0 }
      score := 0
      pipes := [] }
  let g := spawnPipe H (W + pipeStartOffset + 0 * pipeSpacing) (rand 0) g
  let g := spawnPipe H (W + pipeStartOffset + 1 * pipeSpacing) (rand 1) g
  spawnPipe H (W + pipeStartOffset + 2 * pipeSpacing) (rand 2) g

def flap (g : Game) : Game :=
  { g with bird := { g.bird with vy := flapVelocity, wingTick := 1 / 10 } }

def startRound (g : Game) : Game :=
  if g.state = .ready then flap { g with state := .playing } else g

def onActionInput (W H : ℚ) (rand : ℕ → ℚ) (g : Game) : Game :=
  if g.state = .ready then startRound g
  else if g.state = .playing then flap g
  else resetRound W H rand g

def updateBird (H dt sinY sinR : ℚ) (g : Game) : Game :=
  if g.state = .ready then
    { g with bird := { g.bird with
        wingTick := g.bird.wingTick + dt * 8
        y := 300 + sinY * 10
        rotation := sinR * (8 / 100) } }
  else
    let vy := clamp (g.bird.vy + gravity * dt) (-1000) maxFallSpeed
    let y := g.bird.y + vy * dt
    let wingTick := g.bird.wingTick + dt * 16
    let rotation := clamp (vy / maxFallSpeed * (12 / 10)) (-(55 / 100)) (12 / 10)
    let floor := H - GROUND_HEIGHT - birdRadius
    if y > floor then
      { g with bird := { g.bird with y := floor, vy := 0, rotation := 12 / 10,
                                     wingTick := wingTick } }
    else
      { g with bird := { g.bird with y := y, vy := vy, rotation := rotation,
                                     wingTick := wingTick } }

def updateWorld (W dt : ℚ) (g : Game) : Game :=
  { g with camera :=
      { groundOffset := jsRem (g.camera.groundOffset + pipeSpeed * dt) 48
        cloudOffset := jsRem (g.camera.cloudOffset + pipeSpeed * (15 / 100) * dt) W } }

def circleRectCollide (cx cy cr rx ry rw rh : ℚ) : Bool :=
  let nearestX := clamp cx rx (rx + rw)
  let nearestY := clamp cy ry (ry + rh)
  let dx := cx - nearestX
  let dy := cy - nearestY
  decide (dx * dx + dy * dy ≤ cr * cr)

/-- The `for (const pipe of pipes)` loop of `updatePipes` over the pipes not yet
visited: each pipe is moved, and a pipe newly behind the bird is flagged and
scored.  Returns the visited pipes as mutated, and the game with `score`,
`best` and `stored` as left by the loop. -/
def movePipes (dt : ℚ) : List Pipe → Game → List Pipe × Game
  | [], g => ([], g)
  | pipe :: rest, g =>
    let x := pipe.x - pipeSpeed * dt
    if !pipe.passed && decide (x + pipeWidth < g.bird.x) then
      let g : Game := { g with score := g.score + 1 }
      let g : Game :=
        if g.score > g.best then
          let g : Game := { g with best := g.score }
          { g with stored := some (jsString g.best) }
        else g
      let r := movePipes dt rest g
      ({ x := x, gapY := pipe.gapY, passed := true } :: r.1, r.2)
    else
      let r := movePipes dt rest g
      ({ x := x, gapY := pipe.gapY, passed := pipe.passed } :: r.1, r.2)

/-- The loop `while (pipes.length && pipes[0].x + pipeWidth < -20) pipes.shift()`. -/
def shiftPipes : List Pipe → List Pipe
  | [] => []
  | pipe :: rest => if pipe.x + pipeWidth < -20 then shiftPipes rest else pipe :: rest

/-- The loop `while (rightMostX <= WORLD_WIDTH + pipeStartOffset)` of `updatePipes`. -/
def spawnLoop (W H : ℚ) (rightMostX : ℚ) (rand : ℕ → ℚ) (g : Game) : Game :=
  if rightMostX ≤ W + pipeStartOffset then
    spawnLoop W H (rightMostX + pipeSpacing) (fun n => rand (n + 1))
      (spawnPipe H (rightMostX + pipeSpacing) (rand 0) g)
  else g
termination_by (⌊(W + pipeStartOffset - rightMostX) / pipeSpacing⌋ + 1).toNat
decreasing_by
  rename_i h
  have h0 : (0 : ℤ) ≤ ⌊(W + pipeStartOffset - rightMostX) / pipeSpacing⌋ := by
    apply Int.floor_nonneg.mpr
    apply div_nonneg
    · linarith
    · norm_num [pipeSpacing]
  have h1 : (W + pipeStartOffset - (rightMostX + pipeSpacing)) / pipeSpacing
      = (W + pipeStartOffset - rightMostX) / pipeSpacing - 1 := by
    unfold pipeSpacing
    ring
  rw [h1, Int.floor_sub_one]
  omega

def updatePipes (W H dt : ℚ) (rand : ℕ → ℚ) (g : Game) : Game :=
  if g.state ≠ .playing then g
  else
    let r := movePipes dt g.pipes g
    let g : Game := { r.2 with pipes := r.1 }
    let g : Game := { g with pipes := shiftPipes g.pipes }
    let rightMostX :=
      match g.pipes.getLast? with
      | some pipe => pipe.x
      | none => W + pipeStartOffset - pipeSpacing
    spawnLoop W H rightMostX rand g

def endRound (g : Game) : Game :=
  if g.state ≠ .playing then g
  else { g with state := .gameOver, bird := { g.bird with vy := 0, rotation := 12 / 10 } }

/-- The two rectangle tests of `checkCollisions` for one pipe: `hitTop || hitBottom`. -/
def pipeHit (H : ℚ) (b : Bird) (pipe : Pipe) : Bool :=
  let floor := H - GROUND_HEIGHT
  let topHeight := pipe.gapY - pipeGap / 2
  let bottomY := pipe.gapY + pipeGap / 2
  let bottomHeight := floor - bottomY
  let hitTop := circleRectCollide b.x b.y (birdRadius - 2) pipe.x 0 pipeWidth topHeight
  let hitBottom :=
    circleRectCollide b.x b.y (birdRadius - 2) pipe.x bottomY pipeWidth bottomHeight
  hitTop || hitBottom

/-- The `for (const pipe of pipes)` loop of `checkCollisions`, over the pipes not
yet tested. -/
def checkPipes (H : ℚ) : List Pipe → Game → Game
  | [], g => g
  | pipe :: rest, g => if pipeHit H g.bird pipe then endRound g else checkPipes H rest g

/-- The ceiling test at the start of `checkCollisions`. -/
def bounceCeiling (g : Game) : Game :=
  if g.bird.y - birdRadius ≤ 0 then
    { g with bird := { g.bird with y := birdRadius, vy := 80 } }
  else g

def checkCollisions (H : ℚ) (g : Game) : Game :=
  if g.state ≠ .playing then g
  else
    let g : Game := bounceCeiling g
    let floor := H - GROUND_HEIGHT
    if g.bird.y + birdRadius ≥ floor then
      endRound { g with bird := { g.bird with y := floor - birdRadius } }
    else checkPipes H g.pipes g

def update (W H dt : ℚ) (e : Env) (g : Game) : Game :=
  let g := updateWorld W dt g
  let g := updateBird H dt e.sinY e.sinR g
  let g := updatePipes W H dt e.rand g
  checkCollisions H g

/-- The simulation part of `tick(timestamp)` (drawing and rescheduling change no
variable of the game). -/
def tick (W H timestamp : ℚ) (e : Env) (g : Game) : Game :=
  let g : Game := if g.lastTime = 0 then { g with lastTime := timestamp } else g
  let dt := min ((timestamp - g.lastTime) / 1000) (4 / 100)
  let g : Game := { g with lastTime := timestamp }
  update W H dt e g

/-! ## Runs -/

/-- The calls that drive the game: an action input, a direct `update(dt)`, or a
frame `tick(timestamp)`, each with the environment values it reads. -/
inductive Action where
  | input (rand : ℕ → ℚ)
  | update (dt : ℚ) (env : Env)
  | tick (timestamp : ℚ) (env : Env)

def step (W H : ℚ) (g : Game) : Action → Game
  | .input rand => onActionInput W H rand g
  | .update dt env => update W H dt env g
  | .tick timestamp env => tick W H timestamp env g

def run (W H : ℚ) (g : Game) (acts : List Action) : Game :=
  acts.foldl (step W H) g

/-- The state after loading the script: the initial values followed by the
`resetRound()` at the end of the file. -/
def start (W H : ℚ) (best : ℤ) (stored : Option String) (rand : ℕ → ℚ) : Game :=
  resetRound W H rand (initGame best stored)

/-- Every `Math.random()` result an action consumes lies in `[0, 1)`. -/
def Action.randOk : Action → Prop
  | .input rand => ∀ n, 0 ≤ rand n ∧ rand n < 1
  | .update _ env => ∀ n, 0 ≤ env.rand n ∧ env.rand n < 1
  | .tick _ env => ∀ n, 0 ≤ env.rand n ∧ env.rand n < 1

/-! ## Sample states -/

/-- A round in progress in a 480 by 640 world: the first pipe is scored and about
to leave, the second is about to pass the bird. -/
def samplePlaying : Game :=
  { state := .playing, lastTime := 1000, score := 1, best := 1, stored := some "1",
    bird := { x := 140, y := 250, vy := 120, rotation := 0, wingTick := 0 },
    camera := { groundOffset := 0, cloudOffset := 0 },
    pipes := [{ x := -197, gapY := 300, passed := true },
              { x := 53, gapY := 200, passed := false },
              { x := 303, gapY := 280, passed := false }] }

/-- A round in progress with one pipe whose top segment ends at `y = 240`; the
bird at `(140, 250)` is 10 left of and 10 below the corner `(150, 240)`. -/
def sampleCorner : Game :=
  { samplePlaying with pipes := [{ x := 150, gapY := 665 / 2, passed := false }] }

/-- The idle screen, with the bird at some height of its bob animation. -/
def sampleReady : Game :=
  { samplePlaying with
    state := .ready
    score := 0
    bird := { x := 140, y := 307, vy := 0, rotation := 1 / 50, wingTick := 2 } }

/-- A finished round. -/
def sampleGameOver : Game :=
  { samplePlaying with
    state := .gameOver
    score := 5
    best := 5
    stored := some "5"
    bird := { x := 140, y := 500, vy := 0, rotation := 12 / 10, wingTick := 4 } }

/-- A random source that always returns one half. -/
def randHalf : ℕ → ℚ := fun _ => 1 / 2

/-- A short session: start the round, then one frame of a sixtieth of a second. -/
def sampleActs : List Action :=
  [.input randHalf, .update (1 / 60) { sinY := 0, sinR := 0, rand := randHalf }]

/-! ## Predicates and auxiliary functions of the statements -/

/-- The pipe as the scoring loop leaves it: moved left by `pipeSpeed * dt`, and
flagged when its trailing edge is behind `birdX`. -/
def movedPipe (dt birdX : ℚ) (p : Pipe) : Pipe :=
  { x := p.x - pipeSpeed * dt, gapY := p.gapY,
    passed := p.passed || decide (p.x - pipeSpeed * dt + pipeWidth < birdX) }

/-- The pipes the scoring loop counts: not yet flagged, trailing edge behind `birdX`. -/
def newlyPassed (dt birdX : ℚ) (p : Pipe) : Bool :=
  !p.passed && decide (p.x - pipeSpeed * dt + pipeWidth < birdX)

/-- The pipes that `n` rounds of the spawn loop append, from the frontier `r`. -/
def spawned (H r : ℚ) (rand : ℕ → ℚ) (n : ℕ) : List Pipe :=
  (List.range n).map fun (k : ℕ) =>
    ({ x := r + pipeSpacing * ((k : ℚ) + 1), gapY := randomGapY H (rand k),
       passed := false } : Pipe)

/-- The frontier the spawn loop starts from: the last pipe, or the virtual anchor. -/
def frontier (W : ℚ) (ps : List Pipe) : ℚ :=
  match ps.getLast? with
  | some pipe => pipe.x
  | none => W + pipeStartOffset - pipeSpacing

/-- Consecutive pipes of the queue are exactly `pipeSpacing` apart. -/
def Spaced (ps : List Pipe) : Prop :=
  List.Chain' (fun p q : Pipe => q.x - p.x = pipeSpacing) ps

/-- The gap centre of a pipe lies in `[minGapY, maxGapY]`. -/
def GapOk (H : ℚ) (p : Pipe) : Prop := minGapY ≤ p.gapY ∧ p.gapY ≤ maxGapY H

/-- The velocity bound of the data model. -/
def VyOk (g : Game) : Prop := -1000 ≤ g.bird.vy ∧ g.bird.vy ≤ 700

/-- The closed disc of centre `(cx, cy)` and radius `cr` meets the rectangle
`[x0, x1] × [y0, y1]` (in a point with rational coordinates, which is no
restriction: the nearest point of the rectangle has rational coordinates). -/
def DiscMeetsRect (cx cy cr x0 x1 y0 y1 : ℚ) : Prop :=
  ∃ px py : ℚ, x0 ≤ px ∧ px ≤ x1 ∧ y0 ≤ py ∧ py ≤ y1 ∧
    (cx - px) ^ 2 + (cy - py) ^ 2 ≤ cr ^ 2

/-- The counters of the data model: `0 ≤ score ≤ best`. -/
def ScoreOk (g : Game) : Prop := 0 ≤ g.score ∧ g.score ≤ g.best

/-- The delta-time that `tick(timestamp)` hands to `update`: the stored timestamp
is first replaced by `timestamp` when it is 0 (falsy). -/
def tickDt (timestamp : ℚ) (g : Game) : ℚ :=
  min ((timestamp - (if g.lastTime = 0 then timestamp else g.lastTime)) / 1000) (4 / 100)

/-- The action is a frame (`update` or `tick`), not an input. -/
def Action.isFrame : Action → Bool
  | .input _ => false
  | .update _ _ => true
  | .tick _ _ => true

/-- An environment with both sines 0 and the random source `randHalf`. -/
def sampleEnv : Env := { sinY := 0, sinR := 0, rand := randHalf }

/-- A round in progress with the bird above the ceiling line (`y - 20 ≤ 0`) while a
pipe is at its x-position: the top segment `[100, 188] × [0, 207.5]` contains the
clamped centre `(140, 20)`. -/
def sampleCeiling : Game :=
  { samplePlaying with
    bird := { x := 140, y := 10, vy := -200, rotation := 0, wingTick := 0 }
    pipes := [{ x := 100, gapY := 300, passed := false }] }

/-- A round in progress with the bird at the ceiling and the only pipe far ahead. -/
def sampleCeilingFree : Game :=
  { sampleCeiling with pipes := [{ x := 600, gapY := 300, passed := false }] }

/-- A round in progress with the bird low enough for the next frame to reach the floor
of a world of height 640. -/
def sampleLow : Game :=
  { samplePlaying with
    bird := { x := 140, y := 499, vy := 300, rotation := 0, wingTick := 0 } }

/-- A round in progress whose front pipe has its trailing edge exactly 20 left of
`x = 0` (`-108 + 88 = -20`). -/
def sampleEdge : Game :=
  { samplePlaying with
    pipes := [{ x := -108, gapY := 300, passed := true },
              { x := 142, gapY := 200, passed := false }] }

/-- The number of pipes that `updatePipes(dt)` removes from the front of the queue. -/
def recycledBy (dt : ℚ) (g : Game) : ℕ :=
  if g.state = .playing then
    g.pipes.length - (shiftPipes (g.pipes.map (movedPipe dt g.bird.x))).length
  else 0

/-- The count `c` of pipes recycled since the last reset, after one more action. -/
def recycledStep (c : ℕ) (g : Game) : Action → ℕ
  | .input _ => if g.state = .gameOver then 0 else c
  | .update dt _ => c + recycledBy dt g
  | .tick timestamp _ => c + recycledBy (tickDt timestamp g) g

/-- The number of pipes recycled since the last reset at the end of a run that starts
in `g` with `c` pipes recycled so far. -/
def recycledRun (W H : ℚ) : ℕ → Game → List Action → ℕ
  | c, _, [] => c
  | c, g, a :: acts => recycledRun W H (recycledStep c g a) (step W H g a) acts

/-- The run of scenario B: one `update(0.016)` per environment, no action input. -/
def noFlap (envs : List Env) : List Action :=
  envs.map (fun e => Action.update (2 / 125) e)

/-- A bound on the number of frames of `update(0.016)` still needed to bring the
bird to rest on the floor: three per step of 24 that `vy` is below 700, one per
11.2 units of height left, and 90 in reserve for the velocity reset at the end of
the round. -/
def fallBound (H : ℚ) (g : Game) : ℚ :=
  (700 - g.bird.vy) / 8 + 5 * (H - 140 - g.bird.y) / 56
    + (if g.state = .playing then 90 else 0)

/-- The invariant of a fall: the round is on or over, the velocity is in range, the
bird is between ceiling and floor, and after the round has ended it only falls. -/
def FallInv (H : ℚ) (g : Game) : Prop :=
  g.state ≠ .ready ∧ -1000 ≤ g.bird.vy ∧ g.bird.vy ≤ 700 ∧
  20 ≤ g.bird.y ∧ g.bird.y ≤ H - 140 ∧ (g.state = .gameOver → 0 ≤ g.bird.vy)

/-- The round is over and the bird lies on the floor. -/
def Landed (H : ℚ) (g : Game) : Prop :=
  g.state = .gameOver ∧ g.bird.y = H - 140 ∧ 0 ≤ g.bird.vy ∧ g.bird.vy ≤ 700

/-- A flagged pipe is behind the bird. -/
def FlagInv (g : Game) : Prop := ∀ p ∈ g.pipes, p.passed = true → p.x + 88 < 140

/-- A pipe behind the bird is flagged, and the last pipe of the queue is not behind
the bird. -/
def AheadInv (g : Game) : Prop :=
  (∀ p ∈ g.pipes, p.x + 88 < 140 → p.passed = true) ∧
  ∀ p ∈ g.pipes.getLast?, 140 ≤ p.x + 88

/-- The start of a round in a 480 by 640 world: the state right after the first action
input, with the three pipes of the reset ahead of the bird. -/
def sampleFresh : Game :=
  { state := .playing, lastTime := 0, score := 0, best := 0, stored := none,
    bird := { x := 140, y := 300, vy := -430, rotation := 0, wingTick := 1 / 10 },
    camera := { groundOffset := 0, cloudOffset := 0 },
    pipes := [{ x := 740, gapY := 260, passed := false },
              { x := 990, gapY := 260, passed := false },
              { x := 1240, gapY := 260, passed := false }] }

/-- The pipes of the old queue that `updatePipes(dt)` keeps: every pipe as the scoring
loop leaves it (moved, flagged when behind the bird), without the front run that the
recycle loop removes (trailing edge left of -20). -/
def queueKept (dt : ℚ) (g : Game) : List Pipe :=
  (g.pipes.map (movedPipe dt g.bird.x)).dropWhile (fun p => decide (p.x + 88 < -20))

/-- The number `n` of rounds of the spawn loop started at the frontier `front`: the
first count at which `front + 250 * n` exceeds `W + 260`. -/
def SpawnCount (W front : ℚ) (n : ℕ) : Prop :=
  W + 260 < front + 250 * n ∧ ∀ k : ℕ, k < n → front + 250 * k ≤ W + 260

/-- The queue after a frame with delta-time `dt` in which the spawn loop made `n`
rounds: outside `Playing` the old queue, in `Playing` the kept pipes followed by the
spawned ones. -/
def queueAfter (W H dt : ℚ) (rand : ℕ → ℚ) (g : Game) (n : ℕ) : List Pipe :=
  if g.state = .playing then
    queueKept dt g ++ spawned H (frontier W (queueKept dt g)) rand n
  else g.pipes

/-! ## State machine: action input -/

/-- C2: in `Playing`, `onActionInput()` keeps the state `Playing` and overwrites
`bird.vy` with exactly -430, whatever it was before; `bird.x`, `bird.y`,
`score`, `best` and the pipe queue are unchanged (only `vy` and `wingTick`
change), and a second input in a row gives the same state as the first. -/
theorem onActionInput_playing_overwrites (W H : ℚ) (rand rand2 : ℕ → ℚ) (g : Game)
    (h : g.state = .playing) :
    (onActionInput W H rand g).state = .playing ∧
    (onActionInput W H rand g).bird.vy = -430 ∧
    (onActionInput W H rand g).bird.x = g.bird.x ∧
    (onActionInput W H rand g).bird.y = g.bird.y ∧
    (onActionInput W H rand g).score = g.score ∧
    (onActionInput W H rand g).best = g.best ∧
    (onActionInput W H rand g).pipes = g.pipes ∧
    onActionInput W H rand g
      = { g with bird := { g.bird with vy := -430, wingTick := 1 / 10 } } ∧
    onActionInput W H rand2 (onActionInput W H rand g) = onActionInput W H rand g := by
  simp [onActionInput, flap, flapVelocity, h]

theorem onActionInput_playing_overwrites_witness :
    samplePlaying.state = .playing ∧
    (onActionInput 480 640 randHalf samplePlaying).bird.vy = -430 ∧
    onActionInput 480 640 randHalf (onActionInput 480 640 randHalf samplePlaying)
      = onActionInput 480 640 randHalf samplePlaying :=
  have h := onActionInput_playing_overwrites 480 640 randHalf randHalf samplePlaying rfl
  ⟨rfl, h.2.1, h.2.2.2.2.2.2.2.2⟩

/-- C3 (scenario A): in `Ready`, one `onActionInput()` gives state `Playing` with
`bird.vy = -430`; `bird.y` (whatever idle value it has), `bird.x`, `score`,
`best` and the pipe queue are exactly what they were. -/
theorem onActionInput_ready_starts (W H : ℚ) (rand : ℕ → ℚ) (g : Game)
    (h : g.state = .ready) :
    (onActionInput W H rand g).state = .playing ∧
    (onActionInput W H rand g).bird.vy = -430 ∧
    (onActionInput W H rand g).bird.y = g.bird.y ∧
    (onActionInput W H rand g).bird.x = g.bird.x ∧
    (onActionInput W H rand g).score = g.score ∧
    (onActionInput W H rand g).best = g.best ∧
    (onActionInput W H rand g).pipes = g.pipes := by
  simp [onActionInput, startRound, flap, flapVelocity, h]

theorem onActionInput_ready_starts_witness :
    sampleReady.state = .ready ∧
    (onActionInput 480 640 randHalf sampleReady).state = .playing ∧
    (onActionInput 480 640 randHalf sampleReady).bird.vy = -430 ∧
    (onActionInput 480 640 randHalf sampleReady).bird.y = 307 :=
  have h := onActionInput_ready_starts 480 640 randHalf sampleReady rfl
  ⟨rfl, h.1, h.2.1, h.2.2.1⟩

/-- C4 (scenario C): in `GameOver`, one `onActionInput()` gives state `Ready`,
`score = 0`, `best` unchanged, the bird at `x = 140`, `y = 300` with `vy = 0` and
`rotation = 0`, and a queue of exactly three pipes at `W + 260`, `W + 510` and
`W + 760`, each with `passed = false`, whatever the queue held before. -/
theorem onActionInput_gameOver_resets (W H : ℚ) (rand : ℕ → ℚ) (g : Game)
    (h : g.state = .gameOver) :
    (onActionInput W H rand g).state = .ready ∧
    (onActionInput W H rand g).score = 0 ∧
    (onActionInput W H rand g).best = g.best ∧
    (onActionInput W H rand g).bird.x = 140 ∧
    (onActionInput W H rand g).bird.y = 300 ∧
    (onActionInput W H rand g).bird.vy = 0 ∧
    (onActionInput W H rand g).bird.rotation = 0 ∧
    (onActionInput W H rand g).pipes =
      [{ x := W + 260, gapY := randomGapY H (rand 0), passed := false },
       { x := W + 510, gapY := randomGapY H (rand 1), passed := false },
       { x := W + 760, gapY := randomGapY H (rand 2), passed := false }] := by
  simp only [onActionInput, resetRound, spawnPipe, pipeStartOffset, pipeSpacing, h]
  refine ⟨by simp, by simp, by simp, by simp, by simp, by simp, by simp, ?_⟩
  simp
  refine ⟨?_, ?_⟩ <;> ring

theorem onActionInput_gameOver_resets_witness :
    sampleGameOver.state = .gameOver ∧
    (onActionInput 480 640 randHalf sampleGameOver).state = .ready ∧
    (onActionInput 480 640 randHalf sampleGameOver).score = 0 ∧
    (onActionInput 480 640 randHalf sampleGameOver).best = 5 ∧
    ((onActionInput 480 640 randHalf sampleGameOver).pipes.map Pipe.x) = [740, 990, 1240] :=
  have h := onActionInput_gameOver_resets 480 640 randHalf sampleGameOver rfl
  ⟨rfl, h.1, h.2.1, h.2.2.1, by rw [h.2.2.2.2.2.2.2]; norm_num⟩

/-! ## Frame lemmas -/

theorem clamp_bounds (v mn mx : ℚ) (h : mn ≤ mx) :
    mn ≤ clamp v mn mx ∧ clamp v mn mx ≤ mx := by
  unfold clamp
  exact ⟨le_max_left _ _, max_le h (min_le_left _ _)⟩

theorem movePipes_frame (dt : ℚ) (ps : List Pipe) (g : Game) :
    (movePipes dt ps g).2.state = g.state ∧ (movePipes dt ps g).2.bird = g.bird ∧
    (movePipes dt ps g).2.pipes = g.pipes ∧ (movePipes dt ps g).2.camera = g.camera ∧
    (movePipes dt ps g).2.lastTime = g.lastTime := by
  induction ps generalizing g with
  | nil => simp [movePipes]
  | cons p ps ih =>
    simp only [movePipes]
    split_ifs <;> simp [ih]

theorem movePipes_pipes (dt : ℚ) (ps : List Pipe) (g : Game) :
    (movePipes dt ps g).1 = ps.map (movedPipe dt g.bird.x) := by
  induction ps generalizing g with
  | nil => simp [movePipes]
  | cons p ps ih =>
    simp only [movePipes]
    split_ifs with h1 h2
    · simp_all [movedPipe]
    · simp_all [movedPipe]
    · simp only [ih, List.map_cons, movedPipe, List.cons.injEq, and_true, Pipe.mk.injEq,
        true_and]
      cases hp : p.passed
      · simpa [hp] using h1
      · simp

theorem movePipes_score (dt : ℚ) (ps : List Pipe) (g : Game) :
    (movePipes dt ps g).2.score = g.score + (ps.countP (newlyPassed dt g.bird.x) : ℤ) := by
  induction ps generalizing g with
  | nil => simp [movePipes]
  | cons p ps ih =>
    simp only [movePipes]
    split_ifs with h1 h2
    · rw [ih, List.countP_cons_of_pos _ _ (by simpa [newlyPassed] using h1)]
      simp; ring
    · rw [ih, List.countP_cons_of_pos _ _ (by simpa [newlyPassed] using h1)]
      simp; ring
    · rw [ih, List.countP_cons_of_neg _ _ (by simpa [newlyPassed] using h1)]

theorem spawned_succ (H r : ℚ) (rand : ℕ → ℚ) (n : ℕ) :
    spawned H r rand (n + 1)
      = { x := r + pipeSpacing, gapY := randomGapY H (rand 0), passed := false }
        :: spawned H (r + pipeSpacing) (fun k => rand (k + 1)) n := by
  simp only [spawned, List.range_succ_eq_map, List.map_cons, List.map_map]
  congr 1
  · simp
  · apply List.map_congr_left
    intro k _
    simp only [Function.comp, Nat.succ_eq_add_one, Nat.cast_add, Nat.cast_one, Pipe.mk.injEq,
      and_true]
    ring

/-- The spawn loop terminates after some `n` rounds, having appended
`spawned H r rand n` at the back; `n` is the first count at which the frontier
`r + 250 * n` exceeds `W + 260`. -/
theorem spawnLoop_spec (W H r : ℚ) (rand : ℕ → ℚ) (g : Game) :
    ∃ n : ℕ, spawnLoop W H r rand g = { g with pipes := g.pipes ++ spawned H r rand n } ∧
      W + pipeStartOffset < r + pipeSpacing * n ∧
      ∀ k : ℕ, k < n → r + pipeSpacing * k ≤ W + pipeStartOffset := by
  induction r, rand, g using spawnLoop.induct W H with
  | case1 r rand g h ih =>
    obtain ⟨n, h1, h2, h3⟩ := ih
    refine ⟨n + 1, ?_, ?_, ?_⟩
    · rw [spawnLoop, if_pos h, h1, spawned_succ]
      simp [spawnPipe]
    · push_cast
      linarith
    · intro k hk
      cases k with
      | zero => simpa using h
      | succ k =>
        have := h3 k (by omega)
        push_cast
        linarith
  | case2 r rand g h =>
    refine ⟨0, ?_, ?_, ?_⟩
    · rw [spawnLoop, if_neg h]
      simp [spawned]
    · simpa using not_le.mp h
    · intro k hk
      omega

theorem shiftPipes_suffix (ps : List Pipe) : shiftPipes ps <:+ ps := by
  induction ps with
  | nil => simp [shiftPipes]
  | cons p ps ih =>
    simp only [shiftPipes]
    split_ifs
    · exact ih.trans (List.suffix_cons p ps)
    · exact List.suffix_refl _

/-- The whole of `updatePipes` in `Playing`: the scoring loop changes `score`,
`best` and `stored`; the queue is the moved queue, shifted, with the spawned
pipes at the back. -/
theorem updatePipes_playing (W H dt : ℚ) (rand : ℕ → ℚ) (g : Game)
    (h : g.state = .playing) :
    ∃ n : ℕ,
      updatePipes W H dt rand g =
        { (movePipes dt g.pipes g).2 with
          pipes := shiftPipes (g.pipes.map (movedPipe dt g.bird.x)) ++
            spawned H (frontier W (shiftPipes (g.pipes.map (movedPipe dt g.bird.x)))) rand n } ∧
      W + pipeStartOffset <
        frontier W (shiftPipes (g.pipes.map (movedPipe dt g.bird.x))) + pipeSpacing * n ∧
      ∀ k : ℕ, k < n →
        frontier W (shiftPipes (g.pipes.map (movedPipe dt g.bird.x))) + pipeSpacing * k
          ≤ W + pipeStartOffset := by
  simp only [updatePipes, h, ne_eq, not_true_eq_false, if_false, movePipes_pipes]
  obtain ⟨n, h1, h2, h3⟩ := spawnLoop_spec W H
    (frontier W (shiftPipes (g.pipes.map (movedPipe dt g.bird.x)))) rand
    { (movePipes dt g.pipes g).2 with
      pipes := shiftPipes (g.pipes.map (movedPipe dt g.bird.x)) }
  exact ⟨n, h1, h2, h3⟩

theorem updatePipes_idle (W H dt : ℚ) (rand : ℕ → ℚ) (g : Game)
    (h : g.state ≠ .playing) : updatePipes W H dt rand g = g := by
  simp [updatePipes, h]

theorem updatePipes_frame (W H dt : ℚ) (rand : ℕ → ℚ) (g : Game) :
    (updatePipes W H dt rand g).state = g.state ∧
    (updatePipes W H dt rand g).bird = g.bird ∧
    (updatePipes W H dt rand g).camera = g.camera ∧
    (updatePipes W H dt rand g).lastTime = g.lastTime := by
  by_cases h : g.state = .playing
  · obtain ⟨n, h1, -, -⟩ := updatePipes_playing W H dt rand g h
    rw [h1]
    have := movePipes_frame dt g.pipes g
    simp [this]
  · rw [updatePipes_idle W H dt rand g h]
    simp

theorem checkPipes_cases (H : ℚ) (ps : List Pipe) (g : Game) :
    (checkPipes H ps g = g ∧ ∀ p ∈ ps, pipeHit H g.bird p = false) ∨
    (checkPipes H ps g = endRound g ∧ ∃ p ∈ ps, pipeHit H g.bird p = true) := by
  induction ps with
  | nil => simp [checkPipes]
  | cons p ps ih =>
    simp only [checkPipes]
    split_ifs with h
    · exact Or.inr ⟨rfl, p, List.mem_cons_self _ _, h⟩
    · rcases ih with ⟨h1, h2⟩ | ⟨h1, q, hq, h2⟩
      · refine Or.inl ⟨h1, ?_⟩
        intro q hq
        rcases List.mem_cons.mp hq with rfl | hq
        · simpa using h
        · exact h2 q hq
      · exact Or.inr ⟨h1, q, List.mem_cons_of_mem _ hq, h2⟩

/-! ## Velocity invariant -/

theorem onActionInput_vyOk (W H : ℚ) (rand : ℕ → ℚ) (g : Game) :
    VyOk (onActionInput W H rand g) := by
  unfold onActionInput startRound
  split_ifs <;> norm_num [VyOk, flap, flapVelocity, resetRound, spawnPipe]

theorem updateBird_vyOk (H dt sinY sinR : ℚ) (g : Game) (h : VyOk g) :
    VyOk (updateBird H dt sinY sinR g) := by
  simp only [updateBird]
  split_ifs
  · exact h
  · norm_num [VyOk]
  · have := clamp_bounds (g.bird.vy + gravity * dt) (-1000) maxFallSpeed
      (by norm_num [maxFallSpeed])
    simpa [VyOk, maxFallSpeed] using this

theorem endRound_vyOk (g : Game) (h : VyOk g) : VyOk (endRound g) := by
  simp only [endRound]
  split_ifs
  · exact h
  · norm_num [VyOk]

theorem bounceCeiling_vyOk (g : Game) (h : VyOk g) : VyOk (bounceCeiling g) := by
  simp only [bounceCeiling]
  split_ifs
  · norm_num [VyOk]
  · exact h

theorem checkCollisions_vyOk (H : ℚ) (g : Game) (h : VyOk g) :
    VyOk (checkCollisions H g) := by
  simp only [checkCollisions]
  split_ifs with h1 h2
  · exact h
  · apply endRound_vyOk
    exact bounceCeiling_vyOk g h
  · rcases checkPipes_cases H (bounceCeiling g).pipes (bounceCeiling g) with ⟨e, -⟩ | ⟨e, -⟩
    · rw [e]
      exact bounceCeiling_vyOk g h
    · rw [e]
      exact endRound_vyOk _ (bounceCeiling_vyOk g h)

theorem update_vyOk (W H dt : ℚ) (e : Env) (g : Game) (h : VyOk g) :
    VyOk (update W H dt e g) := by
  unfold update
  apply checkCollisions_vyOk
  have h1 : VyOk (updateBird H dt e.sinY e.sinR (updateWorld W dt g)) :=
    updateBird_vyOk H dt e.sinY e.sinR _ (by simpa [VyOk, updateWorld] using h)
  have h2 := (updatePipes_frame W H dt e.rand
    (updateBird H dt e.sinY e.sinR (updateWorld W dt g))).2.1
  simpa only [VyOk, h2] using h1

theorem step_vyOk (W H : ℚ) (g : Game) (a : Action) (h : VyOk g) : VyOk (step W H g a) := by
  cases a with
  | input rand => exact onActionInput_vyOk W H rand g
  | update dt env => exact update_vyOk W H dt env g h
  | tick timestamp env =>
    simp only [step, tick]
    apply update_vyOk
    split_ifs <;> simpa [VyOk] using h

theorem run_vyOk (W H : ℚ) (acts : List Action) (g : Game) (h : VyOk g) :
    VyOk (run W H g acts) := by
  induction acts generalizing g with
  | nil => exact h
  | cons a acts ih => exact ih _ (step_vyOk W H g a h)

/-- C1: in every state reached from the initial reset state by any sequence of
action inputs, `update(dt)` calls and frame ticks (any `dt`, any environment
values), `bird.vy` lies in `[-1000, 700]`; as every prefix of a run is a run,
this covers the state after each `update` executed while `Playing`. -/
theorem vy_invariant (W H : ℚ) (best : ℤ) (stored : Option String) (rand : ℕ → ℚ)
    (acts : List Action) :
    -1000 ≤ (run W H (start W H best stored rand) acts).bird.vy ∧
    (run W H (start W H best stored rand) acts).bird.vy ≤ 700 := by
  apply run_vyOk
  norm_num [VyOk, start, resetRound, spawnPipe]

/-! ## What each phase of `update` leaves alone -/

theorem updateWorld_frame (W dt : ℚ) (g : Game) :
    (updateWorld W dt g).state = g.state ∧ (updateWorld W dt g).bird = g.bird ∧
    (updateWorld W dt g).pipes = g.pipes ∧ (updateWorld W dt g).score = g.score ∧
    (updateWorld W dt g).best = g.best ∧ (updateWorld W dt g).stored = g.stored ∧
    (updateWorld W dt g).lastTime = g.lastTime := by
  simp [updateWorld]

theorem updateBird_frame (H dt sinY sinR : ℚ) (g : Game) :
    (updateBird H dt sinY sinR g).state = g.state ∧
    (updateBird H dt sinY sinR g).bird.x = g.bird.x ∧
    (updateBird H dt sinY sinR g).pipes = g.pipes ∧
    (updateBird H dt sinY sinR g).score = g.score ∧
    (updateBird H dt sinY sinR g).best = g.best ∧
    (updateBird H dt sinY sinR g).stored = g.stored ∧
    (updateBird H dt sinY sinR g).lastTime = g.lastTime := by
  simp only [updateBird]
  split_ifs <;> simp

theorem endRound_frame (g : Game) :
    (endRound g).bird.x = g.bird.x ∧ (endRound g).bird.y = g.bird.y ∧
    (endRound g).pipes = g.pipes ∧ (endRound g).score = g.score ∧
    (endRound g).best = g.best ∧ (endRound g).stored = g.stored ∧
    (endRound g).lastTime = g.lastTime ∧ (endRound g).camera = g.camera := by
  simp only [endRound]
  split_ifs <;> simp

theorem bounceCeiling_frame (g : Game) :
    (bounceCeiling g).state = g.state ∧ (bounceCeiling g).bird.x = g.bird.x ∧
    (bounceCeiling g).pipes = g.pipes ∧ (bounceCeiling g).score = g.score ∧
    (bounceCeiling g).best = g.best ∧ (bounceCeiling g).stored = g.stored ∧
    (bounceCeiling g).lastTime = g.lastTime ∧ (bounceCeiling g).camera = g.camera := by
  simp only [bounceCeiling]
  split_ifs <;> simp

theorem checkPipes_frame (H : ℚ) (ps : List Pipe) (g : Game) :
    (checkPipes H ps g).bird.x = g.bird.x ∧ (checkPipes H ps g).bird.y = g.bird.y ∧
    (checkPipes H ps g).pipes = g.pipes ∧ (checkPipes H ps g).score = g.score ∧
    (checkPipes H ps g).best = g.best ∧ (checkPipes H ps g).stored = g.stored ∧
    (checkPipes H ps g).lastTime = g.lastTime ∧ (checkPipes H ps g).camera = g.camera := by
  rcases checkPipes_cases H ps g with ⟨e, -⟩ | ⟨e, -⟩
  · rw [e]
    simp
  · rw [e]
    exact endRound_frame g

theorem checkCollisions_frame (H : ℚ) (g : Game) :
    (checkCollisions H g).bird.x = g.bird.x ∧
    (checkCollisions H g).pipes = g.pipes ∧ (checkCollisions H g).score = g.score ∧
    (checkCollisions H g).best = g.best ∧ (checkCollisions H g).stored = g.stored ∧
    (checkCollisions H g).lastTime = g.lastTime ∧
    (checkCollisions H g).camera = g.camera := by
  have hb := bounceCeiling_frame g
  simp only [checkCollisions]
  split_ifs with h1 h2
  · simp
  · have he := endRound_frame
      { bounceCeiling g with
        bird := { (bounceCeiling g).bird with y := H - GROUND_HEIGHT - birdRadius } }
    simp only [he]
    simp [hb]
  · have hc := checkPipes_frame H (bounceCeiling g).pipes (bounceCeiling g)
    simp only [hc]
    simp [hb]

/-! ## Shape of the queue -/

theorem spawned_head (H r : ℚ) (rand : ℕ → ℚ) (n : ℕ) :
    ∀ q ∈ (spawned H r rand n).head?, q.x = r + pipeSpacing := by
  cases n with
  | zero => simp [spawned]
  | succ n => simp [spawned_succ]

theorem spawned_spaced (H r : ℚ) (rand : ℕ → ℚ) (n : ℕ) : Spaced (spawned H r rand n) := by
  induction n generalizing r rand with
  | zero => simp [spawned, Spaced]
  | succ n ih =>
    rw [spawned_succ]
    refine List.chain'_cons'.mpr ⟨?_, ih _ _⟩
    intro q hq
    rw [spawned_head H _ _ n q hq]
    simp

theorem frontier_last (W : ℚ) (ps : List Pipe) :
    ∀ p ∈ ps.getLast?, frontier W ps = p.x := by
  intro p hp
  simp only [Option.mem_def] at hp
  simp [frontier, hp]

theorem spaced_append_spawned (W H : ℚ) (rand : ℕ → ℚ) (n : ℕ) (ps : List Pipe)
    (h : Spaced ps) : Spaced (ps ++ spawned H (frontier W ps) rand n) := by
  refine List.chain'_append.mpr ⟨h, spawned_spaced _ _ _ _, ?_⟩
  intro p hp q hq
  rw [spawned_head H _ _ n q hq, frontier_last W ps p hp]
  ring

theorem spaced_moved (dt bx : ℚ) (ps : List Pipe) (h : Spaced ps) :
    Spaced (ps.map (movedPipe dt bx)) := by
  refine (List.chain'_map _).mpr (h.imp ?_)
  intro p q hpq
  simp only [movedPipe]
  linarith

theorem shiftPipes_eq_drop (ps : List Pipe) : ∃ k, shiftPipes ps = ps.drop k :=
  ⟨_, List.suffix_iff_eq_drop.mp (shiftPipes_suffix ps)⟩

theorem updatePipes_spaced (W H dt : ℚ) (rand : ℕ → ℚ) (g : Game) (h : Spaced g.pipes) :
    Spaced (updatePipes W H dt rand g).pipes := by
  by_cases hs : g.state = .playing
  · obtain ⟨n, h1, -, -⟩ := updatePipes_playing W H dt rand g hs
    rw [h1]
    exact spaced_append_spawned W H rand n _
      ((spaced_moved dt g.bird.x g.pipes h).suffix (shiftPipes_suffix _))
  · rw [updatePipes_idle W H dt rand g hs]
    exact h

theorem update_pipes_eq (W H dt : ℚ) (e : Env) (g : Game) :
    (update W H dt e g).pipes =
      (updatePipes W H dt e.rand (updateBird H dt e.sinY e.sinR (updateWorld W dt g))).pipes ∧
    (updateBird H dt e.sinY e.sinR (updateWorld W dt g)).pipes = g.pipes := by
  simp only [update]
  exact ⟨(checkCollisions_frame H _).2.1,
    by rw [(updateBird_frame H dt e.sinY e.sinR _).2.2.1, (updateWorld_frame W dt g).2.2.1]⟩

theorem tick_eq_update (W H timestamp : ℚ) (e : Env) (g : Game) :
    tick W H timestamp e g =
      update W H
        (min ((timestamp - (if g.lastTime = 0 then timestamp else g.lastTime)) / 1000) (4 / 100))
        e { g with lastTime := timestamp } := by
  simp only [tick]
  split_ifs <;> rfl

theorem update_spaced (W H dt : ℚ) (e : Env) (g : Game) (h : Spaced g.pipes) :
    Spaced (update W H dt e g).pipes := by
  rw [(update_pipes_eq W H dt e g).1]
  apply updatePipes_spaced
  rw [(update_pipes_eq W H dt e g).2]
  exact h

theorem step_spaced (W H : ℚ) (g : Game) (a : Action) (h : Spaced g.pipes) :
    Spaced (step W H g a).pipes := by
  cases a with
  | input rand =>
    simp only [step, onActionInput, startRound]
    split_ifs
    · simpa [flap] using h
    · simpa [flap] using h
    · simp only [resetRound, spawnPipe, List.nil_append, List.cons_append, Spaced,
        List.chain'_cons, List.chain'_singleton, and_true]
      constructor <;> ring
  | update dt env => exact update_spaced W H dt env g h
  | tick timestamp env =>
    simp only [step, tick_eq_update]
    exact update_spaced W H _ env _ h

theorem run_spaced (W H : ℚ) (acts : List Action) (g : Game) (h : Spaced g.pipes) :
    Spaced (run W H g acts).pipes := by
  induction acts generalizing g with
  | nil => exact h
  | cons a acts ih => exact ih _ (step_spaced W H g a h)

/-! ## Gap centres -/

theorem randomGapY_bounds (H r : ℚ) (hH : 425 ≤ H) (h0 : 0 ≤ r) (h1 : r < 1) :
    minGapY ≤ randomGapY H r ∧ randomGapY H r ≤ maxGapY H := by
  have hd : 0 ≤ maxGapY H - minGapY := by
    norm_num [maxGapY, minGapY, GROUND_HEIGHT, minBottomHeight, minTopHeight, pipeGap]
    linarith
  unfold randomGapY
  constructor
  · nlinarith [mul_nonneg h0 hd]
  · nlinarith [mul_nonneg (sub_nonneg.mpr h1.le) hd]

theorem spawned_gapOk (H r : ℚ) (rand : ℕ → ℚ) (n : ℕ) (hH : 425 ≤ H)
    (hr : ∀ k, 0 ≤ rand k ∧ rand k < 1) : ∀ p ∈ spawned H r rand n, GapOk H p := by
  intro p hp
  simp only [spawned, List.mem_map, List.mem_range] at hp
  obtain ⟨k, -, rfl⟩ := hp
  exact randomGapY_bounds H (rand k) hH (hr k).1 (hr k).2

theorem updatePipes_gapOk (W H dt : ℚ) (rand : ℕ → ℚ) (g : Game) (hH : 425 ≤ H)
    (hr : ∀ k, 0 ≤ rand k ∧ rand k < 1) (h : ∀ p ∈ g.pipes, GapOk H p) :
    ∀ p ∈ (updatePipes W H dt rand g).pipes, GapOk H p := by
  by_cases hs : g.state = .playing
  · obtain ⟨n, h1, -, -⟩ := updatePipes_playing W H dt rand g hs
    rw [h1]
    intro p hp
    rcases List.mem_append.mp hp with hp | hp
    · have hp2 := (shiftPipes_suffix _).subset hp
      obtain ⟨q, hq, rfl⟩ := List.mem_map.mp hp2
      exact h q hq
    · exact spawned_gapOk H _ rand n hH hr p hp
  · rw [updatePipes_idle W H dt rand g hs]
    exact h

theorem update_gapOk (W H dt : ℚ) (e : Env) (g : Game) (hH : 425 ≤ H)
    (hr : ∀ k, 0 ≤ e.rand k ∧ e.rand k < 1) (h : ∀ p ∈ g.pipes, GapOk H p) :
    ∀ p ∈ (update W H dt e g).pipes, GapOk H p := by
  rw [(update_pipes_eq W H dt e g).1]
  apply updatePipes_gapOk W H dt e.rand _ hH hr
  rw [(update_pipes_eq W H dt e g).2]
  exact h

theorem resetRound_gapOk (W H : ℚ) (rand : ℕ → ℚ) (g : Game) (hH : 425 ≤ H)
    (hr : ∀ k, 0 ≤ rand k ∧ rand k < 1) : ∀ p ∈ (resetRound W H rand g).pipes, GapOk H p := by
  intro p hp
  simp only [resetRound, spawnPipe, List.nil_append, List.cons_append, List.mem_cons,
    List.mem_singleton, List.not_mem_nil, or_false] at hp
  rcases hp with rfl | rfl | rfl
  · exact randomGapY_bounds H _ hH (hr 0).1 (hr 0).2
  · exact randomGapY_bounds H _ hH (hr 1).1 (hr 1).2
  · exact randomGapY_bounds H _ hH (hr 2).1 (hr 2).2

theorem step_gapOk (W H : ℚ) (g : Game) (a : Action) (hH : 425 ≤ H) (ha : a.randOk)
    (h : ∀ p ∈ g.pipes, GapOk H p) : ∀ p ∈ (step W H g a).pipes, GapOk H p := by
  cases a with
  | input rand =>
    simp only [step, onActionInput, startRound]
    split_ifs
    · simpa [flap] using h
    · simpa [flap] using h
    · exact resetRound_gapOk W H rand g hH ha
  | update dt env => exact update_gapOk W H dt env g hH ha h
  | tick timestamp env =>
    simp only [step, tick_eq_update]
    exact update_gapOk W H _ env _ hH ha h

theorem run_gapOk (W H : ℚ) (acts : List Action) (g : Game) (hH : 425 ≤ H)
    (ha : ∀ a ∈ acts, a.randOk) (h : ∀ p ∈ g.pipes, GapOk H p) :
    ∀ p ∈ (run W H g acts).pipes, GapOk H p := by
  induction acts generalizing g with
  | nil => exact h
  | cons a acts ih =>
    exact ih _ (fun b hb => ha b (List.mem_cons_of_mem _ hb))
      (step_gapOk W H g a hH (ha a (List.mem_cons_self _ _)) h)

/-! ## Scoring -/

theorem movePipes_best (dt : ℚ) (ps : List Pipe) (g : Game) :
    g.best ≤ (movePipes dt ps g).2.best ∧
    (g.score ≤ g.best → (movePipes dt ps g).2.score ≤ (movePipes dt ps g).2.best) ∧
    (((movePipes dt ps g).2.best = g.best ∧ (movePipes dt ps g).2.stored = g.stored) ∨
      (g.best < (movePipes dt ps g).2.best ∧
        (movePipes dt ps g).2.stored = some (jsString (movePipes dt ps g).2.best))) := by
  induction ps generalizing g with
  | nil => simp [movePipes]
  | cons p ps ih =>
    simp only [movePipes]
    split_ifs with h1 h2
    · obtain ⟨i1, i2, i3⟩ := ih
        { g with score := g.score + 1, best := g.score + 1,
                 stored := some (jsString (g.score + 1)) }
      dsimp only at i1 i2 i3 h2 ⊢
      refine ⟨by omega, fun _ => i2 le_rfl, ?_⟩
      rcases i3 with ⟨e1, e2⟩ | ⟨e1, e2⟩
      · right
        refine ⟨by omega, ?_⟩
        rw [e2, e1]
      · right
        exact ⟨by omega, e2⟩
    · obtain ⟨i1, i2, i3⟩ := ih { g with score := g.score + 1 }
      dsimp only at i1 i2 i3 h2 ⊢
      exact ⟨i1, fun _ => i2 (by omega), i3⟩
    · exact ih g

theorem updatePipes_best (W H dt : ℚ) (rand : ℕ → ℚ) (g : Game) :
    g.best ≤ (updatePipes W H dt rand g).best ∧
    (g.score ≤ g.best → (updatePipes W H dt rand g).score ≤ (updatePipes W H dt rand g).best) ∧
    (g.best < (updatePipes W H dt rand g).best →
      (updatePipes W H dt rand g).stored = some (jsString (updatePipes W H dt rand g).best)) := by
  by_cases hs : g.state = .playing
  · obtain ⟨n, h1, -, -⟩ := updatePipes_playing W H dt rand g hs
    rw [h1]
    obtain ⟨i1, i2, i3⟩ := movePipes_best dt g.pipes g
    refine ⟨i1, i2, fun hlt => ?_⟩
    rcases i3 with ⟨e1, -⟩ | ⟨-, e2⟩
    · simp only at hlt
      omega
    · exact e2
  · rw [updatePipes_idle W H dt rand g hs]
    exact ⟨le_rfl, id, fun h => absurd h (lt_irrefl _)⟩

theorem updatePipes_score (W H dt : ℚ) (rand : ℕ → ℚ) (g : Game) (h : g.state = .playing) :
    (updatePipes W H dt rand g).score
      = g.score + (g.pipes.countP (newlyPassed dt g.bird.x) : ℤ) := by
  obtain ⟨n, h1, -, -⟩ := updatePipes_playing W H dt rand g h
  rw [h1]
  exact movePipes_score dt g.pipes g

theorem update_score_best (W H dt : ℚ) (e : Env) (g : Game) :
    (update W H dt e g).score = (updatePipes W H dt e.rand
      (updateBird H dt e.sinY e.sinR (updateWorld W dt g))).score ∧
    (update W H dt e g).best = (updatePipes W H dt e.rand
      (updateBird H dt e.sinY e.sinR (updateWorld W dt g))).best ∧
    (update W H dt e g).stored = (updatePipes W H dt e.rand
      (updateBird H dt e.sinY e.sinR (updateWorld W dt g))).stored ∧
    (updateBird H dt e.sinY e.sinR (updateWorld W dt g)).score = g.score ∧
    (updateBird H dt e.sinY e.sinR (updateWorld W dt g)).best = g.best ∧
    (updateBird H dt e.sinY e.sinR (updateWorld W dt g)).stored = g.stored := by
  have hc := checkCollisions_frame H (updatePipes W H dt e.rand
      (updateBird H dt e.sinY e.sinR (updateWorld W dt g)))
  have hb := updateBird_frame H dt e.sinY e.sinR (updateWorld W dt g)
  have hw := updateWorld_frame W dt g
  simp only [update]
  refine ⟨hc.2.2.1, hc.2.2.2.1, hc.2.2.2.2.1, ?_, ?_, ?_⟩
  · rw [hb.2.2.2.1, hw.2.2.2.1]
  · rw [hb.2.2.2.2.1, hw.2.2.2.2.1]
  · rw [hb.2.2.2.2.2.1, hw.2.2.2.2.2.1]

theorem update_score_le (W H dt : ℚ) (e : Env) (g : Game) :
    g.score ≤ (update W H dt e g).score := by
  obtain ⟨h1, -, -, h4, -, -⟩ := update_score_best W H dt e g
  rw [h1]
  by_cases hs : (updateBird H dt e.sinY e.sinR (updateWorld W dt g)).state = .playing
  · rw [updatePipes_score W H dt e.rand _ hs, h4]
    omega
  · rw [updatePipes_idle W H dt e.rand _ hs, h4]

theorem onActionInput_score (W H : ℚ) (rand : ℕ → ℚ) (g : Game) :
    (onActionInput W H rand g).best = g.best ∧ (onActionInput W H rand g).stored = g.stored ∧
    ((onActionInput W H rand g).score = g.score ∨
      (g.state = .gameOver ∧ (onActionInput W H rand g).score = 0)) := by
  simp only [onActionInput, startRound]
  split_ifs with h1 h2
  · simp [flap]
  · simp [flap]
  · refine ⟨rfl, rfl, Or.inr ⟨?_, rfl⟩⟩
    cases hs : g.state <;> simp_all

theorem step_score (W H : ℚ) (g : Game) (a : Action) :
    g.score ≤ (step W H g a).score ∨ (g.state = .gameOver ∧ ∃ r, a = .input r) := by
  cases a with
  | input rand =>
    rcases (onActionInput_score W H rand g).2.2 with h | ⟨h, -⟩
    · exact Or.inl (by simp only [step]; omega)
    · exact Or.inr ⟨h, rand, rfl⟩
  | update dt env => exact Or.inl (update_score_le W H dt env g)
  | tick timestamp env =>
    simp only [step, tick_eq_update]
    exact Or.inl (update_score_le W H _ env { g with lastTime := timestamp })

theorem update_best (W H dt : ℚ) (e : Env) (g : Game) :
    g.best ≤ (update W H dt e g).best ∧
    (ScoreOk g → ScoreOk (update W H dt e g)) ∧
    (g.best < (update W H dt e g).best →
      (update W H dt e g).stored = some (jsString (update W H dt e g).best)) := by
  obtain ⟨h1, h2, h3, h4, h5, h6⟩ := update_score_best W H dt e g
  obtain ⟨i1, i2, i3⟩ := updatePipes_best W H dt e.rand
    (updateBird H dt e.sinY e.sinR (updateWorld W dt g))
  rw [h4, h5] at i2
  rw [h5] at i1 i3
  rw [h2, h3]
  refine ⟨i1, fun hs => ⟨?_, ?_⟩, i3⟩
  · exact le_trans hs.1 (update_score_le W H dt e g)
  · rw [h1, h2]
    exact i2 hs.2

theorem step_best (W H : ℚ) (g : Game) (a : Action) :
    g.best ≤ (step W H g a).best ∧
    (ScoreOk g → ScoreOk (step W H g a)) ∧
    (g.best < (step W H g a).best →
      (step W H g a).stored = some (jsString (step W H g a).best)) := by
  cases a with
  | input rand =>
    obtain ⟨h1, h2, h3⟩ := onActionInput_score W H rand g
    simp only [step]
    refine ⟨by omega, fun hs => ?_, fun hlt => by omega⟩
    unfold ScoreOk at hs ⊢
    rcases h3 with h | ⟨-, h⟩ <;> omega
  | update dt env => exact update_best W H dt env g
  | tick timestamp env =>
    simp only [step, tick_eq_update]
    exact update_best W H _ env { g with lastTime := timestamp }

theorem run_scoreOk (W H : ℚ) (acts : List Action) (g : Game) (h : ScoreOk g) :
    ScoreOk (run W H g acts) ∧ g.best ≤ (run W H g acts).best := by
  induction acts generalizing g with
  | nil => exact ⟨h, le_rfl⟩
  | cons a acts ih =>
    obtain ⟨i1, i2⟩ := ih (step W H g a) ((step_best W H g a).2.1 h)
    exact ⟨i1, le_trans (step_best W H g a).1 i2⟩

/-- C8: with the stored item a field of the state and `best` initially a
non-negative integer, along every run from the initial reset `0 ≤ score ≤ best`
holds; no step (input, reset included, `update`, tick) decreases `best`;
`resetRound` leaves `best` unchanged; after `updatePipes` still `score ≤ best`;
and whenever `updatePipes` (or a whole step) increases `best`, the stored item
afterwards is `String(best)` of the new value. -/
theorem best_monotone (W H : ℚ) (best : ℤ) (stored : Option String) (rand : ℕ → ℚ)
    (acts : List Action) (hb : 0 ≤ best) :
    (0 ≤ (run W H (start W H best stored rand) acts).score ∧
      (run W H (start W H best stored rand) acts).score
        ≤ (run W H (start W H best stored rand) acts).best ∧
      best ≤ (run W H (start W H best stored rand) acts).best) ∧
    (∀ a : Action, (run W H (start W H best stored rand) acts).best
        ≤ (step W H (run W H (start W H best stored rand) acts) a).best) ∧
    (∀ (g : Game) (r : ℕ → ℚ), (resetRound W H r g).best = g.best) ∧
    (∀ (dt : ℚ) (r : ℕ → ℚ),
      (run W H (start W H best stored rand) acts).best
        ≤ (updatePipes W H dt r (run W H (start W H best stored rand) acts)).best ∧
      (updatePipes W H dt r (run W H (start W H best stored rand) acts)).score
        ≤ (updatePipes W H dt r (run W H (start W H best stored rand) acts)).best) ∧
    (∀ (g : Game) (dt : ℚ) (r : ℕ → ℚ), g.best < (updatePipes W H dt r g).best →
      (updatePipes W H dt r g).stored = some (jsString (updatePipes W H dt r g).best)) ∧
    (∀ (g : Game) (a : Action), g.best < (step W H g a).best →
      (step W H g a).stored = some (jsString (step W H g a).best)) := by
  have h0 : ScoreOk (start W H best stored rand) := by
    simpa [ScoreOk, start, resetRound, spawnPipe, initGame] using hb
  have hbest : (start W H best stored rand).best = best := rfl
  obtain ⟨⟨h1, h2⟩, h3⟩ := run_scoreOk W H acts _ h0
  rw [hbest] at h3
  refine ⟨⟨h1, h2, h3⟩, fun a => (step_best W H _ a).1, fun g r => rfl, fun dt r => ?_,
    fun g dt r => (updatePipes_best W H dt r g).2.2, fun g a => (step_best W H g a).2.2⟩
  obtain ⟨i1, i2, -⟩ := updatePipes_best W H dt r (run W H (start W H best stored rand) acts)
  exact ⟨i1, i2 h2⟩

theorem best_monotone_witness :
    (0 : ℤ) ≤ 0 ∧
    (run 480 640 (start 480 640 0 none randHalf) sampleActs).score
      ≤ (run 480 640 (start 480 640 0 none randHalf) sampleActs).best ∧
    (0 : ℤ) ≤ (run 480 640 (start 480 640 0 none randHalf) sampleActs).best :=
  have h := best_monotone 480 640 0 none randHalf sampleActs le_rfl
  ⟨le_rfl, h.1.2.1, h.1.2.2⟩

/-! ## Loading the best score -/

theorem digit_not_white (c : Char) (h : c.isDigit = true) : isStrWhiteSpaceChar c = false := by
  simp only [Char.isDigit, Bool.and_eq_true, decide_eq_true_eq] at h
  have h1 : 48 ≤ c.toNat := h.1
  have h2 : c.toNat ≤ 57 := h.2
  unfold isStrWhiteSpaceChar
  simp only [decide_eq_false_iff_not, List.mem_cons, List.mem_singleton, List.not_mem_nil,
    or_false]
  generalize c.toNat = n at h1 h2 ⊢
  omega

theorem digit_not_sign (c : Char) (h : c.isDigit = true) : c ≠ '+' ∧ c ≠ '-' := by
  simp only [Char.isDigit, Bool.and_eq_true, decide_eq_true_eq] at h
  have h1 : 48 ≤ c.toNat := h.1
  constructor <;> (rintro rfl; revert h1; decide)

theorem takeWhile_digits (ds rest : List Char) (hd : ∀ c ∈ ds, c.isDigit = true)
    (hr : ∀ c ∈ rest.head?, c.isDigit = false) :
    (ds ++ rest).takeWhile Char.isDigit = ds := by
  induction ds with
  | nil =>
    cases rest with
    | nil => rfl
    | cons c rest =>
      have := hr c (by simp)
      simp [List.takeWhile_cons, this]
  | cons d ds ih =>
    have h1 := hd d (List.mem_cons_self _ _)
    simp only [List.cons_append, List.takeWhile_cons, h1, if_true]
    rw [ih (fun c hc => hd c (List.mem_cons_of_mem _ hc))]

theorem digitsValue_foldl_nonneg (ds : List Char) (n : ℤ) (h : 0 ≤ n) :
    0 ≤ ds.foldl (fun n c => 10 * n + ((c.toNat - 48 : ℕ) : ℤ)) n := by
  induction ds generalizing n with
  | nil => exact h
  | cons d ds ih =>
    simp only [List.foldl_cons]
    apply ih
    omega

/-- What `parseInt10` reads from a text that starts with the digit run `ds`, with or
without a minus sign in front: the sign and `ds`. -/
theorem parseInt10_digits (ds rest : List Char) (hne : ds ≠ [])
    (hd : ∀ c ∈ ds, c.isDigit = true) (hr : ∀ c ∈ rest.head?, c.isDigit = false) :
    parseInt10 (String.mk (ds ++ rest)) =
      (if digitsValue ds ≤ 9007199254740992 then .int (digitsValue ds) else .big false) ∧
    parseInt10 (String.mk ('-' :: (ds ++ rest))) =
      (if digitsValue ds ≤ 9007199254740992 then .int (-(digitsValue ds)) else .big true) := by
  cases ds with
  | nil => exact absurd rfl hne
  | cons d ds =>
    have h1 := hd d (List.mem_cons_self _ _)
    have hw := digit_not_white d h1
    have hs := digit_not_sign d h1
    have ht := takeWhile_digits (d :: ds) rest hd hr
    constructor
    · simp only [parseInt10, String.toList, List.cons_append, List.dropWhile_cons, hw,
        Bool.false_eq_true, if_false, List.head?_cons, Option.some.injEq, hs.1, hs.2,
        or_self]
      rw [← List.cons_append, ht]
      simp
    · have hm : isStrWhiteSpaceChar '-' = false := by decide
      simp only [parseInt10, String.toList, List.dropWhile_cons, hm, Bool.false_eq_true,
        if_false, List.head?_cons, or_true, if_true, List.tail_cons]
      rw [ht]
      simp

/-- C9, as the code has it: the best score computed at start-up is 0 when the
stored item is absent or the empty string; for a stored string that starts with
a non-empty run of decimal digits of value at most `2^53` (as the game itself
writes, possibly followed by other text) it is the non-negative integer those
digits spell, and the same string behind a minus sign loads as the negated
value, with no range check; a digit run of value above `2^53` loads as a large
double, not as 0. -/
theorem loadBest_numeric :
    loadBest none = .int 0 ∧ loadBest (some "") = .int 0 ∧
    ∀ ds rest : List Char, ds ≠ [] → (∀ c ∈ ds, c.isDigit = true) →
      (∀ c ∈ rest.head?, c.isDigit = false) →
      0 ≤ digitsValue ds ∧
      (digitsValue ds ≤ 9007199254740992 →
        loadBest (some (String.mk (ds ++ rest))) = .int (digitsValue ds) ∧
        loadBest (some (String.mk ('-' :: (ds ++ rest)))) = .int (-(digitsValue ds))) ∧
      (9007199254740992 < digitsValue ds →
        loadBest (some (String.mk (ds ++ rest))) = .big false ∧
        loadBest (some (String.mk ('-' :: (ds ++ rest)))) = .big true) := by
  refine ⟨by decide, by decide, ?_⟩
  intro ds rest hne hd hr
  obtain ⟨h1, h2⟩ := parseInt10_digits ds rest hne hd hr
  have e1 : String.mk (ds ++ rest) ≠ "" := by
    cases ds with
    | nil => exact absurd rfl hne
    | cons d ds =>
      intro h
      have := congrArg String.data h
      simp at this
  have e2 : String.mk ('-' :: (ds ++ rest)) ≠ "" := by
    intro h
    have := congrArg String.data h
    simp at this
  refine ⟨digitsValue_foldl_nonneg ds 0 le_rfl, fun hb => ⟨?_, ?_⟩, fun hb => ⟨?_, ?_⟩⟩
  · simp only [loadBest, e1, if_false, h1, hb, if_true]
  · simp only [loadBest, e2, if_false, h2, hb, if_true]
  · simp only [loadBest, e1, if_false, h1, not_le.mpr hb]
  · simp only [loadBest, e2, if_false, h2, not_le.mpr hb]

theorem loadBest_numeric_witness :
    loadBest (some "42px") = .int 42 ∧ loadBest (some "-42px") = .int (-42) :=
  have h := (loadBest_numeric.2.2 ['4', '2'] ['p', 'x'] (by decide) (by decide)
    (by decide)).2.1 (by decide)
  ⟨h.1, h.2⟩

/-- C9 fails as stated: the stored text `-5` loads as the negative number -5 (not a
non-negative integer, and not 0), and the stored text `abc` loads as `NaN`. -/
theorem loadBest_counterexample :
    loadBest (some "-5") = .int (-5) ∧ loadBest (some "abc") = .nan ∧
    ¬ ∀ item : Option String, ∃ n : ℕ, loadBest item = .int (n : ℤ) := by
  refine ⟨by decide, by decide, ?_⟩
  intro h
  obtain ⟨n, hn⟩ := h (some "-5")
  have h5 : loadBest (some "-5") = .int (-5) := by decide
  rw [h5] at hn
  simp only [Parsed.int.injEq] at hn
  omega

/-! ## Collision test -/

theorem clamp_nearest (v mn mx p : ℚ) (h1 : mn ≤ p) (h2 : p ≤ mx) :
    (v - clamp v mn mx) ^ 2 ≤ (v - p) ^ 2 := by
  unfold clamp
  rcases le_total mx v with h | h
  · rw [min_eq_left h, max_eq_right (le_trans h1 h2)]
    nlinarith
  · rw [min_eq_right h]
    rcases le_total mn v with h3 | h3
    · rw [max_eq_right h3]
      nlinarith [sq_nonneg (v - p)]
    · rw [max_eq_left h3]
      nlinarith

/-- The test `circleRectCollide` decides whether the disc meets the rectangle, for
a rectangle of non-negative width and height. -/
theorem circleRectCollide_iff (cx cy cr rx ry rw rh : ℚ) (hw : 0 ≤ rw) (hh : 0 ≤ rh) :
    circleRectCollide cx cy cr rx ry rw rh = true ↔
      DiscMeetsRect cx cy cr rx (rx + rw) ry (ry + rh) := by
  simp only [circleRectCollide, decide_eq_true_eq, DiscMeetsRect]
  constructor
  · intro h
    have bx := clamp_bounds cx rx (rx + rw) (by linarith)
    have by1 := clamp_bounds cy ry (ry + rh) (by linarith)
    exact ⟨_, _, bx.1, bx.2, by1.1, by1.2, by nlinarith⟩
  · rintro ⟨px, py, h1, h2, h3, h4, h5⟩
    have nx := clamp_nearest cx rx (rx + rw) px h1 h2
    have ny := clamp_nearest cy ry (ry + rh) py h3 h4
    nlinarith

theorem pipeHit_iff (H : ℚ) (b : Bird) (p : Pipe) (htop : b.y - 20 > 0)
    (hbot : b.y + 20 < H - 120) :
    pipeHit H b p = true ↔
      DiscMeetsRect b.x b.y 18 p.x (p.x + 88) 0 (p.gapY - 185 / 2) ∨
      DiscMeetsRect b.x b.y 18 p.x (p.x + 88) (p.gapY + 185 / 2) (H - 120) := by
  have e18 : birdRadius - 2 = 18 := by norm_num [birdRadius]
  simp only [pipeHit, Bool.or_eq_true, e18, pipeWidth, pipeGap, GROUND_HEIGHT]
  apply or_congr
  · rcases le_or_lt 0 (p.gapY - 185 / 2) with h | h
    · rw [circleRectCollide_iff _ _ _ _ _ _ _ (by norm_num) h]
      simp
    · constructor
      · intro hc
        simp only [circleRectCollide, decide_eq_true_eq, clamp] at hc
        rw [zero_add, max_eq_left (le_trans (min_le_left _ _) h.le)] at hc
        nlinarith [mul_self_nonneg (b.x - max p.x (min (p.x + 88) b.x))]
      · rintro ⟨px, py, -, -, h3, h4, -⟩
        linarith
  · rcases le_or_lt (p.gapY + 185 / 2) (H - 120) with h | h
    · rw [circleRectCollide_iff _ _ _ _ _ _ _ (by norm_num) (by linarith)]
      have e : p.gapY + 185 / 2 + (H - 120 - (p.gapY + 185 / 2)) = H - 120 := by ring
      rw [e]
    · constructor
      · intro hc
        simp only [circleRectCollide, decide_eq_true_eq, clamp] at hc
        have e : p.gapY + 185 / 2 + (H - 120 - (p.gapY + 185 / 2)) = H - 120 := by ring
        rw [e, max_eq_left (le_trans (min_le_left _ _) h.le)] at hc
        nlinarith [mul_self_nonneg (b.x - max p.x (min (p.x + 88) b.x))]
      · rintro ⟨px, py, -, -, h3, h4, -⟩
        linarith

theorem checkCollisions_inside (H : ℚ) (g : Game) (hs : g.state = .playing)
    (htop : g.bird.y - 20 > 0) (hbot : g.bird.y + 20 < H - 120) :
    checkCollisions H g = checkPipes H g.pipes g := by
  have hb : bounceCeiling g = g := by
    simp only [bounceCeiling, birdRadius]
    rw [if_neg (by linarith)]
  simp only [checkCollisions, hs, ne_eq, not_true_eq_false, if_false, hb, birdRadius,
    GROUND_HEIGHT]
  rw [if_neg (by linarith)]

theorem checkPipes_state (H : ℚ) (ps : List Pipe) (g : Game) (hs : g.state = .playing) :
    ((checkPipes H ps g).state = .gameOver ↔ ∃ p ∈ ps, pipeHit H g.bird p = true) ∧
    ((checkPipes H ps g).state = .gameOver → checkPipes H ps g =
      { g with state := .gameOver, bird := { g.bird with vy := 0, rotation := 12 / 10 } }) ∧
    ((checkPipes H ps g).state ≠ .gameOver → checkPipes H ps g = g) := by
  have he : endRound g =
      { g with state := .gameOver, bird := { g.bird with vy := 0, rotation := 12 / 10 } } := by
    simp [endRound, hs]
  rcases checkPipes_cases H ps g with ⟨e, hno⟩ | ⟨e, hyes⟩
  · rw [e]
    refine ⟨⟨fun h => ?_, fun ⟨p, hp, hit⟩ => ?_⟩, fun h => ?_, fun _ => rfl⟩
    · rw [hs] at h
      cases h
    · rw [hno p hp] at hit
      cases hit
    · rw [hs] at h
      cases h
  · rw [e, he]
    exact ⟨⟨fun _ => hyes, fun _ => rfl⟩, fun _ => rfl, fun h => absurd rfl h⟩

theorem clamp_below (v mn mx : ℚ) (h : v ≤ mn) : clamp v mn mx = mn := by
  unfold clamp
  exact max_eq_left (le_trans (min_le_right _ _) h)

theorem clamp_above (v mn mx : ℚ) (h : mx ≤ v) (hm : mn ≤ mx) : clamp v mn mx = mx := by
  unfold clamp
  rw [min_eq_left h]
  exact max_eq_right hm

theorem clamp_corner_x (bx px cx : ℚ)
    (hc : (bx < px ∧ cx = px) ∨ (px + 88 < bx ∧ cx = px + 88)) :
    clamp bx px (px + 88) = cx := by
  rcases hc with ⟨h, rfl⟩ | ⟨h, rfl⟩
  · exact clamp_below _ _ _ h.le
  · exact clamp_above _ _ _ h.le (by linarith)

theorem clamp_ge (v mn mx : ℚ) : mn ≤ clamp v mn mx := le_max_left _ _

theorem clamp_le (v mn mx : ℚ) (h : mn ≤ mx) : clamp v mn mx ≤ mx :=
  (clamp_bounds v mn mx h).2

/-- The bird diagonally outside a lower corner `(cx, gapY - 185/2)` of the top
segment, the bottom segment out of reach: the pipe is hit exactly when the
corner is within distance 18. -/
theorem pipeHit_top_corner (H : ℚ) (b : Bird) (p : Pipe) (cx : ℚ)
    (hc : (b.x < p.x ∧ cx = p.x) ∨ (p.x + 88 < b.x ∧ cx = p.x + 88))
    (h0 : 0 ≤ p.gapY - 185 / 2) (h1 : p.gapY - 185 / 2 < b.y)
    (h2 : b.y + 18 < p.gapY + 185 / 2) :
    pipeHit H b p = true ↔ (b.x - cx) ^ 2 + (b.y - (p.gapY - 185 / 2)) ^ 2 ≤ 18 ^ 2 := by
  have e18 : birdRadius - 2 = 18 := by norm_num [birdRadius]
  have hx := clamp_corner_x b.x p.x cx hc
  have hy : clamp b.y 0 (0 + (p.gapY - 185 / 2)) = p.gapY - 185 / 2 := by
    rw [clamp_above _ _ _ (by linarith) (by linarith)]
    ring
  have hb := clamp_ge b.y (p.gapY + 185 / 2)
    (p.gapY + 185 / 2 + (H - 120 - (p.gapY + 185 / 2)))
  simp only [pipeHit, Bool.or_eq_true, e18, pipeWidth, pipeGap, GROUND_HEIGHT,
    circleRectCollide, decide_eq_true_eq, hx, hy]
  constructor
  · rintro (h | h)
    · nlinarith
    · nlinarith [mul_self_nonneg (b.x - cx)]
  · intro h
    left
    nlinarith

/-- The bird diagonally outside an upper corner `(cx, gapY + 185/2)` of the bottom
segment, the top segment out of reach: the pipe is hit exactly when the corner
is within distance 18. -/
theorem pipeHit_bottom_corner (H : ℚ) (b : Bird) (p : Pipe) (cx : ℚ)
    (hc : (b.x < p.x ∧ cx = p.x) ∨ (p.x + 88 < b.x ∧ cx = p.x + 88))
    (h1 : b.y < p.gapY + 185 / 2) (h2 : p.gapY - 185 / 2 + 18 < b.y) (h3 : 0 < b.y - 18) :
    pipeHit H b p = true ↔ (b.x - cx) ^ 2 + (b.y - (p.gapY + 185 / 2)) ^ 2 ≤ 18 ^ 2 := by
  have e18 : birdRadius - 2 = 18 := by norm_num [birdRadius]
  have hx := clamp_corner_x b.x p.x cx hc
  have hy : clamp b.y (p.gapY + 185 / 2) (p.gapY + 185 / 2 + (H - 120 - (p.gapY + 185 / 2)))
      = p.gapY + 185 / 2 := clamp_below _ _ _ h1.le
  have ht : clamp b.y 0 (0 + (p.gapY - 185 / 2)) + 18 < b.y := by
    unfold clamp
    rcases le_total 0 (min (0 + (p.gapY - 185 / 2)) b.y) with h | h
    · rw [max_eq_right h]
      have := min_le_left (0 + (p.gapY - 185 / 2)) b.y
      linarith
    · rw [max_eq_left h]
      linarith
  simp only [pipeHit, Bool.or_eq_true, e18, pipeWidth, pipeGap, GROUND_HEIGHT,
    circleRectCollide, decide_eq_true_eq, hx, hy]
  constructor
  · rintro (h | h)
    · nlinarith [mul_self_nonneg (b.x - cx)]
    · nlinarith
  · intro h
    right
    nlinarith

/-- C10: in `Playing` with the bird strictly inside the vertical bounds
(`bird.y - 20 > 0` and `bird.y + 20 < H - 120`, `bird.x = 140`),
`checkCollisions()` ends the round (state `GameOver`, `vy = 0`, `rotation = 1.2`)
if and only if for some pipe of the queue the closed disc of radius 18 centred
at `(140, bird.y)` meets the top rectangle `[x, x+88] × [0, gapY - 92.5]` or the
bottom rectangle `[x, x+88] × [gapY + 92.5, H - 120]`; otherwise the whole state
is unchanged.  In particular, with the centre diagonally outside a corner
`(cx, cy)` of a segment of a pipe `p`, the other segment of `p` and all other
pipes out of reach, the round ends exactly when the squared distance to the
corner is at most `18²` (that is, `d ≤ 18`). -/
theorem checkCollisions_pipe_hit (H : ℚ) (g : Game) (hs : g.state = .playing)
    (hx : g.bird.x = 140) (htop : g.bird.y - 20 > 0) (hbot : g.bird.y + 20 < H - 120) :
    ((checkCollisions H g).state = .gameOver ↔
      ∃ p ∈ g.pipes,
        DiscMeetsRect 140 g.bird.y 18 p.x (p.x + 88) 0 (p.gapY - 185 / 2) ∨
        DiscMeetsRect 140 g.bird.y 18 p.x (p.x + 88) (p.gapY + 185 / 2) (H - 120)) ∧
    ((checkCollisions H g).state = .gameOver → checkCollisions H g =
      { g with state := .gameOver, bird := { g.bird with vy := 0, rotation := 12 / 10 } }) ∧
    ((checkCollisions H g).state ≠ .gameOver → checkCollisions H g = g) ∧
    (∀ (p : Pipe) (cx : ℚ), p ∈ g.pipes →
      (∀ q ∈ g.pipes, q ≠ p →
        ¬ (DiscMeetsRect 140 g.bird.y 18 q.x (q.x + 88) 0 (q.gapY - 185 / 2) ∨
          DiscMeetsRect 140 g.bird.y 18 q.x (q.x + 88) (q.gapY + 185 / 2) (H - 120))) →
      ((140 < p.x ∧ cx = p.x) ∨ (p.x + 88 < 140 ∧ cx = p.x + 88)) →
      (0 ≤ p.gapY - 185 / 2 ∧ p.gapY - 185 / 2 < g.bird.y ∧
          g.bird.y + 18 < p.gapY + 185 / 2 →
        ((checkCollisions H g).state = .gameOver ↔
          (140 - cx) ^ 2 + (g.bird.y - (p.gapY - 185 / 2)) ^ 2 ≤ 18 ^ 2)) ∧
      (g.bird.y < p.gapY + 185 / 2 ∧ p.gapY - 185 / 2 + 18 < g.bird.y →
        ((checkCollisions H g).state = .gameOver ↔
          (140 - cx) ^ 2 + (g.bird.y - (p.gapY + 185 / 2)) ^ 2 ≤ 18 ^ 2))) := by
  rw [checkCollisions_inside H g hs htop hbot]
  obtain ⟨c1, c2, c3⟩ := checkPipes_state H g.pipes g hs
  have hit : ∀ q : Pipe, pipeHit H g.bird q = true ↔
      (DiscMeetsRect 140 g.bird.y 18 q.x (q.x + 88) 0 (q.gapY - 185 / 2) ∨
        DiscMeetsRect 140 g.bird.y 18 q.x (q.x + 88) (q.gapY + 185 / 2) (H - 120)) := by
    intro q
    rw [← hx]
    exact pipeHit_iff H g.bird q htop hbot
  refine ⟨?_, c2, c3, ?_⟩
  · rw [c1]
    exact ⟨fun ⟨p, hp, h⟩ => ⟨p, hp, (hit p).mp h⟩, fun ⟨p, hp, h⟩ => ⟨p, hp, (hit p).mpr h⟩⟩
  · intro p cx hp hothers hc
    have hc2 : (g.bird.x < p.x ∧ cx = p.x) ∨ (p.x + 88 < g.bird.x ∧ cx = p.x + 88) := by
      rw [hx]
      exact hc
    have only : (∃ q ∈ g.pipes, pipeHit H g.bird q = true) ↔ pipeHit H g.bird p = true := by
      constructor
      · rintro ⟨q, hq, h⟩
        by_cases hqp : q = p
        · rw [← hqp]
          exact h
        · exact absurd ((hit q).mp h) (hothers q hq hqp)
      · exact fun h => ⟨p, hp, h⟩
    rw [c1, only]
    constructor
    · rintro ⟨h0, h1, h2⟩
      rw [← hx]
      exact pipeHit_top_corner H g.bird p cx hc2 h0 h1 h2
    · rintro ⟨h1, h2⟩
      rw [← hx]
      exact pipeHit_bottom_corner H g.bird p cx hc2 h1 h2 (by linarith)

theorem checkCollisions_pipe_hit_witness :
    sampleCorner.state = .playing ∧ sampleCorner.bird.x = 140 ∧
    sampleCorner.bird.y - 20 > 0 ∧ sampleCorner.bird.y + 20 < 640 - 120 ∧
    (checkCollisions 640 sampleCorner).state = .gameOver ∧
    checkCollisions 640 sampleCorner =
      { sampleCorner with
        state := .gameOver
        bird := { sampleCorner.bird with vy := 0, rotation := 12 / 10 } } :=
  have h1 : sampleCorner.bird.y - 20 > 0 := by norm_num [sampleCorner, samplePlaying]
  have h2 : sampleCorner.bird.y + 20 < 640 - 120 := by norm_num [sampleCorner, samplePlaying]
  have h := checkCollisions_pipe_hit 640 sampleCorner rfl rfl h1 h2
  have hover : (checkCollisions 640 sampleCorner).state = .gameOver :=
    ((h.2.2.2 { x := 150, gapY := 665 / 2, passed := false } 150
      (by simp [sampleCorner])
      (by simp [sampleCorner])
      (Or.inl ⟨by norm_num, rfl⟩)).1
      (by norm_num [sampleCorner, samplePlaying])).mpr
      (by norm_num [sampleCorner, samplePlaying])
  ⟨rfl, rfl, h1, h2, hover, h.2.1 hover⟩

/-! ## Exactness of the circle-rectangle test -/

/-- C11: for a rectangle of non-negative width and height, `circleRectCollide`
returns true if and only if some point `(px, py)` of the rectangle
`[rx, rx+rw] × [ry, ry+rh]` satisfies `(cx - px)² + (cy - py)² ≤ cr²`; the
per-axis clamped point lies in the rectangle and is nearest to the centre among
its points; and the boundary case (distance exactly `cr`) counts as a collision. -/
theorem circleRectCollide_exact (cx cy cr rx ry rw rh : ℚ) (hw : 0 ≤ rw) (hh : 0 ≤ rh) :
    (circleRectCollide cx cy cr rx ry rw rh = true ↔
      ∃ px py : ℚ, rx ≤ px ∧ px ≤ rx + rw ∧ ry ≤ py ∧ py ≤ ry + rh ∧
        (cx - px) ^ 2 + (cy - py) ^ 2 ≤ cr ^ 2) ∧
    (rx ≤ clamp cx rx (rx + rw) ∧ clamp cx rx (rx + rw) ≤ rx + rw ∧
      ry ≤ clamp cy ry (ry + rh) ∧ clamp cy ry (ry + rh) ≤ ry + rh) ∧
    (∀ px py : ℚ, rx ≤ px → px ≤ rx + rw → ry ≤ py → py ≤ ry + rh →
      (cx - clamp cx rx (rx + rw)) ^ 2 + (cy - clamp cy ry (ry + rh)) ^ 2
        ≤ (cx - px) ^ 2 + (cy - py) ^ 2) ∧
    ((cx - clamp cx rx (rx + rw)) ^ 2 + (cy - clamp cy ry (ry + rh)) ^ 2 = cr ^ 2 →
      circleRectCollide cx cy cr rx ry rw rh = true) := by
  have bx := clamp_bounds cx rx (rx + rw) (by linarith)
  have by1 := clamp_bounds cy ry (ry + rh) (by linarith)
  refine ⟨circleRectCollide_iff cx cy cr rx ry rw rh hw hh, ⟨bx.1, bx.2, by1.1, by1.2⟩, ?_, ?_⟩
  · intro px py h1 h2 h3 h4
    have nx := clamp_nearest cx rx (rx + rw) px h1 h2
    have ny := clamp_nearest cy ry (ry + rh) py h3 h4
    linarith
  · intro h
    simp only [circleRectCollide, decide_eq_true_eq]
    nlinarith

theorem circleRectCollide_exact_witness :
    (0 : ℚ) ≤ 2 ∧ circleRectCollide 0 0 5 3 4 2 2 = true ∧
    circleRectCollide 0 0 (49 / 10) 3 4 2 2 = false :=
  have h := circleRectCollide_exact 0 0 5 3 4 2 2 (by norm_num) (by norm_num)
  have h2 := circleRectCollide_exact 0 0 (49 / 10) 3 4 2 2 (by norm_num) (by norm_num)
  ⟨by norm_num, h.1.mpr ⟨3, 4, by norm_num, by norm_num, by norm_num, by norm_num,
      by norm_num⟩,
    by
      rw [Bool.eq_false_iff]
      intro hc
      obtain ⟨px, py, h1, -, h3, -, h5⟩ := h2.1.mp hc
      nlinarith⟩

/-! ## Updates outside `Playing`, the clock, the integrator -/

theorem update_idle (W H dt : ℚ) (e : Env) (g : Game) (h : g.state ≠ .playing) :
    update W H dt e g = updateBird H dt e.sinY e.sinR (updateWorld W dt g) := by
  have hs : (updateBird H dt e.sinY e.sinR (updateWorld W dt g)).state ≠ .playing := by
    rw [(updateBird_frame H dt e.sinY e.sinR _).1, (updateWorld_frame W dt g).1]
    exact h
  simp only [update]
  rw [updatePipes_idle W H dt e.rand _ hs]
  simp only [checkCollisions, hs, ne_eq, not_false_eq_true, if_true]

theorem update_idle_frame (W H dt : ℚ) (e : Env) (g : Game) (h : g.state ≠ .playing) :
    (update W H dt e g).state = g.state ∧ (update W H dt e g).score = g.score ∧
    (update W H dt e g).best = g.best ∧ (update W H dt e g).stored = g.stored ∧
    (update W H dt e g).pipes = g.pipes := by
  rw [update_idle W H dt e g h]
  have hb := updateBird_frame H dt e.sinY e.sinR (updateWorld W dt g)
  have hw := updateWorld_frame W dt g
  refine ⟨?_, ?_, ?_, ?_, ?_⟩
  · rw [hb.1, hw.1]
  · rw [hb.2.2.2.1, hw.2.2.2.1]
  · rw [hb.2.2.2.2.1, hw.2.2.2.2.1]
  · rw [hb.2.2.2.2.2.1, hw.2.2.2.2.2.1]
  · rw [hb.2.2.1, hw.2.2.1]

theorem frame_idle (W H : ℚ) (g : Game) (a : Action) (h : g.state ≠ .playing)
    (ha : a.isFrame = true) :
    (step W H g a).state = g.state ∧ (step W H g a).score = g.score ∧
    (step W H g a).best = g.best ∧ (step W H g a).stored = g.stored ∧
    (step W H g a).pipes = g.pipes := by
  cases a with
  | input rand => cases ha
  | update dt env => exact update_idle_frame W H dt env g h
  | tick timestamp env =>
    simp only [step, tick_eq_update]
    exact update_idle_frame W H _ env { g with lastTime := timestamp } h

theorem frames_idle (W H : ℚ) (acts : List Action) (g : Game) (h : g.state ≠ .playing)
    (ha : ∀ a ∈ acts, a.isFrame = true) :
    (run W H g acts).state = g.state ∧ (run W H g acts).score = g.score ∧
    (run W H g acts).best = g.best ∧ (run W H g acts).stored = g.stored ∧
    (run W H g acts).pipes = g.pipes := by
  induction acts generalizing g with
  | nil => exact ⟨rfl, rfl, rfl, rfl, rfl⟩
  | cons a acts ih =>
    obtain ⟨s1, s2, s3, s4, s5⟩ := frame_idle W H g a h (ha a (List.mem_cons_self _ _))
    obtain ⟨r1, r2, r3, r4, r5⟩ := ih (step W H g a) (by rw [s1]; exact h)
      (fun b hb => ha b (List.mem_cons_of_mem _ hb))
    exact ⟨r1.trans s1, r2.trans s2, r3.trans s3, r4.trans s4, r5.trans s5⟩

/-- C13: in `Ready` or `GameOver`, `update(dt)` leaves `state`, `score`, `best`, the
stored best and the whole pipe queue unchanged, for every `dt`; the same holds
for any sequence of `update` and `tick` calls, so pipes do not move in `Ready`
and `GameOver` is left only by an action input (which resets to `Ready`). -/
theorem update_gated_on_playing (W H dt : ℚ) (e : Env) (g : Game)
    (h : g.state = .ready ∨ g.state = .gameOver) :
    ((update W H dt e g).state = g.state ∧ (update W H dt e g).score = g.score ∧
      (update W H dt e g).best = g.best ∧ (update W H dt e g).stored = g.stored ∧
      (update W H dt e g).pipes = g.pipes) ∧
    (∀ acts : List Action, (∀ a ∈ acts, a.isFrame = true) →
      (run W H g acts).state = g.state ∧ (run W H g acts).score = g.score ∧
      (run W H g acts).best = g.best ∧ (run W H g acts).stored = g.stored ∧
      (run W H g acts).pipes = g.pipes) ∧
    (g.state = .gameOver → ∀ rand : ℕ → ℚ, (onActionInput W H rand g).state = .ready) := by
  have hn : g.state ≠ .playing := by
    rcases h with h | h <;> rw [h] <;> decide
  refine ⟨update_idle_frame W H dt e g hn, fun acts ha => frames_idle W H acts g hn ha, ?_⟩
  intro hg rand
  simp [onActionInput, hg, resetRound, spawnPipe]

theorem update_gated_on_playing_witness :
    (sampleGameOver.state = .ready ∨ sampleGameOver.state = .gameOver) ∧
    (update 480 640 (1 / 60) sampleEnv sampleGameOver).state = .gameOver ∧
    (update 480 640 (1 / 60) sampleEnv sampleGameOver).score = 5 ∧
    (update 480 640 (1 / 60) sampleEnv sampleGameOver).pipes = sampleGameOver.pipes :=
  have h := update_gated_on_playing 480 640 (1 / 60) sampleEnv sampleGameOver (Or.inr rfl)
  ⟨Or.inr rfl, h.1.1, h.1.2.1, h.1.2.2.2.2⟩

theorem update_lastTime (W H dt : ℚ) (e : Env) (g : Game) :
    (update W H dt e g).lastTime = g.lastTime := by
  simp only [update]
  rw [(checkCollisions_frame H _).2.2.2.2.2.1, (updatePipes_frame W H dt e.rand _).2.2.2,
    (updateBird_frame H dt e.sinY e.sinR _).2.2.2.2.2.2, (updateWorld_frame W dt g).2.2.2.2.2.2]

/-- C14: `tick(timestamp)` runs `update` with the delta-time `tickDt`, which is 0
when no previous timestamp is recorded (`lastTime = 0`) and otherwise exactly
`min((timestamp - lastTime) / 1000, 0.04)`; so it is at most 0.04, it is exactly
0.04 whenever at least 40 ms have elapsed since the recorded timestamp (any
larger elapsed time gives the same delta-time), it is non-negative whenever
`timestamp ≥ lastTime`; and after the tick `lastTime = timestamp`. -/
theorem tick_clock (W H timestamp : ℚ) (e : Env) (g : Game) :
    tick W H timestamp e g
      = update W H (tickDt timestamp g) e { g with lastTime := timestamp } ∧
    (g.lastTime = 0 → tickDt timestamp g = 0) ∧
    (g.lastTime ≠ 0 → tickDt timestamp g = min ((timestamp - g.lastTime) / 1000) (4 / 100)) ∧
    tickDt timestamp g ≤ 4 / 100 ∧
    (g.lastTime ≠ 0 → 40 ≤ timestamp - g.lastTime → tickDt timestamp g = 4 / 100) ∧
    (g.lastTime ≠ 0 → ∀ t2 : ℚ, 40 ≤ timestamp - g.lastTime → 40 ≤ t2 - g.lastTime →
      tickDt t2 g = tickDt timestamp g) ∧
    (g.lastTime ≤ timestamp → 0 ≤ tickDt timestamp g) ∧
    (tick W H timestamp e g).lastTime = timestamp := by
  have h40 : ∀ t : ℚ, g.lastTime ≠ 0 → 40 ≤ t - g.lastTime → tickDt t g = 4 / 100 := by
    intro t h0 h
    simp only [tickDt, h0, if_false]
    apply min_eq_right
    linarith
  refine ⟨tick_eq_update W H timestamp e g, ?_, ?_, min_le_right _ _, h40 timestamp, ?_, ?_, ?_⟩
  · intro h0
    simp only [tickDt, h0, if_true, sub_self, zero_div]
    exact min_eq_left (by norm_num)
  · intro h0
    simp only [tickDt, h0, if_false]
  · intro h0 t2 h1 h2
    rw [h40 timestamp h0 h1, h40 t2 h0 h2]
  · intro hle
    simp only [tickDt]
    apply le_min _ (by norm_num)
    split_ifs
    · simp
    · apply div_nonneg _ (by norm_num)
      linarith
  · rw [tick_eq_update, update_lastTime]

theorem tick_clock_witness :
    samplePlaying.lastTime ≠ 0 ∧ (40 : ℚ) ≤ 1500 - samplePlaying.lastTime ∧
    tickDt 1500 samplePlaying = 4 / 100 ∧ tickDt 1016 samplePlaying = 2 / 125 ∧
    tickDt 1016 (initGame 0 none) = 0 ∧
    (tick 480 640 1016 sampleEnv samplePlaying).lastTime = 1016 :=
  have h := tick_clock 480 640 1500 sampleEnv samplePlaying
  have h2 := tick_clock 480 640 1016 sampleEnv samplePlaying
  have h3 := tick_clock 480 640 1016 sampleEnv (initGame 0 none)
  have n0 : samplePlaying.lastTime ≠ 0 := by norm_num [samplePlaying]
  have n40 : (40 : ℚ) ≤ 1500 - samplePlaying.lastTime := by norm_num [samplePlaying]
  ⟨n0, n40, h.2.2.2.2.1 n0 n40,
    by rw [h2.2.2.1 n0]; norm_num [samplePlaying],
    h3.2.1 rfl, h2.2.2.2.2.2.2.2⟩

theorem updateBird_pinned (H dt sinY sinR : ℚ) (g : Game) (hn : g.state ≠ .ready)
    (hy : H - 140 < g.bird.y + clamp (g.bird.vy + 1500 * dt) (-1000) 700 * dt) :
    updateBird H dt sinY sinR g =
      { g with bird := { g.bird with y := H - 140, vy := 0, rotation := 12 / 10,
                                     wingTick := g.bird.wingTick + dt * 16 } } := by
  have e140 : H - 120 - 20 = H - 140 := by ring
  simp only [updateBird, hn, if_false, gravity, maxFallSpeed, GROUND_HEIGHT, birdRadius, e140,
    gt_iff_lt, hy, if_true]

theorem updateBird_free (H dt sinY sinR : ℚ) (g : Game) (hn : g.state ≠ .ready)
    (hy : g.bird.y + clamp (g.bird.vy + 1500 * dt) (-1000) 700 * dt ≤ H - 140) :
    updateBird H dt sinY sinR g =
      { g with bird := { g.bird with
          y := g.bird.y + clamp (g.bird.vy + 1500 * dt) (-1000) 700 * dt
          vy := clamp (g.bird.vy + 1500 * dt) (-1000) 700
          rotation := clamp (clamp (g.bird.vy + 1500 * dt) (-1000) 700 / 700 * (12 / 10))
            (-(55 / 100)) (12 / 10)
          wingTick := g.bird.wingTick + dt * 16 } } := by
  have e140 : H - 120 - 20 = H - 140 := by ring
  simp only [updateBird, hn, if_false, gravity, maxFallSpeed, GROUND_HEIGHT, birdRadius, e140,
    gt_iff_lt, not_lt.mpr hy]

/-- C19: in `Playing` or `GameOver`, `updateBird(dt)` computes
`vy' = clamp(vy + 1500*dt, -1000, 700)`, then `y' = y + vy'*dt` with the updated
velocity; if `y' > H - 140` it leaves `y = H - 140`, `vy = 0`, `rotation = 1.2`,
otherwise `y = y'`, `vy = vy'`, `rotation = clamp(vy'/700 * 1.2, -0.55, 1.2)`.
Hence after the call `bird.y ≤ H - 140` and `rotation` lies in `[-0.55, 1.2]`. -/
theorem updateBird_integrates (H dt sinY sinR : ℚ) (g : Game)
    (h : g.state = .playing ∨ g.state = .gameOver) :
    (H - 140 < g.bird.y + clamp (g.bird.vy + 1500 * dt) (-1000) 700 * dt →
      (updateBird H dt sinY sinR g).bird.y = H - 140 ∧
      (updateBird H dt sinY sinR g).bird.vy = 0 ∧
      (updateBird H dt sinY sinR g).bird.rotation = 12 / 10) ∧
    (g.bird.y + clamp (g.bird.vy + 1500 * dt) (-1000) 700 * dt ≤ H - 140 →
      (updateBird H dt sinY sinR g).bird.vy = clamp (g.bird.vy + 1500 * dt) (-1000) 700 ∧
      (updateBird H dt sinY sinR g).bird.y
        = g.bird.y + clamp (g.bird.vy + 1500 * dt) (-1000) 700 * dt ∧
      (updateBird H dt sinY sinR g).bird.rotation
        = clamp (clamp (g.bird.vy + 1500 * dt) (-1000) 700 / 700 * (12 / 10))
            (-(55 / 100)) (12 / 10)) ∧
    (updateBird H dt sinY sinR g).bird.y ≤ H - 140 ∧
    -(55 / 100) ≤ (updateBird H dt sinY sinR g).bird.rotation ∧
    (updateBird H dt sinY sinR g).bird.rotation ≤ 12 / 10 ∧
    (updateBird H dt sinY sinR g).bird.x = g.bird.x ∧
    (updateBird H dt sinY sinR g).state = g.state := by
  have hn : g.state ≠ .ready := by
    rcases h with h | h <;> rw [h] <;> decide
  have hr := clamp_bounds
    (clamp (g.bird.vy + 1500 * dt) (-1000) 700 / 700 * (12 / 10)) (-(55 / 100)) (12 / 10)
    (by norm_num)
  by_cases hy : H - 140 < g.bird.y + clamp (g.bird.vy + 1500 * dt) (-1000) 700 * dt
  · rw [updateBird_pinned H dt sinY sinR g hn hy]
    refine ⟨fun _ => ⟨rfl, rfl, rfl⟩, fun hle => absurd hy (not_lt.mpr hle), le_rfl, ?_, ?_,
      rfl, rfl⟩
    · show -(55 / 100 : ℚ) ≤ 12 / 10
      norm_num
    · exact le_rfl
  · rw [updateBird_free H dt sinY sinR g hn (not_lt.mp hy)]
    exact ⟨fun hlt => absurd hlt hy, fun _ => ⟨rfl, rfl, rfl⟩, not_lt.mp hy, hr.1, hr.2,
      rfl, rfl⟩

theorem updateBird_integrates_witness :
    (samplePlaying.state = .playing ∨ samplePlaying.state = .gameOver) ∧
    (updateBird 640 (1 / 60) 0 0 samplePlaying).bird.vy = 145 ∧
    (updateBird 640 (1 / 60) 0 0 samplePlaying).bird.y = 250 + 145 / 60 :=
  have h := updateBird_integrates 640 (1 / 60) 0 0 samplePlaying (Or.inl rfl)
  have hc : clamp (samplePlaying.bird.vy + 1500 * (1 / 60)) (-1000) 700 = 145 := by
    norm_num [samplePlaying, clamp]
  have hle : samplePlaying.bird.y
      + clamp (samplePlaying.bird.vy + 1500 * (1 / 60)) (-1000) 700 * (1 / 60) ≤ 640 - 140 := by
    rw [hc]
    norm_num [samplePlaying]
  ⟨Or.inl rfl, by rw [(h.2.1 hle).1, hc],
    by rw [(h.2.1 hle).2.1, hc]; norm_num [samplePlaying]⟩

/-! ## Ground and ceiling -/

theorem updatePipes_state_bird (W H dt : ℚ) (rand : ℕ → ℚ) (g : Game) :
    (updatePipes W H dt rand g).state = g.state ∧ (updatePipes W H dt rand g).bird = g.bird :=
  ⟨(updatePipes_frame W H dt rand g).1, (updatePipes_frame W H dt rand g).2.1⟩

/-- The ground branch of `checkCollisions`: taken when, after the ceiling test, the
bottom edge is at or below the floor. -/
theorem checkCollisions_ground (H : ℚ) (g : Game) (hs : g.state = .playing)
    (hg : (bounceCeiling g).bird.y + 20 ≥ H - 120) :
    checkCollisions H g =
      { g with state := .gameOver
               bird := { (bounceCeiling g).bird with
                         y := H - 140, vy := 0, rotation := 12 / 10 } } := by
  have e140 : H - 120 - 20 = H - 140 := by ring
  have hb2 : bounceCeiling g = { g with bird := (bounceCeiling g).bird } := by
    simp only [bounceCeiling]
    split_ifs <;> rfl
  simp only [checkCollisions, hs, ne_eq, not_true_eq_false, if_false, birdRadius,
    GROUND_HEIGHT, hg, if_true, endRound, e140]
  rw [hb2]
  simp [hs]

/-- C12: in `Playing`, if at `checkCollisions()` the bottom edge satisfies
`bird.y + 20 ≥ H - 120` (after the ceiling test), then `bird.y` is set to
`H - 140` and the state becomes `GameOver` with `vy = 0` and `rotation = 1.2`,
whatever the pipe queue holds (no pipe is tested); and every `update(dt)` started
in `Playing` whose integration step leaves the bird at or below the floor
(`y + vy'*dt ≥ H - 140`, pinned by `updateBird` or not) ends in `GameOver` with the
bird on the floor. -/
theorem ground_ends_round (W H : ℚ) (g : Game) (hs : g.state = .playing) :
    ((bounceCeiling g).bird.y + 20 ≥ H - 120 →
      (checkCollisions H g).state = .gameOver ∧
      (checkCollisions H g).bird.y = H - 140 ∧
      (checkCollisions H g).bird.vy = 0 ∧
      (checkCollisions H g).bird.rotation = 12 / 10 ∧
      (checkCollisions H g).pipes = g.pipes ∧
      ∀ ps : List Pipe,
        checkCollisions H { g with pipes := ps } = { checkCollisions H g with pipes := ps }) ∧
    (∀ (dt : ℚ) (e : Env),
      H - 140 ≤ g.bird.y + clamp (g.bird.vy + 1500 * dt) (-1000) 700 * dt →
      (update W H dt e g).state = .gameOver ∧
      (update W H dt e g).bird.y = H - 140 ∧
      (update W H dt e g).bird.vy = 0 ∧
      (update W H dt e g).bird.rotation = 12 / 10) := by
  constructor
  · intro hg
    rw [checkCollisions_ground H g hs hg]
    refine ⟨rfl, rfl, rfl, rfl, rfl, fun ps => ?_⟩
    have hb : (bounceCeiling { g with pipes := ps }).bird = (bounceCeiling g).bird := by
      simp only [bounceCeiling]
      split_ifs <;> rfl
    rw [checkCollisions_ground H { g with pipes := ps } hs (by rw [hb]; exact hg), hb]
  · intro dt e hy
    have hw := updateWorld_frame W dt g
    have hn : (updateWorld W dt g).state ≠ .ready := by
      rw [hw.1, hs]
      decide
    have hby : (updateBird H dt e.sinY e.sinR (updateWorld W dt g)).bird.y = H - 140 := by
      rcases lt_or_eq_of_le hy with h | h
      · rw [updateBird_pinned H dt e.sinY e.sinR _ hn (by rw [hw.2.1]; exact h)]
      · rw [updateBird_free H dt e.sinY e.sinR _ hn (by rw [hw.2.1]; exact h.symm.le), hw.2.1]
        exact h.symm
    have hp := updatePipes_state_bird W H dt e.rand
      (updateBird H dt e.sinY e.sinR (updateWorld W dt g))
    have hps : (updatePipes W H dt e.rand
        (updateBird H dt e.sinY e.sinR (updateWorld W dt g))).state = .playing := by
      rw [hp.1, (updateBird_frame H dt e.sinY e.sinR _).1, hw.1, hs]
    have hpy : (updatePipes W H dt e.rand
        (updateBird H dt e.sinY e.sinR (updateWorld W dt g))).bird.y = H - 140 := by
      rw [hp.2, hby]
    have hg : (bounceCeiling (updatePipes W H dt e.rand
        (updateBird H dt e.sinY e.sinR (updateWorld W dt g)))).bird.y + 20 ≥ H - 120 := by
      simp only [bounceCeiling, birdRadius]
      split_ifs with hc
      · rw [hpy] at hc
        show (20 : ℚ) + 20 ≥ H - 120
        linarith
      · rw [hpy]
        linarith
    simp only [update]
    rw [checkCollisions_ground H _ hps hg]
    exact ⟨rfl, rfl, rfl, rfl⟩

theorem ground_ends_round_witness :
    sampleLow.state = .playing ∧
    (640 : ℚ) - 140 ≤ sampleLow.bird.y
      + clamp (sampleLow.bird.vy + 1500 * (1 / 60)) (-1000) 700 * (1 / 60) ∧
    (update 480 640 (1 / 60) sampleEnv sampleLow).state = .gameOver ∧
    (update 480 640 (1 / 60) sampleEnv sampleLow).bird.y = 640 - 140 :=
  have hy : (640 : ℚ) - 140 ≤ sampleLow.bird.y
      + clamp (sampleLow.bird.vy + 1500 * (1 / 60)) (-1000) 700 * (1 / 60) := by
    norm_num [sampleLow, samplePlaying, clamp]
  have h := (ground_ends_round 480 640 sampleLow rfl).2 (1 / 60) sampleEnv hy
  ⟨rfl, hy, h.1, h.2.1⟩

theorem pipeHit_iff_reach (H : ℚ) (b : Bird) (p : Pipe) (htop : 18 < b.y)
    (hbot : b.y + 18 < H - 120) :
    pipeHit H b p = true ↔
      DiscMeetsRect b.x b.y 18 p.x (p.x + 88) 0 (p.gapY - 185 / 2) ∨
      DiscMeetsRect b.x b.y 18 p.x (p.x + 88) (p.gapY + 185 / 2) (H - 120) := by
  have e18 : birdRadius - 2 = 18 := by norm_num [birdRadius]
  simp only [pipeHit, Bool.or_eq_true, e18, pipeWidth, pipeGap, GROUND_HEIGHT]
  apply or_congr
  · rcases le_or_lt 0 (p.gapY - 185 / 2) with h | h
    · rw [circleRectCollide_iff _ _ _ _ _ _ _ (by norm_num) h]
      simp
    · constructor
      · intro hc
        simp only [circleRectCollide, decide_eq_true_eq, clamp] at hc
        rw [zero_add, max_eq_left (le_trans (min_le_left _ _) h.le)] at hc
        nlinarith [mul_self_nonneg (b.x - max p.x (min (p.x + 88) b.x))]
      · rintro ⟨px, py, -, -, h3, h4, -⟩
        linarith
  · rcases le_or_lt (p.gapY + 185 / 2) (H - 120) with h | h
    · rw [circleRectCollide_iff _ _ _ _ _ _ _ (by norm_num) (by linarith)]
      have e : p.gapY + 185 / 2 + (H - 120 - (p.gapY + 185 / 2)) = H - 120 := by ring
      rw [e]
    · constructor
      · intro hc
        simp only [circleRectCollide, decide_eq_true_eq, clamp] at hc
        have e : p.gapY + 185 / 2 + (H - 120 - (p.gapY + 185 / 2)) = H - 120 := by ring
        rw [e, max_eq_left (le_trans (min_le_left _ _) h.le)] at hc
        nlinarith [mul_self_nonneg (b.x - max p.x (min (p.x + 88) b.x))]
      · rintro ⟨px, py, -, -, h3, h4, -⟩
        linarith

theorem checkCollisions_ceiling (H : ℚ) (g : Game) (hs : g.state = .playing)
    (hc : g.bird.y - 20 ≤ 0) (hH : 40 < H - 120) :
    checkCollisions H g =
      checkPipes H g.pipes { g with bird := { g.bird with y := 20, vy := 80 } } := by
  have hb : bounceCeiling g = { g with bird := { g.bird with y := 20, vy := 80 } } := by
    simp only [bounceCeiling, birdRadius, hc, if_true]
  simp only [checkCollisions, hs, ne_eq, not_true_eq_false, if_false, hb, birdRadius,
    GROUND_HEIGHT]
  rw [if_neg (by linarith)]

/-- C16, as the code has it: in `Playing` with the top edge at or above the ceiling
(`bird.y - 20 ≤ 0`) and the floor more than 40 below it, the ceiling test sets
`bird.y` to 20 and `bird.vy` to 80 and does not itself end the round, but the
pipes are still tested at the clamped position: the state after
`checkCollisions()` is `Playing` (with `y = 20`, `vy = 80`, nothing else changed)
exactly when the disc of radius 18 at `(bird.x, 20)` meets no segment of any
pipe; otherwise the round ends by pipe collision (`GameOver`, `y = 20`, `vy = 0`,
`rotation = 1.2`). -/
theorem ceiling_bounce (H : ℚ) (g : Game) (hs : g.state = .playing)
    (hc : g.bird.y - 20 ≤ 0) (hH : 40 < H - 120) :
    ((checkCollisions H g).state = .playing ↔
      ¬ ∃ p ∈ g.pipes,
        DiscMeetsRect g.bird.x 20 18 p.x (p.x + 88) 0 (p.gapY - 185 / 2) ∨
        DiscMeetsRect g.bird.x 20 18 p.x (p.x + 88) (p.gapY + 185 / 2) (H - 120)) ∧
    ((checkCollisions H g).state = .playing →
      checkCollisions H g = { g with bird := { g.bird with y := 20, vy := 80 } }) ∧
    ((checkCollisions H g).state ≠ .playing →
      checkCollisions H g =
        { g with state := .gameOver
                 bird := { g.bird with y := 20, vy := 0, rotation := 12 / 10 } }) ∧
    (checkCollisions H g).bird.y = 20 := by
  rw [checkCollisions_ceiling H g hs hc hH]
  have hit : ∀ q : Pipe,
      pipeHit H ({ g with bird := { g.bird with y := 20, vy := 80 } } : Game).bird q = true ↔
      (DiscMeetsRect g.bird.x 20 18 q.x (q.x + 88) 0 (q.gapY - 185 / 2) ∨
        DiscMeetsRect g.bird.x 20 18 q.x (q.x + 88) (q.gapY + 185 / 2) (H - 120)) := by
    intro q
    exact pipeHit_iff_reach H { g.bird with y := 20, vy := 80 } q (by norm_num)
      (by show (20 : ℚ) + 18 < H - 120; linarith)
  obtain ⟨c1, c2, c3⟩ := checkPipes_state H g.pipes
    { g with bird := { g.bird with y := 20, vy := 80 } } hs
  have hex : (∃ p ∈ g.pipes,
        DiscMeetsRect g.bird.x 20 18 p.x (p.x + 88) 0 (p.gapY - 185 / 2) ∨
        DiscMeetsRect g.bird.x 20 18 p.x (p.x + 88) (p.gapY + 185 / 2) (H - 120)) ↔
      (checkPipes H g.pipes { g with bird := { g.bird with y := 20, vy := 80 } }).state
        = .gameOver := by
    rw [c1]
    exact ⟨fun ⟨p, hp, h⟩ => ⟨p, hp, (hit p).mpr h⟩, fun ⟨p, hp, h⟩ => ⟨p, hp, (hit p).mp h⟩⟩
  by_cases hover :
      (checkPipes H g.pipes { g with bird := { g.bird with y := 20, vy := 80 } }).state
        = .gameOver
  · have e := c2 hover
    rw [hex, e]
    have hne : GameState.gameOver ≠ GameState.playing := by decide
    exact ⟨⟨fun h => absurd h hne, fun h => absurd rfl h⟩, fun h => absurd h hne,
      fun _ => rfl, rfl⟩
  · have e := c3 hover
    rw [hex, e]
    refine ⟨⟨fun _ => ?_, fun _ => hs⟩, fun _ => rfl, fun h => absurd hs h, rfl⟩
    intro h
    rw [e] at hover
    exact hover h

theorem ceiling_bounce_witness :
    sampleCeilingFree.state = .playing ∧ sampleCeilingFree.bird.y - 20 ≤ 0 ∧
    (40 : ℚ) < 640 - 120 ∧
    (checkCollisions 640 sampleCeilingFree).state = .playing ∧
    (checkCollisions 640 sampleCeilingFree).bird.y = 20 ∧
    (checkCollisions 640 sampleCeilingFree).bird.vy = 80 :=
  have hc : sampleCeilingFree.bird.y - 20 ≤ 0 := by
    norm_num [sampleCeilingFree, sampleCeiling]
  have hH : (40 : ℚ) < 640 - 120 := by norm_num
  have h := ceiling_bounce 640 sampleCeilingFree rfl hc hH
  have hp : (checkCollisions 640 sampleCeilingFree).state = .playing := by
    rw [h.1]
    rintro ⟨p, hp, h1 | h1⟩
    · simp only [sampleCeilingFree, List.mem_singleton] at hp
      subst hp
      obtain ⟨px, py, h2, -, -, -, h6⟩ := h1
      norm_num [sampleCeilingFree, sampleCeiling] at h2 h6
      nlinarith [sq_nonneg (20 - py), sq_nonneg (px - 600)]
    · simp only [sampleCeilingFree, List.mem_singleton] at hp
      subst hp
      obtain ⟨px, py, h2, -, -, -, h6⟩ := h1
      norm_num [sampleCeilingFree, sampleCeiling] at h2 h6
      nlinarith [sq_nonneg (20 - py), sq_nonneg (px - 600)]
  ⟨rfl, hc, hH, hp, h.2.2.2, by rw [h.2.1 hp]⟩

/-- C16 fails as stated: with the bird above the ceiling line and a pipe at its
x-position, `checkCollisions()` clamps the bird to `y = 20` inside the top segment
and ends the round: the state is `GameOver` and `vy` is 0, not 80. -/
theorem ceiling_bounce_counterexample :
    sampleCeiling.state = .playing ∧ sampleCeiling.bird.y - 20 ≤ 0 ∧
    (40 : ℚ) < 640 - 120 ∧
    (checkCollisions 640 sampleCeiling).state = .gameOver ∧
    (checkCollisions 640 sampleCeiling).bird.vy = 0 := by
  have hc : sampleCeiling.bird.y - 20 ≤ 0 := by norm_num [sampleCeiling]
  have hH : (40 : ℚ) < 640 - 120 := by norm_num
  have e := checkCollisions_ceiling 640 sampleCeiling rfl hc hH
  have hit : pipeHit 640 { sampleCeiling.bird with y := 20, vy := 80 }
      { x := 100, gapY := 300, passed := false } = true := by
    norm_num [pipeHit, circleRectCollide, clamp, sampleCeiling, birdRadius, pipeWidth,
      pipeGap, GROUND_HEIGHT]
  have e2 : checkCollisions 640 sampleCeiling =
      endRound { sampleCeiling with bird := { sampleCeiling.bird with y := 20, vy := 80 } } := by
    rw [e]
    show checkPipes 640 [{ x := 100, gapY := 300, passed := false }] _ = _
    simp only [checkPipes]
    rw [if_pos hit]
  refine ⟨rfl, hc, hH, ?_, ?_⟩
  · rw [e2]
    rfl
  · rw [e2]
    rfl

/-! ## Recycling and spawning -/

theorem shiftPipes_eq_dropWhile (ps : List Pipe) :
    shiftPipes ps = ps.dropWhile (fun p => decide (p.x + 88 < -20)) := by
  induction ps with
  | nil => rfl
  | cons p ps ih =>
    by_cases h : p.x + 88 < -20
    · simp only [shiftPipes, pipeWidth, List.dropWhile_cons, h, if_true, decide_True]
      exact ih
    · simp only [shiftPipes, pipeWidth, List.dropWhile_cons, h, if_false, decide_False,
        Bool.false_eq_true]

theorem shiftPipes_head (ps : List Pipe) : ∀ p ∈ (shiftPipes ps).head?, -20 ≤ p.x + 88 := by
  induction ps with
  | nil => simp [shiftPipes]
  | cons q ps ih =>
    simp only [shiftPipes, pipeWidth]
    split_ifs with h
    · exact ih
    · intro p hp
      simp only [List.head?_cons, Option.mem_def, Option.some.injEq] at hp
      rw [← hp]
      exact not_lt.mp h

theorem shiftPipes_sorted (ps : List Pipe) (hs : ps.Pairwise (fun p q => p.x ≤ q.x)) :
    ∀ p ∈ shiftPipes ps, -20 ≤ p.x + 88 := by
  induction ps with
  | nil => simp [shiftPipes]
  | cons q ps ih =>
    rw [List.pairwise_cons] at hs
    simp only [shiftPipes, pipeWidth]
    split_ifs with h
    · exact ih hs.2
    · intro p hp
      rcases List.mem_cons.mp hp with rfl | hp
      · exact not_lt.mp h
      · have := hs.1 p hp
        have := not_lt.mp h
        linarith

theorem shiftPipes_removed (ps : List Pipe) :
    shiftPipes ps = ps.drop (ps.length - (shiftPipes ps).length) ∧
    ∀ p ∈ ps.take (ps.length - (shiftPipes ps).length), p.x + 88 < -20 := by
  induction ps with
  | nil => simp [shiftPipes]
  | cons q ps ih =>
    have hl := (shiftPipes_suffix ps).length_le
    simp only [shiftPipes, pipeWidth]
    split_ifs with h
    · have e : (q :: ps).length - (shiftPipes ps).length
          = (ps.length - (shiftPipes ps).length) + 1 := by
        simp only [List.length_cons]
        omega
      rw [e, List.drop_succ_cons, List.take_succ_cons]
      refine ⟨ih.1, ?_⟩
      intro p hp
      rcases List.mem_cons.mp hp with rfl | hp
      · simpa [pipeWidth] using h
      · exact ih.2 p hp
    · simp

/-- C17, as the code has it: in `Playing`, `updatePipes(dt)` removes pipes from the
front of the moved queue for as long as the front pipe's trailing edge is more
than 20 units left of `x = 0` (moved `x + 88 < -20`, strictly), and removes
nothing else: the queue after the call is the moved queue without that front run,
followed by the newly spawned pipes.  So the first old pipe that remains has
`x + 88 ≥ -20`, and when the queue was in increasing x-order every old pipe
that remains has `x + 88 ≥ -20`. -/
theorem recycling_threshold (W H dt : ℚ) (rand : ℕ → ℚ) (g : Game)
    (hs : g.state = .playing) :
    ∃ n : ℕ,
      (updatePipes W H dt rand g).pipes =
        (g.pipes.map (movedPipe dt g.bird.x)).dropWhile (fun p => decide (p.x + 88 < -20)) ++
          spawned H (frontier W (shiftPipes (g.pipes.map (movedPipe dt g.bird.x)))) rand n ∧
      (∀ p ∈ ((g.pipes.map (movedPipe dt g.bird.x)).dropWhile
          (fun p => decide (p.x + 88 < -20))).head?, -20 ≤ p.x + 88) ∧
      (∀ p ∈ (g.pipes.map (movedPipe dt g.bird.x)).takeWhile
          (fun p => decide (p.x + 88 < -20)), p.x + 88 < -20) ∧
      (g.pipes.Pairwise (fun p q => p.x ≤ q.x) →
        ∀ p ∈ (g.pipes.map (movedPipe dt g.bird.x)).dropWhile
          (fun p => decide (p.x + 88 < -20)), -20 ≤ p.x + 88) := by
  obtain ⟨n, h1, -, -⟩ := updatePipes_playing W H dt rand g hs
  refine ⟨n, ?_, ?_, ?_, ?_⟩
  · rw [h1, ← shiftPipes_eq_dropWhile]
  · rw [← shiftPipes_eq_dropWhile]
    exact shiftPipes_head _
  · intro p hp
    simpa using List.mem_takeWhile_imp hp
  · intro hsorted
    rw [← shiftPipes_eq_dropWhile]
    apply shiftPipes_sorted
    rw [List.pairwise_map]
    refine hsorted.imp ?_
    intro p q hpq
    simp only [movedPipe]
    linarith

theorem recycling_threshold_witness :
    samplePlaying.state = .playing ∧
    ∃ n : ℕ, (updatePipes 480 640 (1 / 60) randHalf samplePlaying).pipes =
      [{ x := 53 - 190 / 60, gapY := 200, passed := true },
       { x := 303 - 190 / 60, gapY := 280, passed := false }] ++
        spawned 640 (303 - 190 / 60) randHalf n := by
  obtain ⟨n, h, -⟩ := recycling_threshold 480 640 (1 / 60) randHalf samplePlaying rfl
  refine ⟨rfl, n, ?_⟩
  rw [h]
  have e : shiftPipes (samplePlaying.pipes.map (movedPipe (1 / 60) samplePlaying.bird.x))
      = [{ x := 53 - 190 / 60, gapY := 200, passed := true },
         { x := 303 - 190 / 60, gapY := 280, passed := false }] := by
    norm_num [samplePlaying, shiftPipes, movedPipe, pipeSpeed, pipeWidth]
  rw [← shiftPipes_eq_dropWhile, e]
  norm_num [frontier]

/-- C17 fails as stated: a front pipe whose moved trailing edge is exactly 20 left of
`x = 0` (`x + 88 = -20`) is not removed; it is still the first pipe of the queue. -/
theorem recycling_threshold_counterexample :
    sampleEdge.state = .playing ∧ ((-108 : ℚ) - 190 * 0) + 88 ≤ -20 ∧
    (updatePipes 480 640 0 randHalf sampleEdge).pipes.head?
      = some { x := -108, gapY := 300, passed := true } := by
  obtain ⟨n, h, -, -⟩ := updatePipes_playing 480 640 0 randHalf sampleEdge rfl
  refine ⟨rfl, by norm_num, ?_⟩
  have e : shiftPipes (sampleEdge.pipes.map (movedPipe 0 sampleEdge.bird.x))
      = [{ x := -108, gapY := 300, passed := true },
         { x := 142, gapY := 200, passed := false }] := by
    norm_num [sampleEdge, samplePlaying, shiftPipes, movedPipe, pipeSpeed, pipeWidth]
  rw [h]
  simp only [e]
  rfl

theorem spawned_getElem (H r : ℚ) (rand : ℕ → ℚ) (n k : ℕ) (hk : k < n) :
    (spawned H r rand n)[k]? =
      some { x := r + 250 * ((k : ℚ) + 1), gapY := randomGapY H (rand k), passed := false } := by
  simp only [spawned, List.getElem?_map, List.getElem?_range hk, Option.map_some', pipeSpacing]

theorem spawned_last (H r : ℚ) (rand : ℕ → ℚ) (m : ℕ) :
    (spawned H r rand (m + 1)).getLast? =
      some { x := r + 250 * ((m : ℚ) + 1), gapY := randomGapY H (rand m), passed := false } := by
  simp only [spawned, List.range_succ, List.map_append, List.map_cons, List.map_nil,
    List.getLast?_concat, pipeSpacing]

theorem frontier_nil (W : ℚ) : frontier W [] = W + 260 - 250 := by
  simp [frontier, pipeStartOffset, pipeSpacing]

/-- C18: in `Playing`, the spawn loop of `updatePipes(dt)` terminates (after some
`n` rounds) and appends pipes only at the back; the frontier starts at the x of
the rightmost pipe left after moving and recycling, or at the virtual anchor
`W + 260 - 250` when none is left; the `k`-th new pipe (counting from 1) is at
exactly frontier `+ 250*k`; a pipe is added if and only if the frontier is
still `≤ W + 260`; and on return the queue is non-empty with its last pipe at
`x > W + 260`. -/
theorem spawning_frontier (W H dt : ℚ) (rand : ℕ → ℚ) (g : Game)
    (hs : g.state = .playing) :
    (∀ (r : ℚ) (rnd : ℕ → ℚ) (g0 : Game), ∃ n : ℕ,
      spawnLoop W H r rnd g0 = { g0 with pipes := g0.pipes ++ spawned H r rnd n } ∧
      W + 260 < r + 250 * n ∧ ∀ k : ℕ, k < n → r + 250 * k ≤ W + 260) ∧
    ∃ (n : ℕ) (kept : List Pipe) (front : ℚ),
      kept = shiftPipes (g.pipes.map (movedPipe dt g.bird.x)) ∧
      (kept = [] → front = W + 260 - 250) ∧
      (∀ p ∈ kept.getLast?, front = p.x) ∧
      (updatePipes W H dt rand g).pipes = kept ++ spawned H front rand n ∧
      (∀ k : ℕ, k < n → (updatePipes W H dt rand g).pipes[kept.length + k]? =
        some { x := front + 250 * ((k : ℚ) + 1), gapY := randomGapY H (rand k),
               passed := false }) ∧
      (∀ k : ℕ, k < n → front + 250 * k ≤ W + 260) ∧
      W + 260 < front + 250 * n ∧
      ∃ last : Pipe, (updatePipes W H dt rand g).pipes.getLast? = some last ∧
        W + 260 < last.x := by
  constructor
  · intro r rnd g0
    simpa [pipeStartOffset, pipeSpacing] using spawnLoop_spec W H r rnd g0
  · obtain ⟨n, h1, h2, h3⟩ := updatePipes_playing W H dt rand g hs
    simp only [pipeStartOffset, pipeSpacing] at h2 h3
    have hp : (updatePipes W H dt rand g).pipes =
        shiftPipes (g.pipes.map (movedPipe dt g.bird.x)) ++
          spawned H (frontier W (shiftPipes (g.pipes.map (movedPipe dt g.bird.x)))) rand n := by
      rw [h1]
    refine ⟨n, _, _, rfl, fun h => by rw [h, frontier_nil], frontier_last W _, hp, ?_, h3, h2, ?_⟩
    · intro k hk
      rw [hp, List.getElem?_append_right (Nat.le_add_right _ _), Nat.add_sub_cancel_left]
      exact spawned_getElem H _ rand n k hk
    · cases n with
      | zero =>
        simp only [Nat.cast_zero, mul_zero, add_zero] at h2
        cases hl : (shiftPipes (g.pipes.map (movedPipe dt g.bird.x))).getLast? with
        | none =>
          rw [List.getLast?_eq_none_iff] at hl
          rw [hl, frontier_nil] at h2
          linarith
        | some last =>
          refine ⟨last, ?_, ?_⟩
          · rw [hp]
            simp [spawned, hl]
          · rw [frontier_last W _ last hl] at h2
            exact h2
      | succ m =>
        refine ⟨{ x := frontier W (shiftPipes (g.pipes.map (movedPipe dt g.bird.x)))
                    + 250 * ((m : ℚ) + 1),
                  gapY := randomGapY H (rand m), passed := false }, ?_, ?_⟩
        · rw [hp, List.getLast?_append, spawned_last]
          rfl
        · push_cast at h2
          exact h2

theorem spawning_frontier_witness :
    samplePlaying.state = .playing ∧
    ∃ last : Pipe, (updatePipes 480 640 (1 / 60) randHalf samplePlaying).pipes.getLast?
      = some last ∧ (480 : ℚ) + 260 < last.x := by
  obtain ⟨-, n, kept, front, -, -, -, -, -, -, -, h⟩ :=
    spawning_frontier 480 640 (1 / 60) randHalf samplePlaying rfl
  exact ⟨rfl, h⟩

/-! ## Accounting of recycled pipes -/

theorem countP_passed_moved (dt bx : ℚ) (ps : List Pipe) :
    (ps.map (movedPipe dt bx)).countP (fun p => p.passed)
      = ps.countP (fun p => p.passed) + ps.countP (newlyPassed dt bx) := by
  induction ps with
  | nil => rfl
  | cons p ps ih =>
    simp only [List.map_cons, List.countP_cons, ih, movedPipe, newlyPassed]
    by_cases hp : p.passed = true <;>
      by_cases hd : p.x - pipeSpeed * dt + pipeWidth < bx <;> simp [hp, hd] <;> omega

theorem countP_spawned (H r : ℚ) (rand : ℕ → ℚ) (n : ℕ) :
    (spawned H r rand n).countP (fun p => p.passed) = 0 := by
  rw [List.countP_eq_zero]
  intro p hp
  simp only [spawned, List.mem_map] at hp
  obtain ⟨k, -, rfl⟩ := hp
  simp

theorem countP_take_all (f : Pipe → Bool) (l : List Pipe) (k : ℕ) (hk : k ≤ l.length)
    (h : ∀ p ∈ l.take k, f p = true) :
    l.countP f = k + (l.drop k).countP f := by
  conv_lhs => rw [← List.take_append_drop k l]
  rw [List.countP_append, List.countP_eq_length.mpr h, List.length_take, min_eq_left hk]

/-- The pipes that the recycle loop removes have been flagged by the scoring loop,
as soon as the bird is not left of `x = -20`. -/
theorem removed_flagged (dt bx : ℚ) (ps : List Pipe) (hx : -20 ≤ bx) :
    ∀ q ∈ (ps.map (movedPipe dt bx)).take
        ((ps.map (movedPipe dt bx)).length - (shiftPipes (ps.map (movedPipe dt bx))).length),
      q.passed = true ∧ q.x + 88 < -20 := by
  intro q hq
  have h1 := (shiftPipes_removed (ps.map (movedPipe dt bx))).2 q hq
  refine ⟨?_, h1⟩
  obtain ⟨p, -, rfl⟩ := List.mem_map.mp (List.mem_of_mem_take hq)
  simp only [movedPipe] at h1 ⊢
  simp only [Bool.or_eq_true, decide_eq_true_eq, pipeWidth]
  right
  linarith

theorem updatePipes_account (W H dt : ℚ) (rand : ℕ → ℚ) (g : Game) (hx : -20 ≤ g.bird.x) :
    (updatePipes W H dt rand g).score + (g.pipes.countP (fun p => p.passed) : ℤ)
      = g.score + (recycledBy dt g : ℤ)
        + ((updatePipes W H dt rand g).pipes.countP (fun p => p.passed) : ℤ) := by
  by_cases hs : g.state = .playing
  · obtain ⟨n, h1, -, -⟩ := updatePipes_playing W H dt rand g hs
    have hsc := updatePipes_score W H dt rand g hs
    have hp : (updatePipes W H dt rand g).pipes =
        shiftPipes (g.pipes.map (movedPipe dt g.bird.x)) ++
          spawned H (frontier W (shiftPipes (g.pipes.map (movedPipe dt g.bird.x)))) rand n := by
      rw [h1]
    have hm := countP_passed_moved dt g.bird.x g.pipes
    have hr := shiftPipes_removed (g.pipes.map (movedPipe dt g.bird.x))
    have hk := countP_take_all (fun p => p.passed) (g.pipes.map (movedPipe dt g.bird.x))
      ((g.pipes.map (movedPipe dt g.bird.x)).length
        - (shiftPipes (g.pipes.map (movedPipe dt g.bird.x))).length) (Nat.sub_le _ _)
      (fun q hq => (removed_flagged dt g.bird.x g.pipes hx q hq).1)
    rw [← hr.1] at hk
    have hrec : recycledBy dt g = (g.pipes.map (movedPipe dt g.bird.x)).length
        - (shiftPipes (g.pipes.map (movedPipe dt g.bird.x))).length := by
      simp [recycledBy, hs]
    rw [hsc, hp, List.countP_append, countP_spawned, hrec]
    omega
  · rw [updatePipes_idle W H dt rand g hs]
    simp [recycledBy, hs]

theorem update_bird_x (W H dt : ℚ) (e : Env) (g : Game) :
    (update W H dt e g).bird.x = g.bird.x := by
  simp only [update]
  rw [(checkCollisions_frame H _).1, (updatePipes_frame W H dt e.rand _).2.1,
    (updateBird_frame H dt e.sinY e.sinR _).2.1, (updateWorld_frame W dt g).2.1]

theorem update_account (W H dt : ℚ) (e : Env) (g : Game) (c : ℕ) (hx : g.bird.x = 140)
    (h : g.score = (c : ℤ) + (g.pipes.countP (fun p => p.passed) : ℤ)) :
    (update W H dt e g).bird.x = 140 ∧
    (update W H dt e g).score = ((c + recycledBy dt g : ℕ) : ℤ)
      + ((update W H dt e g).pipes.countP (fun p => p.passed) : ℤ) := by
  refine ⟨by rw [update_bird_x, hx], ?_⟩
  have hb := updateBird_frame H dt e.sinY e.sinR (updateWorld W dt g)
  have hw := updateWorld_frame W dt g
  have hpx : (updateBird H dt e.sinY e.sinR (updateWorld W dt g)).bird.x = g.bird.x := by
    rw [hb.2.1, hw.2.1]
  have hpp : (updateBird H dt e.sinY e.sinR (updateWorld W dt g)).pipes = g.pipes := by
    rw [hb.2.2.1, hw.2.2.1]
  have hps : (updateBird H dt e.sinY e.sinR (updateWorld W dt g)).state = g.state := by
    rw [hb.1, hw.1]
  have hrec : recycledBy dt (updateBird H dt e.sinY e.sinR (updateWorld W dt g))
      = recycledBy dt g := by
    simp only [recycledBy, hpx, hpp, hps]
  have ha := updatePipes_account W H dt e.rand
    (updateBird H dt e.sinY e.sinR (updateWorld W dt g)) (by rw [hpx, hx]; norm_num)
  obtain ⟨s1, -, -, s4, -, -⟩ := update_score_best W H dt e g
  rw [hpp, hrec, s4] at ha
  rw [s1, (update_pipes_eq W H dt e g).1]
  push_cast
  omega

theorem step_account (W H : ℚ) (g : Game) (a : Action) (c : ℕ) (hx : g.bird.x = 140)
    (h : g.score = (c : ℤ) + (g.pipes.countP (fun p => p.passed) : ℤ)) :
    (step W H g a).bird.x = 140 ∧
    (step W H g a).score = (recycledStep c g a : ℤ)
      + ((step W H g a).pipes.countP (fun p => p.passed) : ℤ) := by
  cases a with
  | input rand =>
    simp only [step, onActionInput, startRound, recycledStep]
    split_ifs with h1 h2 h3 h4 h5
    · rw [h1] at h2
      cases h2
    · simpa [flap] using ⟨hx, h⟩
    · rw [h3] at h4
      cases h4
    · simpa [flap] using ⟨hx, h⟩
    · simp [resetRound, spawnPipe]
    · exfalso
      cases hs : g.state <;> simp_all
  | update dt env => exact update_account W H dt env g c hx h
  | tick timestamp env =>
    simp only [step, tick_eq_update, recycledStep]
    exact update_account W H (tickDt timestamp g) env { g with lastTime := timestamp } c hx h

theorem run_account (W H : ℚ) (acts : List Action) (g : Game) (c : ℕ) (hx : g.bird.x = 140)
    (h : g.score = (c : ℤ) + (g.pipes.countP (fun p => p.passed) : ℤ)) :
    (run W H g acts).bird.x = 140 ∧
    (run W H g acts).score = (recycledRun W H c g acts : ℤ)
      + ((run W H g acts).pipes.countP (fun p => p.passed) : ℤ) := by
  induction acts generalizing g c with
  | nil => exact ⟨hx, h⟩
  | cons a acts ih =>
    obtain ⟨h1, h2⟩ := step_account W H g a c hx h
    exact ih (step W H g a) (recycledStep c g a) h1 h2

/-- C20: in `Playing` with `bird.x = 140`, every pipe that `updatePipes(dt)` removes
from the front of the queue has `passed = true` when it is removed (its moved
trailing edge is left of -20, hence left of the bird, so the scoring loop of the
same call has flagged it if no earlier call had); per call, the score gained
equals the pipes recycled plus the change in the number of queued pipes with
`passed = true`; so along every run from the initial reset, `score` equals the
number of pipes recycled since the last reset plus the number of pipes still
queued with `passed = true`. -/
theorem no_pipe_unscored (W H dt : ℚ) (rand : ℕ → ℚ) (g : Game)
    (hs : g.state = .playing) (hx : g.bird.x = 140) :
    (∃ n : ℕ, (updatePipes W H dt rand g).pipes =
      (g.pipes.map (movedPipe dt 140)).drop (recycledBy dt g) ++
        spawned H (frontier W (shiftPipes (g.pipes.map (movedPipe dt 140)))) rand n) ∧
    (∀ q ∈ (g.pipes.map (movedPipe dt 140)).take (recycledBy dt g),
      q.passed = true ∧ q.x + 88 < -20) ∧
    ((updatePipes W H dt rand g).score + (g.pipes.countP (fun p => p.passed) : ℤ)
      = g.score + (recycledBy dt g : ℤ)
        + ((updatePipes W H dt rand g).pipes.countP (fun p => p.passed) : ℤ)) ∧
    ∀ (best : ℤ) (stored : Option String) (rnd : ℕ → ℚ) (acts : List Action),
      (run W H (start W H best stored rnd) acts).score
        = (recycledRun W H 0 (start W H best stored rnd) acts : ℤ)
          + ((run W H (start W H best stored rnd) acts).pipes.countP (fun p => p.passed) : ℤ) := by
  have hrec : recycledBy dt g = (g.pipes.map (movedPipe dt 140)).length
      - (shiftPipes (g.pipes.map (movedPipe dt 140))).length := by
    simp [recycledBy, hs, hx]
  refine ⟨?_, ?_, updatePipes_account W H dt rand g (by rw [hx]; norm_num), ?_⟩
  · obtain ⟨n, h1, -, -⟩ := updatePipes_playing W H dt rand g hs
    refine ⟨n, ?_⟩
    rw [h1, hx, hrec]
    show shiftPipes _ ++ _ = _
    rw [← (shiftPipes_removed (g.pipes.map (movedPipe dt 140))).1]
  · rw [hrec]
    exact removed_flagged dt 140 g.pipes (by norm_num)
  · intro best stored rnd acts
    exact (run_account W H acts (start W H best stored rnd) 0 rfl
      (by simp [start, resetRound, spawnPipe, initGame])).2

theorem no_pipe_unscored_witness :
    samplePlaying.state = .playing ∧ samplePlaying.bird.x = 140 ∧
    recycledBy (1 / 60) samplePlaying = 1 ∧
    ∀ q ∈ (samplePlaying.pipes.map (movedPipe (1 / 60) 140)).take 1, q.passed = true :=
  have h := no_pipe_unscored 480 640 (1 / 60) randHalf samplePlaying rfl rfl
  have hr : recycledBy (1 / 60) samplePlaying = 1 := by
    norm_num [recycledBy, samplePlaying, shiftPipes, movedPipe, pipeSpeed, pipeWidth]
  ⟨rfl, rfl, hr, fun q hq => (h.2.1 q (by rw [hr]; exact hq)).1⟩

/-! ## Scenario B: a fall without flaps -/

theorem clamp_step (vy : ℚ) (h1 : -1000 ≤ vy) :
    (vy + 24 ≤ 700 ∧ clamp (vy + 1500 * (2 / 125)) (-1000) 700 = vy + 24) ∨
    (700 < vy + 24 ∧ clamp (vy + 1500 * (2 / 125)) (-1000) 700 = 700) := by
  have e : vy + 1500 * (2 / 125) = vy + 24 := by ring
  rw [e]
  unfold clamp
  rcases le_or_lt (vy + 24) 700 with h | h
  · left
    rw [min_eq_right h, max_eq_right (by linarith)]
    exact ⟨h, rfl⟩
  · right
    rw [min_eq_left h.le, max_eq_right (by norm_num)]
    exact ⟨h, rfl⟩

/-- What `checkCollisions` can do to the state and the bird, by the height of the
bird, in a world higher than 160. -/
theorem checkCollisions_bird_cases (H : ℚ) (g : Game) (hs : g.state = .playing)
    (hH : 160 < H) :
    (g.bird.y ≤ 20 ∧ (checkCollisions H g).bird.y = 20 ∧
      (((checkCollisions H g).state = .playing ∧ (checkCollisions H g).bird.vy = 80) ∨
        ((checkCollisions H g).state = .gameOver ∧ (checkCollisions H g).bird.vy = 0))) ∨
    (H - 140 ≤ g.bird.y ∧ (checkCollisions H g).bird.y = H - 140 ∧
      (checkCollisions H g).state = .gameOver ∧ (checkCollisions H g).bird.vy = 0) ∨
    (20 < g.bird.y ∧ g.bird.y < H - 140 ∧ (checkCollisions H g).bird.y = g.bird.y ∧
      (((checkCollisions H g).state = .playing ∧
          (checkCollisions H g).bird.vy = g.bird.vy) ∨
        ((checkCollisions H g).state = .gameOver ∧ (checkCollisions H g).bird.vy = 0))) := by
  have hne : GameState.gameOver ≠ GameState.playing := by decide
  rcases le_or_lt g.bird.y 20 with hc | hc
  · left
    rw [checkCollisions_ceiling H g hs (by linarith) (by linarith)]
    obtain ⟨-, c2, c3⟩ := checkPipes_state H g.pipes
      { g with bird := { g.bird with y := 20, vy := 80 } } hs
    by_cases hover :
        (checkPipes H g.pipes { g with bird := { g.bird with y := 20, vy := 80 } }).state
          = .gameOver
    · rw [c2 hover]
      exact ⟨hc, rfl, Or.inr ⟨rfl, rfl⟩⟩
    · rw [c3 hover]
      exact ⟨hc, rfl, Or.inl ⟨hs, rfl⟩⟩
  · have hb : bounceCeiling g = g := by
      simp only [bounceCeiling, birdRadius]
      rw [if_neg (by linarith)]
    rcases le_or_lt (H - 140) g.bird.y with hg | hg
    · right
      left
      rw [checkCollisions_ground H g hs (by rw [hb]; linarith)]
      exact ⟨hg, rfl, rfl, rfl⟩
    · right
      right
      rw [checkCollisions_inside H g hs (by linarith) (by linarith)]
      obtain ⟨-, c2, c3⟩ := checkPipes_state H g.pipes g hs
      by_cases hover : (checkPipes H g.pipes g).state = .gameOver
      · rw [c2 hover]
        exact ⟨hc, hg, rfl, Or.inr ⟨rfl, rfl⟩⟩
      · rw [c3 hover]
        exact ⟨hc, hg, rfl, Or.inl ⟨hs, rfl⟩⟩

/-- The state and the bird after one `update(0.016)` outside `Ready`, in terms of the
integrated velocity `vy'` and height `y'`. -/
theorem update_fall_cases (W H : ℚ) (e : Env) (g : Game) (hn : g.state ≠ .ready)
    (hH : 160 < H) (vy' y' : ℚ)
    (hvy : vy' = clamp (g.bird.vy + 1500 * (2 / 125)) (-1000) 700)
    (hy : y' = g.bird.y + vy' * (2 / 125)) :
    (H - 140 ≤ y' ∧ (update W H (2 / 125) e g).state = .gameOver ∧
      (update W H (2 / 125) e g).bird.y = H - 140 ∧
      ((update W H (2 / 125) e g).bird.vy = 0 ∨
        (g.state = .gameOver ∧ (update W H (2 / 125) e g).bird.vy = vy'))) ∨
    (y' < H - 140 ∧ g.state = .gameOver ∧ (update W H (2 / 125) e g).state = .gameOver ∧
      (update W H (2 / 125) e g).bird.y = y' ∧ (update W H (2 / 125) e g).bird.vy = vy') ∨
    (y' < H - 140 ∧ g.state = .playing ∧ y' ≤ 20 ∧
      (update W H (2 / 125) e g).bird.y = 20 ∧
      (((update W H (2 / 125) e g).state = .playing ∧
          (update W H (2 / 125) e g).bird.vy = 80) ∨
        ((update W H (2 / 125) e g).state = .gameOver ∧
          (update W H (2 / 125) e g).bird.vy = 0))) ∨
    (y' < H - 140 ∧ g.state = .playing ∧ 20 < y' ∧
      (update W H (2 / 125) e g).bird.y = y' ∧
      (((update W H (2 / 125) e g).state = .playing ∧
          (update W H (2 / 125) e g).bird.vy = vy') ∨
        ((update W H (2 / 125) e g).state = .gameOver ∧
          (update W H (2 / 125) e g).bird.vy = 0))) := by
  have hw := updateWorld_frame W (2 / 125) g
  have hnw : (updateWorld W (2 / 125) g).state ≠ .ready := by
    rw [hw.1]
    exact hn
  -- the bird after `updateBird`
  have hbird : (H - 140 < y' ∧
        (updateBird H (2 / 125) e.sinY e.sinR (updateWorld W (2 / 125) g)).bird.y = H - 140 ∧
        (updateBird H (2 / 125) e.sinY e.sinR (updateWorld W (2 / 125) g)).bird.vy = 0) ∨
      (y' ≤ H - 140 ∧
        (updateBird H (2 / 125) e.sinY e.sinR (updateWorld W (2 / 125) g)).bird.y = y' ∧
        (updateBird H (2 / 125) e.sinY e.sinR (updateWorld W (2 / 125) g)).bird.vy = vy') := by
    rcases lt_or_le (H - 140) y' with h | h
    · left
      rw [updateBird_pinned H (2 / 125) e.sinY e.sinR _ hnw
        (by rw [hw.2.1, ← hvy, ← hy]; exact h)]
      exact ⟨h, rfl, rfl⟩
    · right
      rw [updateBird_free H (2 / 125) e.sinY e.sinR _ hnw
        (by rw [hw.2.1, ← hvy, ← hy]; exact h)]
      refine ⟨h, ?_, ?_⟩
      · show (updateWorld W (2 / 125) g).bird.y + _ = y'
        rw [hw.2.1, ← hvy, hy]
      · show clamp ((updateWorld W (2 / 125) g).bird.vy + _) _ _ = vy'
        rw [hw.2.1, hvy]
  have hbs : (updateBird H (2 / 125) e.sinY e.sinR (updateWorld W (2 / 125) g)).state
      = g.state := by
    rw [(updateBird_frame H (2 / 125) e.sinY e.sinR _).1, hw.1]
  by_cases hs : g.state = .playing
  · -- Playing: the collision check follows
    have hp := updatePipes_state_bird W H (2 / 125) e.rand
      (updateBird H (2 / 125) e.sinY e.sinR (updateWorld W (2 / 125) g))
    have hps : (updatePipes W H (2 / 125) e.rand
        (updateBird H (2 / 125) e.sinY e.sinR (updateWorld W (2 / 125) g))).state
        = .playing := by
      rw [hp.1, hbs, hs]
    have hc := checkCollisions_bird_cases H _ hps hH
    rw [hp.2] at hc
    simp only [update]
    rcases hbird with ⟨h, by1, bv⟩ | ⟨h, by1, bv⟩
    · rw [by1] at hc
      rcases hc with ⟨c1, -⟩ | ⟨-, c2, c3, c4⟩ | ⟨-, c1, -⟩
      · linarith
      · exact Or.inl ⟨h.le, c3, c2, Or.inl c4⟩
      · linarith
    · rw [by1, bv] at hc
      rcases hc with ⟨c1, c2, c3⟩ | ⟨c1, c2, c3, c4⟩ | ⟨c1, c2, c3, c4⟩
      · exact Or.inr (Or.inr (Or.inl ⟨by linarith, hs, c1, c2, c3⟩))
      · exact Or.inl ⟨c1, c3, c2, Or.inl c4⟩
      · exact Or.inr (Or.inr (Or.inr ⟨c2, hs, c1, c3, c4⟩))
  · -- GameOver: only the integrator runs
    have hg : g.state = .gameOver := by
      cases hst : g.state
      · exact absurd hst hn
      · exact absurd hst hs
      · rfl
    rw [update_idle W H (2 / 125) e g hs]
    rcases hbird with ⟨h, by1, bv⟩ | ⟨h, by1, bv⟩
    · exact Or.inl ⟨h.le, by rw [hbs, hg], by1, Or.inl bv⟩
    · rcases lt_or_eq_of_le h with h2 | h2
      · exact Or.inr (Or.inl ⟨h2, hg, by rw [hbs, hg], by1, bv⟩)
      · exact Or.inl ⟨h2.symm.le, by rw [hbs, hg], by rw [by1, h2], Or.inr ⟨hg, bv⟩⟩

theorem fall_goal (H : ℚ) (g u : Game) (s : GameState) (y v : ℚ)
    (us : u.state = s) (uy : u.bird.y = y) (uv : u.bird.vy = v)
    (hs : s ≠ .ready) (hv1 : -1000 ≤ v) (hv2 : v ≤ 700) (hy1 : 20 ≤ y) (hy2 : y ≤ H - 140)
    (hgo : s = .gameOver → 0 ≤ v)
    (hdec : (s = .gameOver ∧ y = H - 140) ∨
      (700 - v) / 8 + 5 * (H - 140 - y) / 56 + (if s = .playing then 90 else 0) + 1
        ≤ fallBound H g) :
    FallInv H u ∧ (Landed H u ∨ fallBound H u + 1 ≤ fallBound H g) := by
  refine ⟨⟨by rw [us]; exact hs, by rw [uv]; exact hv1, by rw [uv]; exact hv2,
    by rw [uy]; exact hy1, by rw [uy]; exact hy2, by rw [us, uv]; exact hgo⟩, ?_⟩
  rcases hdec with ⟨h1, h2⟩ | h
  · left
    exact ⟨by rw [us]; exact h1, by rw [uy]; exact h2, by rw [uv]; exact hgo h1,
      by rw [uv]; exact hv2⟩
  · right
    simp only [fallBound, us, uy, uv] at h ⊢
    exact h

/-- One frame of scenario B keeps the fall invariant, and either lands the bird or
lowers the bound by at least one. -/
theorem fall_step (W H : ℚ) (e : Env) (g : Game) (hH : 160 < H) (hi : FallInv H g) :
    FallInv H (update W H (2 / 125) e g) ∧
    (Landed H (update W H (2 / 125) e g) ∨
      fallBound H (update W H (2 / 125) e g) + 1 ≤ fallBound H g) := by
  obtain ⟨hn, v1, v2, y1, y2, hgo⟩ := hi
  have hcases := update_fall_cases W H e g hn hH _ _ rfl rfl
  have hvy' : ∃ vy' : ℚ, clamp (g.bird.vy + 1500 * (2 / 125)) (-1000) 700 = vy' ∧
      -976 ≤ vy' ∧ vy' ≤ 700 ∧ g.bird.vy ≤ vy' ∧
      1 ≤ (vy' - g.bird.vy) / 8 + vy' / 700 := by
    rcases clamp_step g.bird.vy v1 with ⟨hv, hcl⟩ | ⟨hv, hcl⟩
    · exact ⟨_, hcl, by linarith, hv, by linarith, by linarith⟩
    · exact ⟨_, hcl, by norm_num, le_rfl, v2, by linarith⟩
  obtain ⟨vy', hcl, w1, w2, w3, w4⟩ := hvy'
  rw [hcl] at hcases
  have gO : g.state = .gameOver → fallBound H g
      = (700 - g.bird.vy) / 8 + 5 * (H - 140 - g.bird.y) / 56 := by
    intro h
    simp [fallBound, h]
  have gP : g.state = .playing → fallBound H g
      = (700 - g.bird.vy) / 8 + 5 * (H - 140 - g.bird.y) / 56 + 90 := by
    intro h
    simp [fallBound, h]
  rcases hcases with ⟨c1, c2, c3, c4 | ⟨c4, c5⟩⟩ | ⟨c1, c2, c3, c4, c5⟩ |
    ⟨c1, c2, c3, c4, ⟨c5, c6⟩ | ⟨c5, c6⟩⟩ | ⟨c1, c2, c3, c4, ⟨c5, c6⟩ | ⟨c5, c6⟩⟩
  · -- on the floor, velocity zeroed
    exact fall_goal H g _ .gameOver (H - 140) 0 c2 c3 c4 (by decide) (by norm_num)
      (by norm_num) (by linarith) le_rfl (fun _ => le_rfl) (Or.inl ⟨rfl, rfl⟩)
  · -- on the floor exactly, round already over
    have := hgo c4
    exact fall_goal H g _ .gameOver (H - 140) vy' c2 c3 c5 (by decide) (by linarith) w2
      (by linarith) le_rfl (fun _ => by linarith) (Or.inl ⟨rfl, rfl⟩)
  · -- falling after the end of the round
    have := hgo c2
    refine fall_goal H g _ .gameOver _ vy' c3 c4 c5 (by decide) (by linarith) w2
      (by nlinarith) c1.le (fun _ => by linarith) (Or.inr ?_)
    rw [gO c2]
    simp only [reduceCtorEq, if_false]
    linarith
  · -- ceiling bounce, round goes on
    have hneg : vy' ≤ 0 := by nlinarith
    refine fall_goal H g _ .playing 20 80 c5 c4 c6 (by decide) (by norm_num) (by norm_num)
      le_rfl (by linarith) (fun h => by cases h) (Or.inr ?_)
    rw [gP c2]
    simp only [if_true]
    linarith
  · -- ceiling bounce into a pipe
    have hneg : vy' ≤ 0 := by nlinarith
    refine fall_goal H g _ .gameOver 20 0 c5 c4 c6 (by decide) (by norm_num) (by norm_num)
      le_rfl (by linarith) (fun _ => le_rfl) (Or.inr ?_)
    rw [gP c2]
    simp only [reduceCtorEq, if_false]
    linarith
  · -- free flight, round goes on
    refine fall_goal H g _ .playing _ vy' c5 c4 c6 (by decide) (by linarith) w2 c3.le c1.le
      (fun h => by cases h) (Or.inr ?_)
    rw [gP c2]
    simp only [if_true]
    linarith
  · -- free flight into a pipe
    refine fall_goal H g _ .gameOver _ 0 c5 c4 c6 (by decide) (by norm_num) (by norm_num)
      c3.le c1.le (fun _ => le_rfl) (Or.inr ?_)
    rw [gP c2]
    simp only [reduceCtorEq, if_false]
    linarith

theorem landed_step (W H : ℚ) (e : Env) (g : Game) (hH : 160 < H) (hl : Landed H g) :
    Landed H (update W H (2 / 125) e g) := by
  obtain ⟨ls, ly, lv1, lv2⟩ := hl
  have hn : g.state ≠ .ready := by
    rw [ls]
    decide
  have hcases := update_fall_cases W H e g hn hH _ _ rfl rfl
  rcases clamp_step g.bird.vy (by linarith) with ⟨hv, hcl⟩ | ⟨hv, hcl⟩
  all_goals
    rw [hcl, ly] at hcases
    rcases hcases with ⟨c1, c2, c3, c4 | ⟨c4, c5⟩⟩ | ⟨c1, -⟩ | ⟨c1, -⟩ | ⟨c1, -⟩
    · exact ⟨c2, c3, c4.ge, c4.le.trans (by norm_num)⟩
    · exact ⟨c2, c3, le_trans (by linarith) c5.ge, c5.le.trans (by linarith)⟩
    · linarith
    · linarith
    · linarith

theorem noFlap_cons (e : Env) (envs : List Env) :
    noFlap (e :: envs) = Action.update (2 / 125) e :: noFlap envs := rfl

theorem run_cons (W H : ℚ) (g : Game) (a : Action) (acts : List Action) :
    run W H g (a :: acts) = run W H (step W H g a) acts := rfl

theorem landed_run (W H : ℚ) (envs : List Env) (g : Game) (hH : 160 < H)
    (hl : Landed H g) : Landed H (run W H g (noFlap envs)) := by
  induction envs generalizing g with
  | nil => exact hl
  | cons e envs ih =>
    rw [noFlap_cons, run_cons]
    exact ih _ (landed_step W H e g hH hl)

theorem fallBound_zero (H : ℚ) (g : Game) (hi : FallInv H g) (h0 : fallBound H g ≤ 0) :
    Landed H g := by
  obtain ⟨hn, v1, v2, y1, y2, hgo⟩ := hi
  simp only [fallBound] at h0
  by_cases hs : g.state = .playing
  · rw [if_pos hs] at h0
    linarith
  · rw [if_neg hs] at h0
    have hg : g.state = .gameOver := by
      cases hst : g.state
      · exact absurd hst hn
      · exact absurd hst hs
      · rfl
    exact ⟨hg, by linarith, hgo hg, v2⟩

/-- A fall whose bound does not exceed the number of frames ends on the floor. -/
theorem fall_lands (W H : ℚ) (envs : List Env) (g : Game) (hH : 160 < H)
    (hi : FallInv H g) (hb : fallBound H g ≤ envs.length) :
    Landed H (run W H g (noFlap envs)) := by
  induction envs generalizing g with
  | nil =>
    simp only [List.length_nil, Nat.cast_zero] at hb
    exact fallBound_zero H g hi hb
  | cons e envs ih =>
    rw [noFlap_cons, run_cons]
    obtain ⟨hi2, hl | hd⟩ := fall_step W H e g hH hi
    · exact landed_run W H envs _ hH hl
    · apply ih _ hi2
      simp only [List.length_cons, Nat.cast_add, Nat.cast_one] at hb
      show fallBound H (update W H (2 / 125) e g) ≤ _
      linarith

theorem update_state_cases (W H dt : ℚ) (e : Env) (g : Game) (hs : g.state = .playing) :
    (update W H dt e g).state = .playing ∨ (update W H dt e g).state = .gameOver := by
  have hb : (updatePipes W H dt e.rand
      (updateBird H dt e.sinY e.sinR (updateWorld W dt g))).state = .playing := by
    rw [(updatePipes_frame W H dt e.rand _).1, (updateBird_frame H dt e.sinY e.sinR _).1,
      (updateWorld_frame W dt g).1, hs]
  simp only [update, checkCollisions, hb, ne_eq, not_true_eq_false, if_false]
  split_ifs
  · right
    simp [endRound, (bounceCeiling_frame _).1, hb]
  · rcases checkPipes_cases H (bounceCeiling (updatePipes W H dt e.rand
        (updateBird H dt e.sinY e.sinR (updateWorld W dt g)))).pipes
      (bounceCeiling (updatePipes W H dt e.rand
        (updateBird H dt e.sinY e.sinR (updateWorld W dt g)))) with ⟨h, -⟩ | ⟨h, -⟩
    · left
      rw [h, (bounceCeiling_frame _).1, hb]
    · right
      rw [h]
      simp [endRound, (bounceCeiling_frame _).1, hb]

/-- The frame in which the round ends: before it the state is `Playing`, from it on
the state is `GameOver` and score and queue no longer change. -/
theorem end_frame (W H : ℚ) (envs : List Env) (g : Game) (hs : g.state = .playing)
    (hf : (run W H g (noFlap envs)).state = .gameOver) :
    ∃ m : ℕ, 1 ≤ m ∧ m ≤ envs.length ∧
      (∀ k : ℕ, k < m → (run W H g (noFlap (envs.take k))).state = .playing) ∧
      ∀ k : ℕ, m ≤ k → k ≤ envs.length →
        (run W H g (noFlap (envs.take k))).state = .gameOver ∧
        (run W H g (noFlap (envs.take k))).score = (run W H g (noFlap envs)).score ∧
        (run W H g (noFlap (envs.take k))).pipes = (run W H g (noFlap envs)).pipes := by
  induction envs generalizing g with
  | nil =>
    rw [show run W H g (noFlap []) = g from rfl, hs] at hf
    cases hf
  | cons e envs ih =>
    have hframes : ∀ l : List Env, ∀ a ∈ noFlap l, a.isFrame = true := by
      intro l a ha
      simp only [noFlap, List.mem_map] at ha
      obtain ⟨e2, -, rfl⟩ := ha
      rfl
    rcases update_state_cases W H (2 / 125) e g hs with h1 | h1
    · -- the round goes on after this frame
      rw [noFlap_cons, run_cons] at hf
      obtain ⟨m, m1, m2, m3, m4⟩ := ih (step W H g (Action.update (2 / 125) e)) h1 hf
      refine ⟨m + 1, by omega, by simp only [List.length_cons]; omega, ?_, ?_⟩
      · intro k hk
        cases k with
        | zero => exact hs
        | succ j =>
          rw [List.take_succ_cons, noFlap_cons, run_cons]
          exact m3 j (by omega)
      · intro k hk1 hk2
        cases k with
        | zero => omega
        | succ j =>
          simp only [List.length_cons] at hk2
          rw [List.take_succ_cons, noFlap_cons, run_cons, noFlap_cons, run_cons]
          exact m4 j (by omega) (by omega)
    · -- the round ends in this frame
      have hn : (step W H g (Action.update (2 / 125) e)).state ≠ .playing := by
        simp only [step]
        rw [h1]
        decide
      refine ⟨1, le_rfl, by simp only [List.length_cons]; omega, ?_, ?_⟩
      · intro k hk
        have : k = 0 := by omega
        subst this
        exact hs
      · intro k hk1 hk2
        cases k with
        | zero => omega
        | succ j =>
          rw [List.take_succ_cons, noFlap_cons, run_cons, noFlap_cons, run_cons]
          obtain ⟨a1, a2, -, -, a5⟩ := frames_idle W H (noFlap (envs.take j)) _ hn
            (hframes _)
          obtain ⟨b1, b2, -, -, b5⟩ := frames_idle W H (noFlap envs) _ hn (hframes _)
          refine ⟨?_, by rw [a2, b2], by rw [a5, b5]⟩
          rw [a1]
          exact h1

theorem updatePipes_last (W H dt : ℚ) (rand : ℕ → ℚ) (g : Game) (hs : g.state = .playing) :
    ∃ last : Pipe, (updatePipes W H dt rand g).pipes.getLast? = some last ∧
      W + 260 < last.x := by
  obtain ⟨n, h1, h2, -⟩ := updatePipes_playing W H dt rand g hs
  simp only [pipeStartOffset, pipeSpacing] at h2
  have hp : (updatePipes W H dt rand g).pipes =
      shiftPipes (g.pipes.map (movedPipe dt g.bird.x)) ++
        spawned H (frontier W (shiftPipes (g.pipes.map (movedPipe dt g.bird.x)))) rand n := by
    rw [h1]
  cases n with
  | zero =>
    simp only [Nat.cast_zero, mul_zero, add_zero] at h2
    cases hl : (shiftPipes (g.pipes.map (movedPipe dt g.bird.x))).getLast? with
    | none =>
      rw [List.getLast?_eq_none_iff] at hl
      rw [hl, frontier_nil] at h2
      linarith
    | some last =>
      refine ⟨last, ?_, ?_⟩
      · rw [hp]
        simp [spawned, hl]
      · rw [frontier_last W _ last hl] at h2
        exact h2
  | succ m =>
    refine ⟨{ x := frontier W (shiftPipes (g.pipes.map (movedPipe dt g.bird.x)))
                + 250 * ((m : ℚ) + 1),
              gapY := randomGapY H (rand m), passed := false }, ?_, ?_⟩
    · rw [hp, List.getLast?_append, spawned_last]
      rfl
    · push_cast at h2
      exact h2

theorem updatePipes_flagInv (W H dt : ℚ) (rand : ℕ → ℚ) (g : Game) (hx : g.bird.x = 140)
    (hdt : 0 ≤ dt) (h : FlagInv g) : FlagInv (updatePipes W H dt rand g) := by
  by_cases hs : g.state = .playing
  · obtain ⟨n, h1, -, -⟩ := updatePipes_playing W H dt rand g hs
    intro q hq hpass
    rw [h1] at hq
    rcases List.mem_append.mp hq with hq | hq
    · obtain ⟨p, hp, rfl⟩ := List.mem_map.mp ((shiftPipes_suffix _).subset hq)
      simp only [movedPipe, Bool.or_eq_true, decide_eq_true_eq, hx, pipeWidth, pipeSpeed]
        at hpass ⊢
      rcases hpass with hp1 | hp1
      · have := h p hp hp1
        nlinarith
      · exact hp1
    · simp only [spawned, List.mem_map] at hq
      obtain ⟨k, -, rfl⟩ := hq
      cases hpass
  · rw [updatePipes_idle W H dt rand g hs]
    exact h

theorem kept_last (ps : List Pipe) (f : Pipe → Pipe) :
    ∀ q ∈ (shiftPipes (ps.map f)).getLast?, ∃ p ∈ ps.getLast?, q = f p := by
  intro q hq
  obtain ⟨t, ht⟩ := shiftPipes_suffix (ps.map f)
  have h1 : (ps.map f).getLast? = some q := by
    rw [← ht, List.getLast?_append]
    simp only [Option.mem_def] at hq
    rw [hq]
    rfl
  rw [List.getLast?_map] at h1
  cases hl : ps.getLast? with
  | none =>
    rw [hl] at h1
    cases h1
  | some p =>
    rw [hl] at h1
    simp only [Option.map_some', Option.some.injEq] at h1
    exact ⟨p, rfl, h1.symm⟩

theorem updatePipes_aheadInv (W H : ℚ) (rand : ℕ → ℚ) (g : Game) (hW : 0 ≤ W)
    (hx : g.bird.x = 140) (h : AheadInv g) :
    AheadInv (updatePipes W H (2 / 125) rand g) := by
  by_cases hs : g.state = .playing
  · obtain ⟨n, h1, -, -⟩ := updatePipes_playing W H (2 / 125) rand g hs
    constructor
    · intro q hq hbehind
      rw [h1] at hq
      rcases List.mem_append.mp hq with hq | hq
      · obtain ⟨p, -, rfl⟩ := List.mem_map.mp ((shiftPipes_suffix _).subset hq)
        simp only [movedPipe, Bool.or_eq_true, decide_eq_true_eq, hx, pipeWidth, pipeSpeed]
          at hbehind ⊢
        exact Or.inr hbehind
      · exfalso
        have hf : -198 ≤ frontier W
            (shiftPipes (g.pipes.map (movedPipe (2 / 125) g.bird.x))) := by
          cases hl : (shiftPipes (g.pipes.map (movedPipe (2 / 125) g.bird.x))).getLast? with
          | none =>
            rw [List.getLast?_eq_none_iff] at hl
            rw [hl, frontier_nil]
            linarith
          | some last =>
            rw [frontier_last W _ last hl]
            obtain ⟨p, hp, rfl⟩ := kept_last g.pipes _ last hl
            have := h.2 p hp
            simp only [movedPipe, pipeSpeed]
            linarith
        simp only [spawned, List.mem_map, List.mem_range] at hq
        obtain ⟨k, -, rfl⟩ := hq
        simp only [pipeSpacing] at hbehind
        have hk : (0 : ℚ) ≤ k := Nat.cast_nonneg k
        linarith
    · obtain ⟨last, hl1, hl2⟩ := updatePipes_last W H (2 / 125) rand g hs
      intro p hp
      simp only [Option.mem_def] at hp
      rw [hl1] at hp
      cases hp
      linarith
  · rw [updatePipes_idle W H (2 / 125) rand g hs]
    exact h

theorem update_flags (W H : ℚ) (e : Env) (g : Game) (hx : g.bird.x = 140) :
    (FlagInv g → FlagInv (update W H (2 / 125) e g)) ∧
    (0 ≤ W → AheadInv g → AheadInv (update W H (2 / 125) e g)) := by
  have hb := updateBird_frame H (2 / 125) e.sinY e.sinR (updateWorld W (2 / 125) g)
  have hw := updateWorld_frame W (2 / 125) g
  have hpx : (updateBird H (2 / 125) e.sinY e.sinR (updateWorld W (2 / 125) g)).bird.x
      = 140 := by
    rw [hb.2.1, hw.2.1, hx]
  have hpp : (updateBird H (2 / 125) e.sinY e.sinR (updateWorld W (2 / 125) g)).pipes
      = g.pipes := by
    rw [hb.2.2.1, hw.2.2.1]
  have he := (update_pipes_eq W H (2 / 125) e g).1
  constructor
  · intro h
    have := updatePipes_flagInv W H (2 / 125) e.rand _ hpx (by norm_num)
      (show FlagInv (updateBird H (2 / 125) e.sinY e.sinR (updateWorld W (2 / 125) g)) by
        simp only [FlagInv, hpp]
        exact h)
    simp only [FlagInv, he]
    exact this
  · intro hW h
    have := updatePipes_aheadInv W H e.rand _ hW hpx
      (show AheadInv (updateBird H (2 / 125) e.sinY e.sinR (updateWorld W (2 / 125) g)) by
        simp only [AheadInv, hpp]
        exact h)
    simp only [AheadInv, he]
    exact this

theorem noFlap_flags (W H : ℚ) (envs : List Env) (g : Game) (hx : g.bird.x = 140) :
    (FlagInv g → FlagInv (run W H g (noFlap envs))) ∧
    (0 ≤ W → AheadInv g → AheadInv (run W H g (noFlap envs))) := by
  induction envs generalizing g with
  | nil => exact ⟨id, fun _ => id⟩
  | cons e envs ih =>
    rw [noFlap_cons, run_cons]
    have h1 := update_flags W H e g hx
    have h2 := ih (step W H g (Action.update (2 / 125) e))
      (by simp only [step]; rw [update_bird_x, hx])
    exact ⟨fun h => h2.1 (h1.1 h), fun hW h => h2.2 hW (h1.2 hW h)⟩

/-- C15 (scenario B): in a world with `425 ≤ H ≤ 1000`, from every `Playing`
state with `bird.x = 140`, `20 ≤ bird.y ≤ H - 140`,
`bird.vy` in `[-1000, 700]`, score 0 and no pipe flagged `passed`, 625 consecutive
`update(0.016)` calls without action input, whatever the random draws, end with
state `GameOver` and `bird.y = H - 140`.  There is a frame `m` in which the round
ends: the state is `Playing` before it and `GameOver` from it on, and score and
queue no longer change after it.  The final score is the number of pipes
recycled during the run plus the number of queued pipes flagged `passed`; a
flagged pipe has its trailing edge left of the bird (`x + 88 < 140`); and when no
pipe was behind the bird at the start (canvas width `W ≥ 0`), the flagged pipes
are exactly those with
`x + 88 < 140`, so that the score is the number of pipes whose trailing edge has
moved left of `x = 140` by the frame in which the round ended (the recycled
ones, all of them flagged, and the queued ones behind the bird). -/
theorem scenario_B (W H : ℚ) (g : Game) (envs : List Env)
    (hH1 : 425 ≤ H) (hH2 : H ≤ 1000)
    (hs : g.state = .playing) (hx : g.bird.x = 140)
    (hy1 : 20 ≤ g.bird.y) (hy2 : g.bird.y ≤ H - 140)
    (hv1 : -1000 ≤ g.bird.vy) (hv2 : g.bird.vy ≤ 700)
    (hsc : g.score = 0) (hp : ∀ p ∈ g.pipes, p.passed = false)
    (hlen : envs.length = 625) :
    (run W H g (noFlap envs)).state = .gameOver ∧
    (run W H g (noFlap envs)).bird.y = H - 140 ∧
    (∃ m : ℕ, 1 ≤ m ∧ m ≤ 625 ∧
      (∀ k : ℕ, k < m → (run W H g (noFlap (envs.take k))).state = .playing) ∧
      ∀ k : ℕ, m ≤ k → k ≤ 625 →
        (run W H g (noFlap (envs.take k))).state = .gameOver ∧
        (run W H g (noFlap (envs.take k))).score = (run W H g (noFlap envs)).score ∧
        (run W H g (noFlap (envs.take k))).pipes = (run W H g (noFlap envs)).pipes) ∧
    (run W H g (noFlap envs)).score =
      (recycledRun W H 0 g (noFlap envs) : ℤ)
        + ((run W H g (noFlap envs)).pipes.countP (fun p => p.passed) : ℤ) ∧
    (∀ p ∈ (run W H g (noFlap envs)).pipes, p.passed = true → p.x + 88 < 140) ∧
    (0 ≤ W → (∀ p ∈ g.pipes, 140 ≤ p.x + 88) →
      (∀ p ∈ (run W H g (noFlap envs)).pipes, p.x + 88 < 140 → p.passed = true) ∧
      (run W H g (noFlap envs)).score =
        (recycledRun W H 0 g (noFlap envs) : ℤ)
          + ((run W H g (noFlap envs)).pipes.countP
              (fun p => decide (p.x + 88 < 140)) : ℤ)) := by
  have hH : 160 < H := by linarith
  have hi : FallInv H g := by
    refine ⟨by rw [hs]; decide, hv1, hv2, hy1, hy2, fun h => ?_⟩
    rw [hs] at h
    cases h
  have hb : fallBound H g ≤ envs.length := by
    simp only [fallBound, hs, if_true, hlen]
    push_cast
    linarith
  obtain ⟨l1, l2, -, -⟩ := fall_lands W H envs g hH hi hb
  have hc0 : g.pipes.countP (fun p => p.passed) = 0 := by
    rw [List.countP_eq_zero]
    intro p hpm
    simp [hp p hpm]
  have hacc := (run_account W H (noFlap envs) g 0 hx (by rw [hsc, hc0]; rfl)).2
  have hflag : FlagInv g := by
    intro p hpm hpass
    rw [hp p hpm] at hpass
    cases hpass
  have hf := (noFlap_flags W H envs g hx).1 hflag
  obtain ⟨m, m1, m2, m3, m4⟩ := end_frame W H envs g hs l1
  rw [hlen] at m2 m4
  refine ⟨l1, l2, ⟨m, m1, m2, m3, m4⟩, hacc, hf, ?_⟩
  intro hW hahead
  have ha : AheadInv g :=
    ⟨fun p hpm hlt => absurd hlt (not_lt.mpr (hahead p hpm)),
      fun p hpm => hahead p (List.mem_of_mem_getLast? hpm)⟩
  have ha2 := ((noFlap_flags W H envs g hx).2 hW ha).1
  refine ⟨ha2, ?_⟩
  rw [hacc]
  congr 2
  apply List.countP_congr
  intro p hpm
  simp only [decide_eq_true_eq]
  exact ⟨hf p hpm, ha2 p hpm⟩

theorem scenario_B_witness :
    sampleFresh.state = .playing ∧ sampleFresh.score = 0 ∧
    (List.replicate 625 sampleEnv).length = 625 ∧
    (run 480 640 sampleFresh (noFlap (List.replicate 625 sampleEnv))).state = .gameOver ∧
    (run 480 640 sampleFresh (noFlap (List.replicate 625 sampleEnv))).bird.y = 640 - 140 :=
  have hlen : (List.replicate 625 sampleEnv).length = 625 := List.length_replicate _ _
  have h := scenario_B 480 640 sampleFresh (List.replicate 625 sampleEnv)
    (by norm_num) (by norm_num) rfl rfl
    (by norm_num [sampleFresh]) (by norm_num [sampleFresh])
    (by norm_num [sampleFresh]) (by norm_num [sampleFresh]) rfl
    (by
      intro p hp
      simp only [sampleFresh, List.mem_cons, List.mem_singleton, List.not_mem_nil,
        or_false] at hp
      rcases hp with rfl | rfl | rfl <;> rfl)
    hlen
  ⟨rfl, rfl, hlen, h.1, h.2.1⟩

/-! ## The exact queue after each call -/

theorem queueKept_eq_shift (dt : ℚ) (g : Game) :
    queueKept dt g = shiftPipes (g.pipes.map (movedPipe dt g.bird.x)) :=
  (shiftPipes_eq_dropWhile _).symm

/-- The kept pipes are the moved queue without its first pipes, and each pipe left out
had its trailing edge left of -20. -/
theorem queueKept_drop (dt : ℚ) (g : Game) :
    queueKept dt g = (g.pipes.map (movedPipe dt g.bird.x)).drop
      (g.pipes.length - (queueKept dt g).length) ∧
    ∀ p ∈ (g.pipes.map (movedPipe dt g.bird.x)).take
      (g.pipes.length - (queueKept dt g).length), p.x + 88 < -20 := by
  have h := shiftPipes_removed (g.pipes.map (movedPipe dt g.bird.x))
  rw [List.length_map, ← queueKept_eq_shift] at h
  exact h

theorem queueKept_getElem (dt : ℚ) (g : Game) (i : ℕ) (p : Pipe)
    (hp : g.pipes[(g.pipes.length - (queueKept dt g).length) + i]? = some p) :
    (queueKept dt g)[i]? = some (movedPipe dt g.bird.x p) ∧ i < (queueKept dt g).length := by
  have hlen : (queueKept dt g).length ≤ g.pipes.length := by
    rw [queueKept_eq_shift]
    have := (shiftPipes_suffix (g.pipes.map (movedPipe dt g.bird.x))).length_le
    rwa [List.length_map] at this
  obtain ⟨hlt, -⟩ := List.getElem?_eq_some.mp hp
  constructor
  · calc (queueKept dt g)[i]?
        = ((g.pipes.map (movedPipe dt g.bird.x)).drop
            (g.pipes.length - (queueKept dt g).length))[i]? := by
          rw [← (queueKept_drop dt g).1]
      _ = some (movedPipe dt g.bird.x p) := by
          rw [List.getElem?_drop, List.getElem?_map, hp]
          rfl
  · omega

theorem updatePipes_exact (W H dt : ℚ) (rand : ℕ → ℚ) (g : Game) (hs : g.state = .playing) :
    ∃ n : ℕ, SpawnCount W (frontier W (queueKept dt g)) n ∧
      (updatePipes W H dt rand g).pipes =
        queueKept dt g ++ spawned H (frontier W (queueKept dt g)) rand n := by
  obtain ⟨n, h1, h2, h3⟩ := updatePipes_playing W H dt rand g hs
  simp only [pipeStartOffset, pipeSpacing] at h2 h3
  rw [← queueKept_eq_shift] at h2 h3
  refine ⟨n, ⟨h2, h3⟩, ?_⟩
  rw [h1, queueKept_eq_shift]

theorem updatePipes_queueAfter (W H dt : ℚ) (rand : ℕ → ℚ) (g : Game) :
    ∃ n : ℕ, (g.state = .playing → SpawnCount W (frontier W (queueKept dt g)) n) ∧
      (updatePipes W H dt rand g).pipes = queueAfter W H dt rand g n := by
  by_cases hs : g.state = .playing
  · obtain ⟨n, h1, h2⟩ := updatePipes_exact W H dt rand g hs
    exact ⟨n, fun _ => h1, by rw [h2, queueAfter, if_pos hs]⟩
  · exact ⟨0, fun h => absurd h hs, by rw [updatePipes_idle W H dt rand g hs, queueAfter,
      if_neg hs]⟩

theorem update_queueAfter (W H dt : ℚ) (e : Env) (g : Game) :
    ∃ n : ℕ, (g.state = .playing → SpawnCount W (frontier W (queueKept dt g)) n) ∧
      (update W H dt e g).pipes = queueAfter W H dt e.rand g n := by
  have hb := updateBird_frame H dt e.sinY e.sinR (updateWorld W dt g)
  have hw := updateWorld_frame W dt g
  have hpx : (updateBird H dt e.sinY e.sinR (updateWorld W dt g)).bird.x = g.bird.x := by
    rw [hb.2.1, hw.2.1]
  have hpp : (updateBird H dt e.sinY e.sinR (updateWorld W dt g)).pipes = g.pipes := by
    rw [hb.2.2.1, hw.2.2.1]
  have hps : (updateBird H dt e.sinY e.sinR (updateWorld W dt g)).state = g.state := by
    rw [hb.1, hw.1]
  obtain ⟨n, h1, h2⟩ := updatePipes_queueAfter W H dt e.rand
    (updateBird H dt e.sinY e.sinR (updateWorld W dt g))
  simp only [queueAfter, queueKept, hpx, hpp, hps] at h1 h2
  refine ⟨n, h1, ?_⟩
  rw [(update_pipes_eq W H dt e g).1, h2]
  rfl

theorem tick_queueAfter (W H timestamp : ℚ) (e : Env) (g : Game) :
    ∃ n : ℕ, (g.state = .playing →
        SpawnCount W (frontier W (queueKept (tickDt timestamp g) g)) n) ∧
      (tick W H timestamp e g).pipes = queueAfter W H (tickDt timestamp g) e.rand g n := by
  rw [tick_eq_update]
  exact update_queueAfter W H (tickDt timestamp g) e { g with lastTime := timestamp }

theorem onActionInput_pipes (W H : ℚ) (rand : ℕ → ℚ) (g : Game) :
    (onActionInput W H rand g).pipes =
      if g.state = .gameOver then
        [{ x := W + 260, gapY := randomGapY H (rand 0), passed := false },
         { x := W + 510, gapY := randomGapY H (rand 1), passed := false },
         { x := W + 760, gapY := randomGapY H (rand 2), passed := false }]
      else g.pipes := by
  cases hs : g.state
  · simp [onActionInput, startRound, flap, hs]
  · simp [onActionInput, startRound, flap, hs]
  · simp only [onActionInput, hs, resetRound, spawnPipe, pipeStartOffset, pipeSpacing]
    simp
    refine ⟨?_, ?_⟩ <;> ring

/-! ## Queue order, gap centres and scoring, with the exact queue -/

theorem movedPipe_eq (dt bx : ℚ) (p : Pipe) :
    movedPipe dt bx p =
      { x := p.x - 190 * dt, gapY := p.gapY,
        passed := p.passed || decide ((p.x - 190 * dt) + 88 < bx) } := by
  simp [movedPipe, pipeSpeed, pipeWidth]

/-- C5: in every state reached from the initial reset by any sequence of action
inputs, `update(dt)` calls and ticks (exact arithmetic, any `dt`, any random
draws), consecutive pipes of the queue are exactly 250 apart (later minus
earlier), hence the x-positions are strictly increasing in queue order.  Pipes
leave at the front only and come at the back only: an input changes the queue
only in `GameOver`, where the reset replaces it by three new pipes; a frame
(`update` or `tick`) changes it only in `Playing`, where the new queue is exactly
`queueKept ++ spawned`: the old queue with every pipe moved, without a front run
(the first `k` pipes, each with moved trailing edge left of -20; the pipe at
position `k + i` of the old queue is at position `i` of the new one), followed
by the `n` spawned pipes, `n` being the count fixed by the spawn frontier. -/
theorem pipes_spacing_invariant (W H : ℚ) (best : ℤ) (stored : Option String)
    (rand : ℕ → ℚ) (acts : List Action) :
    List.Chain' (fun p q : Pipe => q.x - p.x = 250)
      (run W H (start W H best stored rand) acts).pipes ∧
    List.Pairwise (fun p q : Pipe => p.x < q.x)
      (run W H (start W H best stored rand) acts).pipes ∧
    (∀ (g : Game) (r : ℕ → ℚ), (onActionInput W H r g).pipes =
      if g.state = .gameOver then
        [{ x := W + 260, gapY := randomGapY H (r 0), passed := false },
         { x := W + 510, gapY := randomGapY H (r 1), passed := false },
         { x := W + 760, gapY := randomGapY H (r 2), passed := false }]
      else g.pipes) ∧
    (∀ (g : Game) (dt : ℚ) (e : Env), ∃ n : ℕ,
      (g.state = .playing → SpawnCount W (frontier W (queueKept dt g)) n) ∧
      (update W H dt e g).pipes = queueAfter W H dt e.rand g n) ∧
    (∀ (g : Game) (timestamp : ℚ) (e : Env), ∃ n : ℕ,
      (g.state = .playing →
        SpawnCount W (frontier W (queueKept (tickDt timestamp g) g)) n) ∧
      (tick W H timestamp e g).pipes = queueAfter W H (tickDt timestamp g) e.rand g n) ∧
    (∀ (g : Game) (dt : ℚ),
      queueKept dt g = (g.pipes.map (movedPipe dt g.bird.x)).drop
        (g.pipes.length - (queueKept dt g).length) ∧
      (∀ p ∈ (g.pipes.map (movedPipe dt g.bird.x)).take
        (g.pipes.length - (queueKept dt g).length), p.x + 88 < -20) ∧
      ∀ (i : ℕ) (p : Pipe),
        g.pipes[(g.pipes.length - (queueKept dt g).length) + i]? = some p →
        (queueKept dt g)[i]? =
          some { x := p.x - 190 * dt, gapY := p.gapY,
                 passed := p.passed || decide ((p.x - 190 * dt) + 88 < g.bird.x) }) := by
  have h0 : Spaced (start W H best stored rand).pipes := by
    simp only [start, resetRound, spawnPipe, initGame, List.nil_append, List.cons_append,
      Spaced, List.chain'_cons, List.chain'_singleton, and_true]
    constructor <;> ring
  have h1 : Spaced (run W H (start W H best stored rand) acts).pipes := run_spaced W H acts _ h0
  refine ⟨by simpa [Spaced, pipeSpacing] using h1, ?_,
    fun g r => onActionInput_pipes W H r g,
    fun g dt e => update_queueAfter W H dt e g,
    fun g timestamp e => tick_queueAfter W H timestamp e g, ?_⟩
  · have : IsTrans Pipe (fun p q : Pipe => p.x < q.x) := ⟨fun _ _ _ h1 h2 => lt_trans h1 h2⟩
    refine List.chain'_iff_pairwise.mp (h1.imp ?_)
    intro p q hpq
    simp only [pipeSpacing] at hpq
    linarith
  · intro g dt
    refine ⟨(queueKept_drop dt g).1, (queueKept_drop dt g).2, ?_⟩
    intro i p hp
    rw [(queueKept_getElem dt g i p hp).1, movedPipe_eq]

theorem pipes_spacing_invariant_witness :
    samplePlaying.state = .playing ∧
    ∃ n : ℕ, SpawnCount 480 (frontier 480 (queueKept (1 / 60) samplePlaying)) n ∧
      (update 480 640 (1 / 60) sampleEnv samplePlaying).pipes =
        queueKept (1 / 60) samplePlaying ++
          spawned 640 (frontier 480 (queueKept (1 / 60) samplePlaying)) randHalf n := by
  obtain ⟨n, h1, h2⟩ :=
    (pipes_spacing_invariant 480 640 0 none randHalf []).2.2.2.1 samplePlaying (1 / 60)
      sampleEnv
  exact ⟨rfl, n, h1 rfl, h2⟩

theorem queueKept_gapY (dt : ℚ) (g : Game) :
    (queueKept dt g).map Pipe.gapY =
      (g.pipes.drop (g.pipes.length - (queueKept dt g).length)).map Pipe.gapY := by
  conv_lhs => rw [(queueKept_drop dt g).1]
  rw [← List.map_drop, List.map_map]
  rfl

theorem spawned_gapY (H r : ℚ) (rand : ℕ → ℚ) (n : ℕ) :
    (spawned H r rand n).map Pipe.gapY = (List.range n).map (fun j => randomGapY H (rand j)) := by
  simp only [spawned, List.map_map]
  rfl

/-- C6: provided `H ≥ 425` (so that `minGapY ≤ maxGapY`) and every random draw
lies in `[0, 1)`: the pipe appended by `spawnPipe` has
`minGapY ≤ gapY ≤ maxGapY`, with `minGapY = 60 + 185/2` and
`maxGapY = H - 120 - 60 - 185/2`; so has every pipe of every queue reached from
the initial reset, and then its top segment height `gapY - 185/2` and its bottom
segment height `(H - 120) - (gapY + 185/2)` are both at least 60.  No call
modifies the `gapY` of a pipe that stays in the queue: an input outside
`GameOver` and a frame outside `Playing` leave the queue as it is, and after a
frame in `Playing` the gap centres of the queue are exactly those of the old
queue without its first `k` pipes (the recycled ones), in order, followed by the
`n` fresh draws of the spawned pipes. -/
theorem gapY_invariant (W H : ℚ) (best : ℤ) (stored : Option String) (rand : ℕ → ℚ)
    (acts : List Action) (hH : 425 ≤ H) (hrand : ∀ n, 0 ≤ rand n ∧ rand n < 1)
    (hacts : ∀ a ∈ acts, a.randOk) :
    (minGapY = 60 + 185 / 2 ∧ maxGapY H = H - 120 - 60 - 185 / 2) ∧
    (∀ (x r : ℚ) (g : Game), 0 ≤ r → r < 1 →
      ∃ p : Pipe, (spawnPipe H x r g).pipes = g.pipes ++ [p] ∧ p.x = x ∧
        minGapY ≤ p.gapY ∧ p.gapY ≤ maxGapY H) ∧
    (∀ p ∈ (run W H (start W H best stored rand) acts).pipes,
      minGapY ≤ p.gapY ∧ p.gapY ≤ maxGapY H ∧
      60 ≤ p.gapY - 185 / 2 ∧ 60 ≤ (H - 120) - (p.gapY + 185 / 2)) ∧
    (∀ (g : Game) (r : ℕ → ℚ), g.state ≠ .gameOver →
      (onActionInput W H r g).pipes = g.pipes) ∧
    (∀ (g : Game) (dt : ℚ) (e : Env), g.state ≠ .playing →
      (update W H dt e g).pipes = g.pipes ∧
      ∀ timestamp : ℚ, (tick W H timestamp e g).pipes = g.pipes) ∧
    (∀ (g : Game) (dt : ℚ) (e : Env), g.state = .playing → ∃ n : ℕ,
      SpawnCount W (frontier W (queueKept dt g)) n ∧
      (update W H dt e g).pipes =
        queueKept dt g ++ spawned H (frontier W (queueKept dt g)) e.rand n ∧
      (update W H dt e g).pipes.map Pipe.gapY =
        (g.pipes.drop (g.pipes.length - (queueKept dt g).length)).map Pipe.gapY ++
          (List.range n).map (fun j => randomGapY H (e.rand j))) ∧
    (∀ (g : Game) (timestamp : ℚ) (e : Env), g.state = .playing → ∃ n : ℕ,
      SpawnCount W (frontier W (queueKept (tickDt timestamp g) g)) n ∧
      (tick W H timestamp e g).pipes.map Pipe.gapY =
        (g.pipes.drop
          (g.pipes.length - (queueKept (tickDt timestamp g) g).length)).map Pipe.gapY ++
          (List.range n).map (fun j => randomGapY H (e.rand j))) := by
  have hc : minGapY = 60 + 185 / 2 ∧ maxGapY H = H - 120 - 60 - 185 / 2 := by
    norm_num [maxGapY, minGapY, GROUND_HEIGHT, minBottomHeight, minTopHeight, pipeGap]
  refine ⟨hc, ?_, ?_, ?_, ?_, ?_, ?_⟩
  · intro x r g h0 h1
    exact ⟨_, rfl, rfl, randomGapY_bounds H r hH h0 h1⟩
  · intro p hp
    have := run_gapOk W H acts _ hH hacts (resetRound_gapOk W H rand _ hH hrand) p hp
    obtain ⟨h1, h2⟩ := this
    rw [hc.1] at h1
    rw [hc.2] at h2
    rw [hc.1, hc.2]
    refine ⟨h1, h2, ?_, ?_⟩ <;> linarith
  · intro g r hs
    rw [onActionInput_pipes, if_neg hs]
  · intro g dt e hs
    refine ⟨(update_idle_frame W H dt e g hs).2.2.2.2, fun timestamp => ?_⟩
    rw [tick_eq_update]
    exact (update_idle_frame W H _ e { g with lastTime := timestamp } hs).2.2.2.2
  · intro g dt e hs
    obtain ⟨n, h1, h2⟩ := update_queueAfter W H dt e g
    rw [queueAfter, if_pos hs] at h2
    refine ⟨n, h1 hs, h2, ?_⟩
    rw [h2, List.map_append, queueKept_gapY, spawned_gapY]
  · intro g timestamp e hs
    obtain ⟨n, h1, h2⟩ := tick_queueAfter W H timestamp e g
    rw [queueAfter, if_pos hs] at h2
    refine ⟨n, h1 hs, ?_⟩
    rw [h2, List.map_append, queueKept_gapY, spawned_gapY]

theorem gapY_invariant_witness :
    (425 : ℚ) ≤ 640 ∧ (∀ n, 0 ≤ randHalf n ∧ randHalf n < 1) ∧
    (∀ a ∈ sampleActs, a.randOk) ∧
    ∀ p ∈ (run 480 640 (start 480 640 0 none randHalf) sampleActs).pipes,
      minGapY ≤ p.gapY ∧ p.gapY ≤ maxGapY 640 ∧
      60 ≤ p.gapY - 185 / 2 ∧ 60 ≤ (640 - 120) - (p.gapY + 185 / 2) :=
  have h1 : (425 : ℚ) ≤ 640 := by norm_num
  have h2 : ∀ n, 0 ≤ randHalf n ∧ randHalf n < 1 := by
    intro n
    norm_num [randHalf]
  have h3 : ∀ a ∈ sampleActs, a.randOk := by
    intro a ha
    simp only [sampleActs, List.mem_cons, List.mem_singleton, List.not_mem_nil, or_false] at ha
    rcases ha with rfl | rfl <;> exact h2
  ⟨h1, h2, h3, (gapY_invariant 480 640 0 none randHalf sampleActs h1 h2 h3).2.2.1⟩

/-- C7: in `Playing`, `updatePipes(dt)` raises `score` by exactly the number of
pipes that had `passed = false` and whose moved trailing edge satisfies
`(x - 190*dt) + 88 < bird.x`; the scoring loop leaves each pipe moved, with
`passed` set on exactly those pipes and no flag cleared; the queue after the
call is exactly that list without its recycled front run, followed by the
spawned pipes with `passed = false`, so the pipe at position `k + i` of the old
queue is at position `i` of the new one with its flag kept or newly set; a pipe
counted in this call is flagged in the new queue, and the next call counts only
pipes of that queue whose flag is false; over any run no step but the reset (an
input in `GameOver`) lowers `score`, and along every run from the initial reset
`score` is the number of pipes recycled since the last reset plus the number of
queued pipes with `passed = true` (each pipe counts once). -/
theorem updatePipes_scores_once (W H dt : ℚ) (rand : ℕ → ℚ) (g : Game)
    (h : g.state = .playing) :
    (updatePipes W H dt rand g).score =
      g.score + (g.pipes.countP
        (fun p => !p.passed && decide ((p.x - 190 * dt) + 88 < g.bird.x)) : ℤ) ∧
    (movePipes dt g.pipes g).1 = g.pipes.map (fun p =>
      { x := p.x - 190 * dt, gapY := p.gapY,
        passed := p.passed || decide ((p.x - 190 * dt) + 88 < g.bird.x) }) ∧
    (queueKept dt g =
      (movePipes dt g.pipes g).1.dropWhile (fun p => decide (p.x + 88 < -20)) ∧
      ∃ n : ℕ, SpawnCount W (frontier W (queueKept dt g)) n ∧
        (updatePipes W H dt rand g).pipes =
          queueKept dt g ++ spawned H (frontier W (queueKept dt g)) rand n ∧
        ∀ q ∈ spawned H (frontier W (queueKept dt g)) rand n, q.passed = false) ∧
    (∀ (i : ℕ) (p : Pipe),
      g.pipes[(g.pipes.length - (queueKept dt g).length) + i]? = some p →
      (updatePipes W H dt rand g).pipes[i]? =
        some { x := p.x - 190 * dt, gapY := p.gapY,
               passed := p.passed || decide ((p.x - 190 * dt) + 88 < g.bird.x) }) ∧
    (∀ (i : ℕ) (p : Pipe),
      g.pipes[(g.pipes.length - (queueKept dt g).length) + i]? = some p →
      (!p.passed && decide ((p.x - 190 * dt) + 88 < g.bird.x)) = true →
      ∃ q : Pipe, (updatePipes W H dt rand g).pipes[i]? = some q ∧ q.passed = true) ∧
    (∀ (dt2 : ℚ) (rand2 : ℕ → ℚ),
      (updatePipes W H dt2 rand2 (updatePipes W H dt rand g)).score =
        (updatePipes W H dt rand g).score +
          ((updatePipes W H dt rand g).pipes.countP
            (fun q => !q.passed && decide ((q.x - 190 * dt2) + 88 < g.bird.x)) : ℤ)) ∧
    g.score ≤ (updatePipes W H dt rand g).score ∧
    (∀ (g2 : Game) (a : Action),
      g2.score ≤ (step W H g2 a).score ∨ (g2.state = .gameOver ∧ ∃ r, a = .input r)) ∧
    ∀ (best : ℤ) (stored : Option String) (rnd : ℕ → ℚ) (acts : List Action),
      (run W H (start W H best stored rnd) acts).score
        = (recycledRun W H 0 (start W H best stored rnd) acts : ℤ)
          + ((run W H (start W H best stored rnd) acts).pipes.countP (fun p => p.passed) : ℤ) := by
  have hn : ∀ (d bx : ℚ),
      (fun p : Pipe => !p.passed && decide ((p.x - 190 * d) + 88 < bx)) = newlyPassed d bx := by
    intro d bx
    funext p
    simp [newlyPassed, pipeSpeed, pipeWidth]
  have hm : (fun p : Pipe => Pipe.mk (p.x - 190 * dt) p.gapY
        (p.passed || decide ((p.x - 190 * dt) + 88 < g.bird.x)))
      = movedPipe dt g.bird.x := by
    funext p
    simp [movedPipe, pipeSpeed, pipeWidth]
  obtain ⟨n, hcount, hq⟩ := updatePipes_exact W H dt rand g h
  have hpos : ∀ (i : ℕ) (p : Pipe),
      g.pipes[(g.pipes.length - (queueKept dt g).length) + i]? = some p →
      (updatePipes W H dt rand g).pipes[i]? = some (movedPipe dt g.bird.x p) := by
    intro i p hp
    obtain ⟨h1, h2⟩ := queueKept_getElem dt g i p hp
    rw [hq, List.getElem?_append_left h2, h1]
  have hst := updatePipes_frame W H dt rand g
  refine ⟨?_, ?_, ⟨?_, n, hcount, hq, ?_⟩, ?_, ?_, ?_, ?_, step_score W H, ?_⟩
  · rw [hn]
    exact updatePipes_score W H dt rand g h
  · rw [hm]
    exact movePipes_pipes dt g.pipes g
  · rw [movePipes_pipes]
    rfl
  · intro q hq2
    simp only [spawned, List.mem_map] at hq2
    obtain ⟨j, -, rfl⟩ := hq2
    rfl
  · intro i p hp
    rw [hpos i p hp, movedPipe_eq]
  · intro i p hp hc
    refine ⟨_, hpos i p hp, ?_⟩
    simp only [Bool.and_eq_true, decide_eq_true_eq] at hc
    simp [movedPipe, pipeSpeed, pipeWidth, hc.2]
  · intro dt2 rand2
    rw [hn, updatePipes_score W H dt2 rand2 _ (by rw [hst.1]; exact h), hst.2.1]
  · rw [updatePipes_score W H dt rand g h]
    omega
  · intro best stored rnd acts
    exact (run_account W H acts (start W H best stored rnd) 0 rfl
      (by simp [start, resetRound, spawnPipe, initGame])).2

theorem updatePipes_scores_once_witness :
    samplePlaying.state = .playing ∧
    (updatePipes 480 640 (1 / 60) randHalf samplePlaying).score = 2 ∧
    samplePlaying.score ≤ (updatePipes 480 640 (1 / 60) randHalf samplePlaying).score :=
  have h := updatePipes_scores_once 480 640 (1 / 60) randHalf samplePlaying rfl
  ⟨rfl, by rw [h.1]; norm_num [samplePlaying, List.countP_cons], h.2.2.2.2.2.2.1⟩

end Flappy
